import Mathlib

/-!
# xorg-input-kobomultitouch: jitter filter and gesture extraction

A shallow embedding of `src/jitter_filter.c` and `src/gestures.c`, with the
pieces of `include/common.h` they use, followed by theorems about them.

Conventions of the embedding

* C `int` values are `Int`; every arithmetic result that C stores in an `int`
  goes through `wrap32` (two's complement wrap-around), every `unsigned`
  result through `u32`.  A right shift of an `int` is the arithmetic shift,
  that is floor division by a power of two.
* Counters that the code keeps non-negative (`nr`, `nfinger`) are `Nat`; the
  ring-buffer cursor `head`, which the code always reduces with
  `& (NR_SAMPHISTLEN - 1)`, is a `Fin 8`, whose arithmetic is that reduction.
* Arrays are total functions of the index; an access the C code performs
  without a range check on an index that can leave the array makes the
  operation return `none`.
* File-level and function-level `static` variables are explicit arguments and
  results.
* The `float` computations of `extract_movement` go through a record of
  operations (`FloatOps`); statements that depend on the values computed are
  made for exact rational arithmetic (`ratOps`), statements that depend on the
  control flow only are made for any operations.
* Constants, types and helpers that the two files take from headers which are
  not among the sources are parameters (`Consts`) or are modelled from the
  specification, and say so.
-/

namespace Kobo

/-! ## Machine integers -/

/-- Two's complement reduction of an integer to the range of a C `int`. -/
def wrap32 (z : Int) : Int := (z + 2147483648) % 4294967296 - 2147483648

/-- Reduction of an integer to the range of a C `unsigned int`. -/
def u32 (z : Int) : Int := z % 4294967296

/-- The values a C `int` can hold. -/
def isInt32 (z : Int) : Prop := -2147483648 ≤ z ∧ z ≤ 2147483647

instance (z : Int) : Decidable (isInt32 z) := by
  unfold isInt32; infer_instance

/-! ## jitter_filter.c -/

/-- Macro `#define NR_SAMPHISTLEN 8` -/
def NR_SAMPHISTLEN : Nat := 8

/-- Macro `#define MAX_FINGERS 2` -/
def MAX_FINGERS : Nat := 2

/-- The table `weight[NR_SAMPHISTLEN - 1][NR_SAMPHISTLEN + 1]`; the last entry
of a row is the binary logarithm of the sum of the others. -/
def weight : List (List Int) :=
  [ [5, 3, 0, 0, 0, 0, 0, 0, 3],
    [8, 5, 3, 0, 0, 0, 0, 0, 4],
    [6, 4, 3, 3, 0, 0, 0, 0, 4],
    [10, 8, 5, 5, 4, 0, 0, 0, 5],
    [9, 7, 5, 4, 4, 3, 0, 0, 5],
    [9, 6, 5, 4, 3, 3, 2, 0, 5],
    [9, 5, 4, 3, 3, 3, 3, 2, 5] ]

/-- Entry `weight[row][col]` (0 outside the table). -/
def weightAt (row col : Nat) : Int := (weight.getD row []).getD col 0

/-- One contact of a frame (`struct FingerState`), with the fields the two
source files read. -/
structure FingerState where
  tracking_id : Int
  position_x : Int
  position_y : Int
  pressure : Int
deriving DecidableEq, Repr

/-- One stored raw sample (`struct ts_hist`); `p` is an `unsigned int`. -/
structure ts_hist where
  x : Int
  y : Int
  p : Int
deriving DecidableEq, Repr

/-- Filter state of one identity (`struct tslib_dejitter`). -/
structure tslib_dejitter where
  delta : Int
  x : Int
  y : Int
  down : Int
  nr : Nat
  head : Fin 8
  hist : Fin 8 → ts_hist

/-- Function `static int sqr (int x)`. -/
def sqr (x : Int) : Int := wrap32 (x * x)

/-- Accumulators of the loop of `average`: the sums `x`, `y`, `p` and the
cursor `sn`. -/
structure AvgAcc where
  x : Int
  y : Int
  p : Int
  sn : Fin 8

/-- One iteration of the loop of `average`, for column `i` of weight row
`row`. -/
def average_step (djt : tslib_dejitter) (row : Nat) (a : AvgAcc) (i : Nat) : AvgAcc :=
  { x := wrap32 (a.x + wrap32 ((djt.hist a.sn).x * weightAt row i))
    y := wrap32 (a.y + wrap32 ((djt.hist a.sn).y * weightAt row i))
    p := u32 (a.p + u32 ((djt.hist a.sn).p * weightAt row i))
    sn := a.sn - 1 }

/-- The loop of `average`: `for (i = 0; i < djt->nr; i++)`. -/
def average_loop (djt : tslib_dejitter) : AvgAcc :=
  (List.range djt.nr).foldl (average_step djt (djt.nr - 2)) ⟨0, 0, 0, djt.head⟩

/-- Function `static void average(struct tslib_dejitter *djt, struct FingerState *samp)`. -/
def average (djt : tslib_dejitter) (samp : FingerState) : FingerState :=
  let a := average_loop djt
  let sh := (weightAt (djt.nr - 2) NR_SAMPHISTLEN).toNat
  { samp with
    position_x := a.x / 2 ^ sh
    position_y := a.y / 2 ^ sh
    pressure := wrap32 (a.p / 2 ^ sh) }

/-- The state `init` gives every identity: zeroed, with `delta = 15`. -/
def init_djt : tslib_dejitter :=
  { delta := 15, x := 0, y := 0, down := 0, nr := 0, head := 0, hist := fun _ => ⟨0, 0, 0⟩ }

/-- The jump test of `jitter_finger`: "if the pen moves too fast". -/
def jump (djt : tslib_dejitter) (s : FingerState) : Bool :=
  let prev := djt.head - 1
  decide (wrap32 (sqr (wrap32 (s.position_x - (djt.hist prev).x)) +
            sqr (wrap32 (s.position_y - (djt.hist prev).y))) > djt.delta)

/-- The body of `jitter_finger` on the filter state `djt = &djts[s->tracking_id]`. -/
def jitter_djt (djt : tslib_dejitter) (s : FingerState) : tslib_dejitter × FingerState :=
  let djt1 := if djt.nr ≠ 0 ∧ jump djt s = true then { djt with nr := 0 } else djt
  let djt2 := { djt1 with
    hist := Function.update djt1.hist djt1.head
      ⟨s.position_x, s.position_y, u32 s.pressure⟩ }
  let djt3 := if djt2.nr < NR_SAMPHISTLEN then { djt2 with nr := djt2.nr + 1 } else djt2
  let s1 := if djt3.nr > 1 then average djt3 s else s
  ({ djt3 with head := djt3.head + 1 }, s1)

/-- Function `void jitter_finger(struct FingerState *s)` on the array `djts`, which it
indexes with `s->tracking_id` unchecked. -/
def jitter_finger (djts : Nat → tslib_dejitter) (s : FingerState) :
    Option ((Nat → tslib_dejitter) × FingerState) :=
  if 0 ≤ s.tracking_id ∧ s.tracking_id < MAX_FINGERS then
    let r := jitter_djt (djts s.tracking_id.toNat) s
    some (Function.update djts s.tracking_id.toNat r.1, r.2)
  else none

/-- One frame (`struct MTState`): the contact slots, the number of slots in
use, the hardware button mask and the event time. -/
structure MTState where
  finger : Nat → FingerState
  nfinger : Nat
  button : Nat
  evtime : Nat

/-- The file-level state of jitter_filter.c: the pointer `djts` (`none` is
`NULL`) and the static array `prev_fingers` of `jitter_filter`. -/
structure JitterGlobals where
  djts : Option (Nat → tslib_dejitter)
  prev_fingers : Nat → Int

/-- The program's initial globals: `djts = NULL`, `prev_fingers` zero. -/
def JitterGlobals.initial : JitterGlobals := ⟨none, fun _ => 0⟩

/-- Function `static void init()`: the array it allocates. -/
def init : Nat → tslib_dejitter := fun _ => init_djt

/-- Body of the first loop of `jitter_filter` for slot `i`; the state is the
array `djts` and the contact slots of the frame. -/
def filter_step (prev_fingers : Nat → Int)
    (st : (Nat → tslib_dejitter) × (Nat → FingerState)) (i : Nat) :
    Option ((Nat → tslib_dejitter) × (Nat → FingerState)) :=
  let s := st.2 i
  if s.tracking_id < 0 ∨ s.tracking_id ≥ MAX_FINGERS then some st
  else
    let id := s.tracking_id.toNat
    let djts1 :=
      if prev_fingers id = 0 then Function.update st.1 id { st.1 id with nr := 0 } else st.1
    (jitter_finger djts1 s).map fun r => (r.1, Function.update st.2 i r.2)

/-- The first loop of `jitter_filter` over the slots in `is`. -/
def filter_loop (prev_fingers : Nat → Int) :
    List Nat → (Nat → tslib_dejitter) × (Nat → FingerState) →
    Option ((Nat → tslib_dejitter) × (Nat → FingerState))
  | [], st => some st
  | i :: is, st => (filter_step prev_fingers st i).bind (filter_loop prev_fingers is)

/-- The last loop of `jitter_filter`, `prev_fingers[s->tracking_id] = 1`, over
the slots in `is`; the index is not checked, so an identity outside
`[0, MAX_FINGERS)` leaves the array. -/
def mark_loop (finger : Nat → FingerState) : List Nat → (Nat → Int) → Option (Nat → Int)
  | [], prev => some prev
  | i :: is, prev =>
    let id := (finger i).tracking_id
    if 0 ≤ id ∧ id < MAX_FINGERS then
      mark_loop finger is (Function.update prev id.toNat 1)
    else none

/-- The array `djts` after the `if (djts == NULL)` block of `jitter_filter`. -/
def current_djts (g : JitterGlobals) : Nat → tslib_dejitter :=
  match g.djts with
  | none => init
  | some d => d

/-- The array `prev_fingers` after the `if (djts == NULL)` block of
`jitter_filter`. -/
def current_prev (g : JitterGlobals) : Nat → Int :=
  match g.djts with
  | none => fun _ => 0
  | some _ => g.prev_fingers

/-- Function `int jitter_filter(struct MTState *state)`: the new globals, the frame
with its contacts filtered in place, and the return value. -/
def jitter_filter (g : JitterGlobals) (state : MTState) :
    Option (JitterGlobals × MTState × Int) :=
  (filter_loop (current_prev g) (List.range state.nfinger)
      (current_djts g, state.finger)).bind fun st =>
    (mark_loop st.2 (List.range state.nfinger) (fun _ => 0)).map fun prev =>
      (⟨some st.1, prev⟩, { state with finger := st.2 }, 1)

/-- Feeding a sequence of frames to `jitter_filter`: the final globals and the
filtered frames, in order. -/
def jitter_run : JitterGlobals → List MTState → Option (JitterGlobals × List MTState)
  | g, [] => some (g, [])
  | g, f :: fs =>
    (jitter_filter g f).bind fun r =>
      (jitter_run r.1 fs).map fun q => (q.1, r.2.1 :: q.2)

/-! ### Vocabulary for statements about the filter -/

/-- The slot the loop of `average` reads at iteration `i`, starting from
`head`: `sn = (sn - 1) & (NR_SAMPHISTLEN - 1)` applied `i` times. -/
def cursor (head : Fin 8) : Nat → Fin 8
  | 0 => head
  | i + 1 => cursor head i - 1

/-- The `i`-th newest raw sample stored in a filter state (0 is the sample
inserted last). -/
def nth_raw (djt : tslib_dejitter) (i : Nat) : ts_hist :=
  djt.hist (cursor (djt.head - 1) i)

/-- The weighted mean of `n` values `r 0, ..., r (n-1)` with row `n - 2` of
the weight table, over the integers: the floor of the weighted sum divided by
two to the power of the row's last entry. -/
def weighted (n : Nat) (r : Nat → Int) : Int :=
  ((List.range n).map fun i => r i * weightAt (n - 2) i).sum /
    2 ^ (weightAt (n - 2) NR_SAMPHISTLEN).toNat

/-- A stored sample small enough that no weighted sum of up to eight such
samples leaves the range of `int` (coordinates) or `unsigned` (pressure). -/
def smallHist (h : ts_hist) : Prop :=
  -67108864 ≤ h.x ∧ h.x < 67108864 ∧ -67108864 ≤ h.y ∧ h.y < 67108864 ∧
  0 ≤ h.p ∧ h.p < 134217728

instance (h : ts_hist) : Decidable (smallHist h) := by
  unfold smallHist; infer_instance

/-- The raw sample of a contact as `jitter_finger` stores it. -/
def raw_of (s : FingerState) : ts_hist := ⟨s.position_x, s.position_y, u32 s.pressure⟩

/-- Every contact of the frame has an identity in `[0, MAX_FINGERS)`, every
contact with the identity of `s` carries exactly the sample `s`, and there is
such a contact. -/
def FrameHolds (f : MTState) (s : FingerState) : Prop :=
  (∃ j, j < f.nfinger ∧ f.finger j = s) ∧
  ∀ j, j < f.nfinger →
    0 ≤ (f.finger j).tracking_id ∧ (f.finger j).tracking_id < MAX_FINGERS ∧
    ((f.finger j).tracking_id = s.tracking_id → f.finger j = s)

/-- A frame with the single contact `s`. -/
def single_frame (s : FingerState) : MTState :=
  { finger := fun _ => s, nfinger := 1, button := 0, evtime := 0 }

/-- The filtered positions and pressures of slot 0 over a run of frames. -/
def run_outputs (g : JitterGlobals) (fs : List MTState) : Option (List FingerState) :=
  (jitter_run g fs).map fun r => r.2.map fun f => f.finger 0

/-- The bound of the claim on a raw sample: 32 times a coordinate fits an
`int`, 32 times the pressure fits an `unsigned`. -/
def smallSample (s : FingerState) : Prop :=
  isInt32 (32 * s.position_x) ∧ isInt32 (32 * s.position_y) ∧
  0 ≤ s.pressure ∧ 32 * s.pressure < 4294967296

instance (s : FingerState) : Decidable (smallSample s) := by
  unfold smallSample; infer_instance

/-- The sample count after one call. -/
def next_nr (djt : tslib_dejitter) (s : FingerState) : Nat :=
  let nr1 := if djt.nr ≠ 0 ∧ jump djt s = true then 0 else djt.nr
  if nr1 < NR_SAMPHISTLEN then nr1 + 1 else nr1

/-- The filter state at the call of `average`. -/
def inserted (djt : tslib_dejitter) (s : FingerState) : tslib_dejitter :=
  { djt with nr := next_nr djt s, hist := Function.update djt.hist djt.head (raw_of s) }

/-- The array `djts` after `init` and one call of `jitter_finger` with the
sample `s` for each identity. -/
def after_one (s : FingerState) : Nat → tslib_dejitter := fun _ => (jitter_djt init_djt s).1

/-- The `m` newest stored samples all equal `c`. -/
def ConstWindow (djt : tslib_dejitter) (c : ts_hist) (m : Nat) : Prop :=
  ∀ i, i < m → nth_raw djt i = c

/-! ## common.h -/

/-- Macro `#define DIM_FINGER 32` -/
def DIM_FINGER : Nat := 32

/-- Macro `#define BITMASK(x) (1U << (x))`, on `bitmask_t = unsigned int`. -/
def BITMASK (x : Nat) : Nat := (1 <<< x) % 4294967296

/-- Macro `#define BITONES(x) (BITMASK(x) - 1U)`. -/
def BITONES (x : Nat) : Nat := (BITMASK x + 4294967295) % 4294967296

/-- Macro `#define GETBIT(m, x) (((m) >> (x)) & 1U)`. -/
def GETBIT (m x : Nat) : Nat := (m >>> x) &&& 1

/-- Macro `#define SETBIT(m, x) (m |= BITMASK(x))`: the new value of `m`. -/
def SETBIT (m x : Nat) : Nat := m ||| BITMASK x

/-- Macro `#define CLEARBIT(m, x) (m &= ~BITMASK(x))`: the new value of `m`. -/
def CLEARBIT (m x : Nat) : Nat := m &&& (4294967295 ^^^ BITMASK x)

/-- Function `static inline int clamp15(int x)`. -/
def clamp15 (x : Int) : Int := if x < -32767 then -32767 else if x > 32767 then 32767 else x

/-- Function `static inline int dist2(int dx, int dy)`. -/
def dist2 (dx dy : Int) : Int :=
  wrap32 (wrap32 (clamp15 dx * clamp15 dx) + wrap32 (clamp15 dy * clamp15 dy))

/-- Function `static inline int bitcount(unsigned v)`, the three steps of the source in
`unsigned` arithmetic. -/
def bitcount (v : Nat) : Nat :=
  let v0 := v % 4294967296
  let v1 := (v0 + 4294967296 - ((v0 >>> 1) &&& 0x55555555)) % 4294967296
  let v2 := ((v1 &&& 0x33333333) + ((v1 >>> 2) &&& 0x33333333)) % 4294967296
  (((((v2 + (v2 >>> 4)) % 4294967296) &&& 0xF0F0F0F) * 0x1010101) % 4294967296) >>> 24

/-- Macro `#define firstbit(v) (__builtin_ffs(v) - 1)`: index of the lowest set bit
of the 32-bit value, `-1` on zero. -/
def firstbit (v : Nat) : Int :=
  match (List.range 32).find? (fun i => v.testBit i) with
  | some i => (i : Int)
  | none => -1

/-- The indices `foreach_bit(i, m)` visits, in order:
`for (i = firstbit(m); i >= 0; i = firstbit((m) & (~0U << i + 1)))`.  Every
step moves to a higher index, so 32 steps exhaust the mask.  The step after
index 31 shifts by 32, which is undefined in C: the list is what the loop has
visited when it does; whether the loop returns is `foreach_bit_checked`. -/
def foreach_bit_from (m : Nat) : Nat → Int → List Nat
  | 0, _ => []
  | fuel + 1, i =>
    if i < 0 then []
    else i.toNat ::
      foreach_bit_from m fuel (firstbit (m &&& ((4294967295 <<< (i.toNat + 1)) % 4294967296)))

/-- The indices visited by `foreach_bit(i, m)`. -/
def foreach_bit (m : Nat) : List Nat := foreach_bit_from m 32 (firstbit m)

/-- Macro `foreach_bit(i, m)` with the shift of its step checked:
`for (i = firstbit(m); i >= 0; i = firstbit((m) & (~0U << i + 1)))`.  The
result is the list of the indices visited, or `none` when the step is taken
at `i = 31`: it evaluates `~0U << 32`, a shift by the width of the type, which
is undefined in C (where the shift count is taken modulo 32 the mask stays as
it is and the loop starts again, without end). -/
def foreach_bit_checked_from (m : Nat) : Nat → Int → Option (List Nat)
  | 0, _ => none
  | fuel + 1, i =>
    if i < 0 then some []
    else if 32 ≤ i.toNat + 1 then none
    else
      (foreach_bit_checked_from m fuel
        (firstbit (m &&& ((4294967295 <<< (i.toNat + 1)) % 4294967296)))).map
        fun l => i.toNat :: l

/-- The loop `foreach_bit(i, m)` from its start: the indices visited, or `none`
when the loop reaches index 31. -/
def foreach_bit_checked (m : Nat) : Option (List Nat) :=
  foreach_bit_checked_from m 33 (firstbit m)

/-- The C library function `int abs(int)`. -/
def c_abs (z : Int) : Int := wrap32 |z|

/-! ## The declarations gestures.c takes from headers that are not at hand

The bit numbers of the buttons and of the gesture types are constants of
headers that are not part of the sources; they are parameters here. -/

/-- Constants of the missing headers: button indices, the number of button
bits, and the bit index of each gesture type. -/
structure Consts where
  MT_BUTTON_LEFT : Nat
  MT_BUTTON_MIDDLE : Nat
  MT_BUTTON_RIGHT : Nat
  DIM_BUTTON : Nat
  GS_BUTTON : Nat
  GS_MOVE : Nat
  GS_VSCROLL : Nat
  GS_HSCROLL : Nat
  GS_VSWIPE : Nat
  GS_HSWIPE : Nat
  GS_VSWIPE4 : Nat
  GS_HSWIPE4 : Nat
  GS_SCALE : Nat
  GS_ROTATE : Nat
  GS_TAP : Nat
deriving DecidableEq, Repr

/-- The bit indices of the motion gesture types. -/
def Consts.motionBits (c : Consts) : List Nat :=
  [c.GS_MOVE, c.GS_ROTATE, c.GS_SCALE, c.GS_HSCROLL, c.GS_VSCROLL,
   c.GS_HSWIPE, c.GS_VSWIPE, c.GS_HSWIPE4, c.GS_VSWIPE4]

/-- What an enumeration of bit indices into a 32-bit mask guarantees: the
three buttons are distinct button bits, the gesture types distinct bits. -/
def Consts.WF (c : Consts) : Prop :=
  c.DIM_BUTTON ≤ 32 ∧
  c.MT_BUTTON_LEFT < c.DIM_BUTTON ∧ c.MT_BUTTON_MIDDLE < c.DIM_BUTTON ∧
  c.MT_BUTTON_RIGHT < c.DIM_BUTTON ∧
  [c.MT_BUTTON_LEFT, c.MT_BUTTON_MIDDLE, c.MT_BUTTON_RIGHT].Nodup ∧
  (∀ b ∈ c.GS_BUTTON :: c.GS_TAP :: c.motionBits, b < 32) ∧
  (c.GS_BUTTON :: c.GS_TAP :: c.motionBits).Nodup

instance (c : Consts) : Decidable c.WF := by
  unfold Consts.WF; infer_instance

/-- A concrete choice of the constants, consecutive enumerations with 15
button bits. -/
def Consts.sample : Consts :=
  { MT_BUTTON_LEFT := 0, MT_BUTTON_MIDDLE := 1, MT_BUTTON_RIGHT := 2, DIM_BUTTON := 15,
    GS_BUTTON := 0, GS_MOVE := 1, GS_VSCROLL := 2, GS_HSCROLL := 3, GS_VSWIPE := 4,
    GS_HSWIPE := 5, GS_VSWIPE4 := 6, GS_HSWIPE4 := 7, GS_SCALE := 8, GS_ROTATE := 9,
    GS_TAP := 10 }

/-- The gesture memory (`struct Memory`), with the fields gestures.c uses and
the end time of the movement hold window. -/
structure Memory where
  btdata : Nat
  same : Nat
  pointing : Nat
  moving : Nat
  thumb : Nat
  dx : Nat → Int
  dy : Nat → Int
  ntap : Int
  maxtap : Int
  tpdown : Nat
  tpup : Nat
  wait : Int
  move_time : Int

/-- The device context (`struct MTouch`): current frame, previous frame and
memory. -/
structure MTouch where
  state : MTState
  prev_state : MTState
  mem : Memory

/-- The output record (`struct Gestures`). -/
structure Gestures where
  type : Nat
  btmask : Nat
  btdata : Nat
  same_fingers : Nat
  posx : Int
  posy : Int
  dx : Int
  dy : Int
  scale : Int
  rot : Int
  tapmask : Nat
  ntap : Int
deriving DecidableEq, Repr

/-- The record after `memset(gs, 0, sizeof(struct Gestures))`. -/
def Gestures.zero : Gestures :=
  { type := 0, btmask := 0, btdata := 0, same_fingers := 0, posx := 0, posy := 0,
    dx := 0, dy := 0, scale := 0, rot := 0, tapmask := 0, ntap := 0 }

/-- The all-zero frame. -/
def MTState.zero : MTState :=
  { finger := fun _ => ⟨0, 0, 0, 0⟩, nfinger := 0, button := 0, evtime := 0 }

/-- The all-zero memory. -/
def Memory.zero : Memory :=
  { btdata := 0, same := 0, pointing := 0, moving := 0, thumb := 0, dx := fun _ => 0,
    dy := fun _ => 0, ntap := 0, maxtap := 0, tpdown := 0, tpup := 0, wait := 0,
    move_time := 0 }

/-- Modelled from the spec: `mt_delay_movement` is not among the sources; the
spec says a non-empty change mask "triggers a fixed movement-suppression hold
window", realised through a timer end-time kept in the memory.  It sets that
end time to the frame's event time plus `t`. -/
def mt_delay_movement (mt : MTouch) (t : Int) : MTouch :=
  { mt with mem := { mt.mem with move_time := mt.state.evtime + t } }

/-- Modelled from the spec: `mt_skip_movement` is not among the sources; the
spec says the thumb case is to "suppress output for a configured quiet period",
realised through a timer end-time kept in the memory.  It sets that end time
to the frame's event time plus `t`. -/
def mt_skip_movement (mt : MTouch) (t : Int) : MTouch :=
  { mt with mem := { mt.mem with move_time := mt.state.evtime + t } }

/-- Modelled from the spec: `find_finger` is not among the sources; it looks
among the active contacts of the frame for the one with the given tracking id
(`none` is `NULL`). -/
def find_finger (s : MTState) (tracking_id : Int) : Option FingerState :=
  ((List.range s.nfinger).map s.finger).find? (fun f => f.tracking_id = tracking_id)

/-! ## Floating point

`extract_movement` computes in `float`.  The operations it uses are the
fields of `FloatOps`; the control flow of the function is embedded once, for
any such operations.  `ratOps` is the idealisation by exact rational
arithmetic, with the square root of the C library as a parameter; `f32Ops`
is the arithmetic of `float` itself, every result rounded. -/

/-- The `float` operations used by `extract_movement`. -/
structure FloatOps (F : Type) where
  ofInt : Int → F
  toInt : F → Int
  add : F → F → F
  sub : F → F → F
  mul : F → F → F
  div : F → F → F
  sqrt : F → F
  gt : F → F → Bool

/-- Conversion of a rational to a C `int`: truncation toward zero. -/
def ratToInt (q : ℚ) : Int := Int.tdiv q.num q.den

/-- Exact rational arithmetic in the place of `float`, with a given square
root function. -/
def ratOps (sqrt : ℚ → ℚ) : FloatOps ℚ :=
  { ofInt := fun z => (z : ℚ)
    toInt := ratToInt
    add := fun a b => a + b
    sub := fun a b => a - b
    mul := fun a b => a * b
    div := fun a b => a / b
    sqrt := sqrt
    gt := fun a b => decide (a > b) }

/-- Rounding of a rational to the nearest `float` (IEEE 754 binary32: 24 bits
of significand, least exponent -126, ties to even).  Infinities are not
represented: a value beyond the largest `float` is rounded like any other. -/
def round32 (q : ℚ) : ℚ :=
  let e : Int := max (Int.log 2 |q|) (-126)
  let ulp : ℚ := (2 : ℚ) ^ (e - 23)
  let n : ℚ := q / ulp
  let f : Int := ⌊n⌋
  let r : Int :=
    if n - f < 1 / 2 then f
    else if n - f > 1 / 2 then f + 1
    else if f % 2 = 0 then f else f + 1
  r * ulp

/-- The `float` arithmetic of the C implementation (binary32): every
conversion from `int` and every operation rounds its exact result to the
nearest `float`.  The argument `sqrt` is the square root of the C library, its
result rounded when it is stored in a `float`.  A division by zero, which
gives an infinity or a NaN in C, gives 0 here: statements over `f32Ops` keep
to inputs for which the code does not divide by zero. -/
def f32Ops (sqrt : ℚ → ℚ) : FloatOps ℚ :=
  { ofInt := fun z => round32 (z : ℚ)
    toInt := ratToInt
    add := fun a b => round32 (a + b)
    sub := fun a b => round32 (a - b)
    mul := fun a b => round32 (a * b)
    div := fun a b => round32 (a / b)
    sqrt := fun a => round32 (sqrt a)
    gt := fun a b => decide (a > b) }

/-! ## gestures.c -/

/-- Constant `static const int FINGER_THUMB_MS = 600;` -/
def FINGER_THUMB_MS : Int := 600

/-- Constant `static const int BUTTON_HOLD_MS = 200;` -/
def BUTTON_HOLD_MS : Int := 200

/-- The button data `extract_buttons` derives before it looks at the memory:
the hardware mask, remapped by the number of pointing contacts when it is
exactly the left button. -/
def derived_btdata (c : Consts) (mt : MTouch) : Nat :=
  let btdata := mt.state.button &&& BITONES c.DIM_BUTTON
  let npoint := bitcount mt.mem.pointing
  if mt.state.button = BITMASK c.MT_BUTTON_LEFT then
    let btdata1 := if npoint = 2 then BITMASK c.MT_BUTTON_RIGHT else btdata
    if npoint = 3 then BITMASK c.MT_BUTTON_MIDDLE else btdata1
  else btdata

/-- Function `static void extract_buttons(struct Gestures *gs, struct MTouch* mt)`. -/
def extract_buttons (c : Consts) (gs : Gestures) (mt : MTouch) : Gestures × MTouch :=
  let btdata := derived_btdata c mt
  let npoint := bitcount mt.mem.pointing
  let r : Gestures × MTouch :=
    if mt.state.button ≠ mt.prev_state.button then
      ({ gs with btmask := (btdata ^^^ mt.mem.btdata) &&& BITONES c.DIM_BUTTON,
                 btdata := btdata },
       { mt with mem := { mt.mem with btdata := btdata } })
    else if btdata = 0 ∧ mt.mem.ntap ≠ 0 then
      let btdata1 :=
        if npoint = 1 ∧ mt.mem.maxtap = 1 then BITMASK c.MT_BUTTON_LEFT else btdata
      ({ gs with btmask := (btdata1 ^^^ mt.mem.btdata) &&& BITONES c.DIM_BUTTON,
                 btdata := btdata1 },
       { mt with mem := { mt.mem with btdata := btdata1 } })
    else (gs, mt)
  if r.1.btmask ≠ 0 then
    ({ r.1 with type := SETBIT r.1.type c.GS_BUTTON }, mt_delay_movement r.2 BUTTON_HOLD_MS)
  else r

/-- The variables the first loop of `extract_movement` writes: the arrays
`xp`, `yp`, `xm`, `ym`, the sums `xpos`, `ypos`, `xmove`, `ymove`, and the
accumulated deltas `mem.dx`, `mem.dy`. -/
structure MoveVars (F : Type) where
  xp : Nat → F
  yp : Nat → F
  xm : Nat → F
  ym : Nat → F
  xpos : F
  ypos : F
  xmove : F
  ymove : F
  dx : Nat → Int
  dy : Nat → Int

/-- Body of the first `foreach_bit(i, mt->mem.moving)` loop. -/
def movement_step {F : Type} (ops : FloatOps F) (finger : Nat → FingerState)
    (v : MoveVars F) (i : Nat) : MoveVars F :=
  let xpi := ops.sub (ops.ofInt (finger i).position_x) v.xpos
  let ypi := ops.sub (ops.ofInt (finger i).position_y) v.ypos
  let xmi := ops.ofInt (v.dx i)
  let ymi := ops.ofInt (v.dy i)
  { xp := Function.update v.xp i xpi
    yp := Function.update v.yp i ypi
    xm := Function.update v.xm i xmi
    ym := Function.update v.ym i ymi
    dx := Function.update v.dx i 0
    dy := Function.update v.dy i 0
    xpos := ops.add v.xpos xpi
    ypos := ops.add v.ypos ypi
    xmove := ops.add v.xmove xmi
    ymove := ops.add v.ymove ymi }

/-- The first loop of `extract_movement`, run from the initial values of the
locals (the arrays are uninitialised in C; every entry is written before it is
read). -/
def movement_vars {F : Type} (ops : FloatOps F) (mt : MTouch) : MoveVars F :=
  (foreach_bit mt.mem.moving).foldl (movement_step ops mt.state.finger)
    { xp := fun _ => ops.ofInt 0, yp := fun _ => ops.ofInt 0
      xm := fun _ => ops.ofInt 0, ym := fun _ => ops.ofInt 0
      xpos := ops.ofInt 0, ypos := ops.ofInt 0, xmove := ops.ofInt 0, ymove := ops.ofInt 0
      dx := mt.mem.dx, dy := mt.mem.dy }

/-- The variables the second loop of `extract_movement` writes. -/
structure ShapeVars (F : Type) where
  xp : Nat → F
  yp : Nat → F
  rad2 : F
  scale : F
  rot : F

/-- Body of the second `foreach_bit(i, mt->mem.moving)` loop; `xpos`, `ypos`
are the sums of the first loop divided by `nmove`. -/
def shape_step {F : Type} (ops : FloatOps F) (xm ym : Nat → F) (xpos ypos : F)
    (w : ShapeVars F) (i : Nat) : ShapeVars F :=
  let xpi := ops.sub (w.xp i) xpos
  let ypi := ops.sub (w.yp i) ypos
  { xp := Function.update w.xp i xpi
    yp := Function.update w.yp i ypi
    rad2 := ops.add (ops.add w.rad2 (ops.mul xpi xpi)) (ops.mul ypi ypi)
    scale := ops.add (ops.add w.scale (ops.mul xpi (xm i))) (ops.mul ypi (ym i))
    rot := ops.sub (ops.add w.rot (ops.mul xpi (ym i))) (ops.mul ypi (xm i)) }

/-- The second loop of `extract_movement`. -/
def shape_vars {F : Type} (ops : FloatOps F) (mt : MTouch) : ShapeVars F :=
  let v := movement_vars ops mt
  let n := ops.ofInt (bitcount mt.mem.moving)
  (foreach_bit mt.mem.moving).foldl
    (shape_step ops v.xm v.ym (ops.div v.xpos n) (ops.div v.ypos n))
    { xp := v.xp, yp := v.yp, rad2 := ops.ofInt 0, scale := ops.ofInt 0, rot := ops.ofInt 0 }

/-- The local `xmove` after `xmove /= nmove`. -/
def move_x {F : Type} (ops : FloatOps F) (mt : MTouch) : F :=
  ops.div (movement_vars ops mt).xmove (ops.ofInt (bitcount mt.mem.moving))

/-- The local `ymove` after `ymove /= nmove`. -/
def move_y {F : Type} (ops : FloatOps F) (mt : MTouch) : F :=
  ops.div (movement_vars ops mt).ymove (ops.ofInt (bitcount mt.mem.moving))

/-- The local `move = sqrt(xmove * xmove + ymove * ymove)`. -/
def move_len {F : Type} (ops : FloatOps F) (mt : MTouch) : F :=
  ops.sqrt (ops.add (ops.mul (move_x ops mt) (move_x ops mt))
    (ops.mul (move_y ops mt) (move_y ops mt)))

/-- The local `rad = sqrt(rad2)` after `rad2 /= nmove`. -/
def shape_rad {F : Type} (ops : FloatOps F) (mt : MTouch) : F :=
  ops.sqrt (ops.div (shape_vars ops mt).rad2 (ops.ofInt (bitcount mt.mem.moving)))

/-- The local `scale` after `scale /= nmove; scale /= rad`. -/
def shape_scale {F : Type} (ops : FloatOps F) (mt : MTouch) : F :=
  ops.div (ops.div (shape_vars ops mt).scale (ops.ofInt (bitcount mt.mem.moving)))
    (shape_rad ops mt)

/-- The local `rot` after `rot /= nmove; rot /= rad`. -/
def shape_rot {F : Type} (ops : FloatOps F) (mt : MTouch) : F :=
  ops.div (ops.div (shape_vars ops mt).rot (ops.ofInt (bitcount mt.mem.moving)))
    (shape_rad ops mt)

/-- The three conditional `SETBIT`s of a horizontal or vertical translation:
`two` for 2 moving contacts, `three` for 3, `four` for 4. -/
def set_by_count (type nmove two three four : Nat) : Nat :=
  let t1 := if nmove = 2 then SETBIT type two else type
  let t2 := if nmove = 3 then SETBIT t1 three else t1
  if nmove = 4 then SETBIT t2 four else t2

/-- The type bits after the two tests of the translation branch,
`if (abs(gs->dx) > abs(gs->dy))` and `if (abs(gs->dy) > abs(gs->dx))`. -/
def translation_type (c : Consts) (type nmove : Nat) (dx dy : Int) : Nat :=
  let t1 :=
    if c_abs dx > c_abs dy then set_by_count type nmove c.GS_HSCROLL c.GS_HSWIPE c.GS_HSWIPE4
    else type
  if c_abs dy > c_abs dx then set_by_count t1 nmove c.GS_VSCROLL c.GS_VSWIPE c.GS_VSWIPE4
  else t1

/-- Function `static void extract_movement(struct Gestures *gs, struct MTouch* mt)`.
The arguments of `abs` are converted to `int`, `abs` being the integer
function of the C library. -/
def extract_movement {F : Type} (c : Consts) (ops : FloatOps F) (gs : Gestures)
    (mt : MTouch) : Gestures × MTouch :=
  let npoint := bitcount mt.mem.pointing
  let nmove := bitcount mt.mem.moving
  if nmove = 0 ∨ nmove ≠ npoint then (gs, mt)
  else
    let v := movement_vars ops mt
    let mt1 : MTouch := { mt with mem := { mt.mem with dx := v.dx, dy := v.dy } }
    let xmove := move_x ops mt
    let ymove := move_y ops mt
    let move := move_len ops mt
    if nmove = 1 then
      if mt1.mem.moving &&& mt1.mem.thumb ≠ 0 then (gs, mt_skip_movement mt1 FINGER_THUMB_MS)
      else
        let gs1 := { gs with dx := ops.toInt xmove, dy := ops.toInt ymove }
        (if gs1.dx ≠ 0 ∨ gs1.dy ≠ 0 then { gs1 with type := SETBIT gs1.type c.GS_MOVE }
         else gs1, mt1)
    else
      let scale := shape_scale ops mt
      let rot := shape_rot ops mt
      let arot := c_abs (ops.toInt rot)
      let ascale := c_abs (ops.toInt scale)
      if ops.gt (ops.ofInt arot) move = true ∧ arot > ascale then
        let gs1 := { gs with rot := ops.toInt rot }
        (if gs1.rot ≠ 0 ∧ nmove = 2 then { gs1 with type := SETBIT gs1.type c.GS_ROTATE }
         else gs1, mt1)
      else if ops.gt (ops.ofInt ascale) move = true then
        let gs1 := { gs with scale := ops.toInt scale }
        (if gs1.scale ≠ 0 ∧ nmove = 2 then { gs1 with type := SETBIT gs1.type c.GS_SCALE }
         else gs1, mt1)
      else if mt1.mem.moving &&& mt1.mem.thumb ≠ 0 then
        (gs, mt_skip_movement mt1 FINGER_THUMB_MS)
      else
        let gs1 := { gs with dx := ops.toInt xmove, dy := ops.toInt ymove }
        ({ gs1 with type := translation_type c gs1.type nmove gs1.dx gs1.dy }, mt1)

/-- Function `void extract_mouse(struct Gestures *gs, struct MTouch* mt)`; the first
argument and the first component of the result are the function's static
variable `tracking_id`. -/
def extract_mouse (c : Consts) (tracking_id : Int) (gs : Gestures) (mt : MTouch) :
    Int × Gestures × MTouch :=
  if tracking_id = -1 then
    if mt.state.nfinger = 1 then
      ((mt.state.finger 0).tracking_id,
       { gs with posx := (mt.state.finger 0).position_x
                 posy := (mt.state.finger 0).position_y
                 btmask := SETBIT gs.btmask c.MT_BUTTON_LEFT
                 btdata := SETBIT gs.btdata c.MT_BUTTON_LEFT },
       { mt with mem := { mt.mem with btdata := BITMASK c.MT_BUTTON_LEFT } })
    else (tracking_id, gs, mt)
  else
    match find_finger mt.state tracking_id with
    | none =>
      (-1, { gs with btmask := SETBIT gs.btmask c.MT_BUTTON_LEFT
                     btdata := CLEARBIT gs.btdata c.MT_BUTTON_LEFT },
       { mt with mem := { mt.mem with btdata := 0 } })
    | some f =>
      (tracking_id,
       { gs with posx := f.position_x, posy := f.position_y
                 type := SETBIT gs.type c.GS_MOVE }, mt)

/-- Function `void extract_mouse_gestures(struct Gestures *gs, struct MTouch* mt)`. -/
def extract_mouse_gestures (c : Consts) (tracking_id : Int) (mt : MTouch) :
    Int × Gestures × MTouch :=
  let gs := { Gestures.zero with same_fingers := mt.mem.same }
  let r := extract_mouse c tracking_id gs mt
  (r.1, r.2.1, { r.2.2 with prev_state := r.2.2.state })

/-- Function `void extract_gestures(struct Gestures *gs, struct MTouch* mt)`. -/
def extract_gestures {F : Type} (c : Consts) (ops : FloatOps F) (mt : MTouch) :
    Gestures × MTouch :=
  let gs := { Gestures.zero with
    posx := (mt.state.finger 0).position_x
    posy := (mt.state.finger 0).position_y
    same_fingers := mt.mem.same }
  let r1 := extract_buttons c gs mt
  let r2 := extract_movement c ops r1.1 r1.2
  (r2.1, { r2.2 with prev_state := r2.2.state })

/-- Function `void extract_delayed_gestures(struct Gestures *gs, struct MTouch* mt)`. -/
def extract_delayed_gestures (c : Consts) (mt : MTouch) : Gestures × MTouch :=
  let mt1 : MTouch := { mt with mem := { mt.mem with wait := 0 } }
  let gs : Gestures := { Gestures.zero with
    posx := (mt1.state.finger 0).position_x
    posy := (mt1.state.finger 0).position_y }
  let tapmask : Nat :=
    if mt1.mem.tpdown < mt1.mem.tpup then
      if mt1.mem.maxtap = 1 then BITMASK c.MT_BUTTON_LEFT
      else if mt1.mem.maxtap = 2 then BITMASK c.MT_BUTTON_RIGHT
      else if mt1.mem.maxtap = 3 then BITMASK c.MT_BUTTON_MIDDLE
      else gs.tapmask
    else gs.tapmask
  let gs1 : Gestures := { gs with tapmask := tapmask }
  let gs2 : Gestures := if gs1.tapmask ≠ 0 then { gs1 with type := SETBIT gs1.type c.GS_TAP } else gs1
  ({ gs2 with ntap := mt1.mem.ntap }, mt1)

/-! ### Sample inputs of the gesture extractor -/

/-- A square root function for the sample inputs, which take the root of 25
only: 5 at 25, and 0 elsewhere. -/
def sample_sqrt (q : ℚ) : ℚ := if q = 25 then 5 else 0

/-- One contact in slot 0 at `(105, 100)`, pointing and moving, with the
accumulated delta `(5, 0)`. -/
def one_finger_move : MTouch :=
  { state := { MTState.zero with nfinger := 1, finger := fun _ => ⟨0, 105, 100, 0⟩ }
    prev_state := { MTState.zero with nfinger := 1, finger := fun _ => ⟨0, 100, 100, 0⟩ }
    mem := { Memory.zero with pointing := 1, moving := 1
                              dx := fun i => if i = 0 then 5 else 0 } }

/-- Two contacts in slots 0 and 1 at `(103, 104)` and `(200, 200)`, both
pointing and moving, both with the accumulated delta `(5, 0)`. -/
def two_finger_scroll : MTouch :=
  { state := { MTState.zero with
      nfinger := 2
      finger := fun i => if i = 0 then ⟨0, 103, 104, 0⟩ else ⟨1, 200, 200, 0⟩ }
    prev_state := { MTState.zero with
      nfinger := 2
      finger := fun i => if i = 0 then ⟨0, 98, 104, 0⟩ else ⟨1, 195, 200, 0⟩ }
    mem := { Memory.zero with pointing := 3, moving := 3, dx := fun _ => 5 } }

/-- Two pointing contacts of which only the first has moved. -/
def incomplete_update : MTouch :=
  { two_finger_scroll with mem := { two_finger_scroll.mem with moving := 1 } }

/-- The left hardware button goes down while no contact is pointing. -/
def press_no_contact : MTouch :=
  { state := { MTState.zero with button := 1 }
    prev_state := MTState.zero
    mem := Memory.zero }

/-- The left hardware button goes down while four contacts are pointing. -/
def press_four_contacts : MTouch :=
  { state := { MTState.zero with button := 1, nfinger := 4 }
    prev_state := { MTState.zero with nfinger := 4 }
    mem := { Memory.zero with pointing := 15 } }

/-- The left hardware button goes down while two contacts are pointing. -/
def press_two_contacts : MTouch :=
  { state := { MTState.zero with button := 1, nfinger := 2 }
    prev_state := { MTState.zero with nfinger := 2 }
    mem := { Memory.zero with pointing := 3 } }

/-- A frame without active contacts whose slot 0 still holds the position
`(100, 200)` of a contact that has gone, with fresh memory and an all-zero
previous frame. -/
def empty_frame_stale_slot : MTouch :=
  { state := { MTState.zero with finger := fun _ => ⟨0, 100, 200, 0⟩ }
    prev_state := MTState.zero
    mem := Memory.zero }

/-- The all-zero context: empty frame, all-zero previous frame, fresh memory. -/
def MTouch.zero : MTouch :=
  { state := MTState.zero, prev_state := MTState.zero, mem := Memory.zero }

/-- A completed one-finger tap: all fingers down at time 10, up at time 50. -/
def one_finger_tap : MTouch :=
  { MTouch.zero with
    mem := { Memory.zero with tpdown := 10, tpup := 50, maxtap := 1, ntap := 1, wait := 1 } }

/-- One moving contact in slot 0, flagged as thumb, with the accumulated delta
`(5, 0)`. -/
def thumb_move : MTouch :=
  { one_finger_move with mem := { one_finger_move.mem with thumb := 1 } }

/-- The left hardware button is held (same mask as in the previous frame) and
remembered as LEFT, and the number of pointing contacts has become two. -/
def held_button_two_contacts : MTouch :=
  { state := { MTState.zero with button := 1, nfinger := 2 }
    prev_state := { MTState.zero with button := 1, nfinger := 1 }
    mem := { Memory.zero with btdata := 1, pointing := 3 } }

/-- No hardware button, empty remembered button data, one pointing contact and
one counted tap that was made with one finger. -/
def one_finger_tap_click : MTouch :=
  { state := { MTState.zero with nfinger := 1 }
    prev_state := { MTState.zero with nfinger := 1 }
    mem := { Memory.zero with pointing := 1, ntap := 1, maxtap := 1 } }

/-- No hardware button, empty remembered button data, one pointing contact and
one counted tap that was made with two fingers. -/
def two_finger_tap_click : MTouch :=
  { one_finger_tap_click with mem := { one_finger_tap_click.mem with maxtap := 2 } }

/-- A completed one-finger tap whose pending flag `wait` is not set. -/
def tap_without_wait : MTouch :=
  { one_finger_tap with mem := { one_finger_tap.mem with wait := 0 } }


/-- One frame processed by `extract_mouse_gestures`: the frame is stored in
`mt->state`, then the function is called; the first component is the static
variable `tracking_id` of `extract_mouse`. -/
def mouse_step (c : Consts) (st : Int × MTouch) (f : MTState) : Int × Gestures × MTouch :=
  extract_mouse_gestures c st.1 { st.2 with state := f }

/-- A sequence of frames processed by `extract_mouse_gestures`: the result of
every call, in order. -/
def mouse_run (c : Consts) : Int × MTouch → List MTState → List (Int × Gestures × MTouch)
  | _, [] => []
  | st, f :: fs => mouse_step c st f :: mouse_run c ((mouse_step c st f).1, (mouse_step c st f).2.2) fs

/-- The static `tracking_id` and the context after a sequence of frames. -/
def mouse_after (c : Consts) : Int × MTouch → List MTState → Int × MTouch
  | st, [] => st
  | st, f :: fs => mouse_after c ((mouse_step c st f).1, (mouse_step c st f).2.2) fs

/-- The left-button changes reported by a sequence of calls, in order: `true`
for a button-down (LEFT set in `gs.btdata`), `false` for a button-up. -/
def button_events (c : Consts) (rs : List (Int × Gestures × MTouch)) : List Bool :=
  rs.filterMap fun r =>
    if GETBIT r.2.1.btmask c.MT_BUTTON_LEFT = 1
    then some (decide (GETBIT r.2.1.btdata c.MT_BUTTON_LEFT = 1))
    else none

/-- The events alternate, the first being `e`. -/
def alternating : Bool → List Bool → Bool
  | _, [] => true
  | e, b :: bs => (b == e) && alternating (!e) bs

/-- Four frames: one contact with the identity 0 at `(10, 20)`, the same
contact at `(11, 21)`, no contact, one contact with the identity 1. -/
def mouse_frames : List MTState :=
  [ single_frame ⟨0, 10, 20, 30⟩, single_frame ⟨0, 11, 21, 30⟩,
    { single_frame ⟨0, 11, 21, 30⟩ with nfinger := 0 }, single_frame ⟨1, 50, 60, 30⟩ ]

/-! ### Vocabulary for statements about a fresh identity -/

/-- Every contact of the frame has an identity in `[0, MAX_FINGERS)`. -/
def InRange (f : MTState) : Prop :=
  ∀ j, j < f.nfinger → 0 ≤ (f.finger j).tracking_id ∧ (f.finger j).tracking_id < MAX_FINGERS

/-- Two frames carry the same contacts with the identity `id`, in the same
slots: they may differ in the contacts with other identities. -/
def SameAt (id : Int) (f f' : MTState) : Prop :=
  f.nfinger = f'.nfinger ∧
  ∀ j, j < f.nfinger →
    ((f.finger j).tracking_id = id ↔ (f'.finger j).tracking_id = id) ∧
    ((f.finger j).tracking_id = id → f.finger j = f'.finger j)

/-- Two filter states with the same threshold, the same sample count (at most
8) and the same samples in the window of that length. -/
def SameWindow (d d' : tslib_dejitter) : Prop :=
  d.delta = d'.delta ∧ d.nr = d'.nr ∧ d.nr ≤ 8 ∧ ∀ i, i < d.nr → nth_raw d i = nth_raw d' i

instance (f : MTState) : Decidable (InRange f) := by
  unfold InRange; infer_instance

instance (id : Int) (f f' : MTState) : Decidable (SameAt id f f') := by
  unfold SameAt; infer_instance

/-- Two frames with one contact each, the identities 1 and then 0, both near
`(100, 100)`. -/
def history_a : List MTState :=
  [ single_frame ⟨0, 100, 100, 30⟩, single_frame ⟨1, 100, 100, 30⟩ ]

/-- Two frames in which the identity 0 comes back at `(10, 20)` and moves to
`(11, 21)`. -/
def fresh_frames : List MTState :=
  [ single_frame ⟨0, 10, 20, 30⟩, single_frame ⟨0, 11, 21, 31⟩ ]
/-- One contact in slot 0, pointing and moving, with the accumulated delta
`(16777217, 0)`, which is `2 ^ 24 + 1`. -/
def one_finger_large_move : MTouch :=
  { one_finger_move with
    mem := { one_finger_move.mem with dx := fun i => if i = 0 then 16777217 else 0 } }

theorem u32_small (z : Int) (h1 : 0 ≤ z) (h2 : z < 4294967296) : u32 z = z := by
  unfold u32; omega

theorem wrap32_small (z : Int) (h1 : -2147483648 ≤ z) (h2 : z ≤ 2147483647) : wrap32 z = z := by
  unfold wrap32; omega

theorem u32_add_u32_right (a b : Int) : u32 (a + u32 b) = u32 (a + b) := by
  unfold u32; omega

theorem u32_add_u32_left (a b : Int) : u32 (u32 a + b) = u32 (a + b) := by
  unfold u32; omega

theorem wrap32_add_wrap32_right (a b : Int) : wrap32 (a + wrap32 b) = wrap32 (a + b) := by
  unfold wrap32; omega

theorem wrap32_add_wrap32_left (a b : Int) : wrap32 (wrap32 a + b) = wrap32 (a + b) := by
  unfold wrap32; omega

/-! ## Theorems: the ring buffer -/

theorem cursor_pred (h : Fin 8) (i : Nat) : cursor (h - 1) i = cursor h i - 1 := by
  induction i with
  | zero => rfl
  | succ n ih => simp [cursor, ih]

theorem cursor_succ_eq (h : Fin 8) (i : Nat) : cursor h (i + 1) = cursor (h - 1) i := by
  rw [cursor_pred]; rfl

theorem cursor_fin_ne : ∀ h i : Fin 8, i ≠ 0 → cursor h i.val ≠ h := by decide

theorem cursor_ne (h : Fin 8) (i : Nat) (h1 : 1 ≤ i) (h7 : i ≤ 7) : cursor h i ≠ h := by
  have := cursor_fin_ne h ⟨i, by omega⟩ (by
    intro hc
    have := congrArg Fin.val hc
    simp at this
    omega)
  simpa using this

theorem head_succ_pred : ∀ h : Fin 8, h + 1 - 1 = h := by decide

/-! ## Theorems: `average` -/

theorem average_eq_weighted (djt : tslib_dejitter) (samp : FingerState)
    (h2 : 2 ≤ djt.nr) (h8 : djt.nr ≤ 8)
    (hb : ∀ i, i < djt.nr → smallHist (djt.hist (cursor djt.head i))) :
    (average djt samp).position_x = weighted djt.nr (fun i => (djt.hist (cursor djt.head i)).x) ∧
    (average djt samp).position_y = weighted djt.nr (fun i => (djt.hist (cursor djt.head i)).y) ∧
    (average djt samp).pressure = weighted djt.nr (fun i => (djt.hist (cursor djt.head i)).p) ∧
    (average djt samp).tracking_id = samp.tracking_id := by
  obtain ⟨delta, x, y, down, nr, head, hist⟩ := djt
  simp only at h2 h8 hb ⊢
  have hb0 := hb 0; have hb1 := hb 1; have hb2 := hb 2; have hb3 := hb 3
  have hb4 := hb 4; have hb5 := hb 5; have hb6 := hb 6; have hb7 := hb 7
  simp only [smallHist, cursor] at hb0 hb1 hb2 hb3 hb4 hb5 hb6 hb7
  interval_cases nr <;>
  · simp [average, average_loop, average_step, weighted, weightAt, weight, NR_SAMPHISTLEN,
      List.range_succ, cursor, u32_add_u32_right, u32_add_u32_left, wrap32_add_wrap32_right,
      wrap32_add_wrap32_left]
    simp at hb0 hb1 hb2 hb3 hb4 hb5 hb6 hb7
    refine ⟨?_, ?_, ?_⟩
    · unfold wrap32; omega
    · unfold wrap32; omega
    · rw [u32_small _ (by omega) (by omega), wrap32_small _ (by omega) (by omega)]
      try omega

/-! ## Theorems: `jitter_finger` -/

theorem jitter_djt_eq (djt : tslib_dejitter) (s : FingerState) :
    jitter_djt djt s =
      ({ inserted djt s with head := djt.head + 1 },
       if next_nr djt s > 1 then average (inserted djt s) s else s) := by
  unfold jitter_djt inserted next_nr raw_of
  by_cases h0 : djt.nr = 0 <;> by_cases hjmp : jump djt s = true <;>
    by_cases h8 : djt.nr < 8 <;> simp [h0, hjmp, h8, NR_SAMPHISTLEN]

theorem nth_raw_inserted_zero (djt : tslib_dejitter) (s : FingerState) :
    nth_raw (jitter_djt djt s).1 0 = raw_of s := by
  simp [jitter_djt_eq, nth_raw, inserted, cursor, head_succ_pred]

theorem nth_raw_inserted_succ (djt : tslib_dejitter) (s : FingerState) (i : Nat) (hi : i + 1 < 8) :
    nth_raw (jitter_djt djt s).1 (i + 1) = nth_raw djt i := by
  simp only [jitter_djt_eq, nth_raw, inserted, head_succ_pred]
  rw [cursor_succ_eq, Function.update_noteq]
  rw [← cursor_succ_eq]
  exact cursor_ne _ _ (by omega) (by omega)

theorem sqr_sum_eq_dist2 (a b : Int) (ha : -32767 ≤ a ∧ a ≤ 32767)
    (hb : -32767 ≤ b ∧ b ≤ 32767) :
    wrap32 (sqr (wrap32 a) + sqr (wrap32 b)) = dist2 a b := by
  have ha2 : 0 ≤ a * a ∧ a * a ≤ 1073676289 := by
    constructor <;> nlinarith
  have hb2 : 0 ≤ b * b ∧ b * b ≤ 1073676289 := by
    constructor <;> nlinarith
  have c1 : clamp15 a = a := by unfold clamp15; split_ifs <;> omega
  have c2 : clamp15 b = b := by unfold clamp15; split_ifs <;> omega
  unfold dist2 sqr
  rw [c1, c2, wrap32_small a (by omega) (by omega), wrap32_small b (by omega) (by omega)]

theorem jump_of_dist2 (djt : tslib_dejitter) (s : FingerState)
    (hx : -32767 ≤ s.position_x - (nth_raw djt 0).x ∧ s.position_x - (nth_raw djt 0).x ≤ 32767)
    (hy : -32767 ≤ s.position_y - (nth_raw djt 0).y ∧ s.position_y - (nth_raw djt 0).y ≤ 32767) :
    jump djt s = decide (dist2 (s.position_x - (nth_raw djt 0).x)
      (s.position_y - (nth_raw djt 0).y) > djt.delta) := by
  simp only [nth_raw, cursor] at hx hy ⊢
  simp only [jump, sqr_sum_eq_dist2 _ _ hx hy]

theorem jitter_finger_some (djts : Nat → tslib_dejitter) (s : FingerState)
    (hid : 0 ≤ s.tracking_id ∧ s.tracking_id < 2) :
    jitter_finger djts s =
      some (Function.update djts s.tracking_id.toNat (jitter_djt (djts s.tracking_id.toNat) s).1,
        (jitter_djt (djts s.tracking_id.toNat) s).2) := by
  unfold jitter_finger
  rw [if_pos]
  simpa [MAX_FINGERS] using hid

/-- C2 (amended): for an in-range identity whose filter state holds at least one
stored sample, if both coordinate differences between the new raw sample and
the previous raw sample lie in `[-32767, 32767]` (where `clamp15` changes
nothing and the unclamped 32-bit computation of the code cannot overflow) and
the squared displacement exceeds the threshold `delta` (15 after `init`), then
`jitter_finger` discards the history (the sample count becomes 1) and returns
the raw sample unchanged. -/
theorem jitter_finger_jump_reset (djts : Nat → tslib_dejitter) (s : FingerState)
    (hid : 0 ≤ s.tracking_id ∧ s.tracking_id < 2)
    (hnr : 1 ≤ (djts s.tracking_id.toNat).nr)
    (hx : -32767 ≤ s.position_x - (nth_raw (djts s.tracking_id.toNat) 0).x ∧
      s.position_x - (nth_raw (djts s.tracking_id.toNat) 0).x ≤ 32767)
    (hy : -32767 ≤ s.position_y - (nth_raw (djts s.tracking_id.toNat) 0).y ∧
      s.position_y - (nth_raw (djts s.tracking_id.toNat) 0).y ≤ 32767)
    (hjump : dist2 (s.position_x - (nth_raw (djts s.tracking_id.toNat) 0).x)
      (s.position_y - (nth_raw (djts s.tracking_id.toNat) 0).y) >
        (djts s.tracking_id.toNat).delta) :
    ∃ r, jitter_finger djts s = some r ∧ (r.1 s.tracking_id.toNat).nr = 1 ∧ r.2 = s := by
  refine ⟨_, jitter_finger_some djts s hid, ?_, ?_⟩
  · have hj : jump (djts s.tracking_id.toNat) s = true := by
      rw [jump_of_dist2 _ _ hx hy]; simpa using hjump
    have h0 : (djts s.tracking_id.toNat).nr ≠ 0 := by omega
    simp [jitter_djt_eq, inserted, next_nr, hj, h0, NR_SAMPHISTLEN]
  · have hj : jump (djts s.tracking_id.toNat) s = true := by
      rw [jump_of_dist2 _ _ hx hy]; simpa using hjump
    have h0 : (djts s.tracking_id.toNat).nr ≠ 0 := by omega
    simp [jitter_djt_eq, inserted, next_nr, hj, h0, NR_SAMPHISTLEN]

/-- Witness of `jitter_finger_jump_reset`: after the sample `(0, 0)`, the sample
`(4, 0)` has squared displacement 16 > 15. -/
theorem jitter_finger_jump_reset_witness :
    ∃ r, jitter_finger (after_one ⟨0, 0, 0, 0⟩) ⟨0, 4, 0, 0⟩ = some r ∧
      (r.1 0).nr = 1 ∧ r.2 = ⟨0, 4, 0, 0⟩ :=
  jitter_finger_jump_reset (after_one ⟨0, 0, 0, 0⟩) ⟨0, 4, 0, 0⟩ (by decide) (by decide)
    (by decide) (by decide) (by decide)

/-- C2 (counterexample): the previous raw sample is `(0, 0)`, the new one
`(65536, 0)`.  The clamped squared displacement is `32767 * 32767 > 15`, but
the code squares the unclamped difference in 32-bit arithmetic, gets 0, keeps
the history (the count becomes 2) and returns the average `40960`. -/
theorem jitter_finger_unclamped_overflow :
    ((after_one ⟨0, 0, 0, 0⟩) 0).nr = 1 ∧ ((after_one ⟨0, 0, 0, 0⟩) 0).delta = 15 ∧
    nth_raw ((after_one ⟨0, 0, 0, 0⟩) 0) 0 = ⟨0, 0, 0⟩ ∧
    isInt32 65536 ∧
    dist2 (65536 - 0) (0 - 0) > 15 ∧
    (jitter_finger (after_one ⟨0, 0, 0, 0⟩) ⟨0, 65536, 0, 0⟩).map
      (fun r => ((r.1 0).nr, r.2)) = some (2, ⟨0, 40960, 0, 0⟩) := by
  decide

/-- C3 (amended): for an in-range identity with at most 8 stored samples and a new
raw sample that does not trigger a jump-reset, `jitter_finger` leaves
`n = min (nr + 1) 8` samples in the history, the newest being the new raw
sample and the others the previous ones in order.  When `n = 1` the sample is
returned unmodified.  When `2 ≤ n` and the `n` samples are small enough that
the weighted sums do not overflow 32 bits (`smallHist`), each filtered
component is the floor of the weighted sum with row `n - 2` of the table
divided by two to the power of the row's last entry; for `n = 2` this is the
floor of `(5 * new + 3 * previous) / 8`. -/
theorem jitter_finger_weighted_mean (djts : Nat → tslib_dejitter) (s : FingerState)
    (hid : 0 ≤ s.tracking_id ∧ s.tracking_id < 2)
    (hnr : (djts s.tracking_id.toNat).nr ≤ 8)
    (hnj : ¬ ((djts s.tracking_id.toNat).nr ≠ 0 ∧ jump (djts s.tracking_id.toNat) s = true)) :
    ∃ r, jitter_finger djts s = some r ∧
      (r.1 s.tracking_id.toNat).nr = min ((djts s.tracking_id.toNat).nr + 1) 8 ∧
      nth_raw (r.1 s.tracking_id.toNat) 0 = raw_of s ∧
      (∀ i, i + 1 < 8 →
        nth_raw (r.1 s.tracking_id.toNat) (i + 1) = nth_raw (djts s.tracking_id.toNat) i) ∧
      ((r.1 s.tracking_id.toNat).nr = 1 → r.2 = s) ∧
      (2 ≤ (r.1 s.tracking_id.toNat).nr →
        (∀ i, i < (r.1 s.tracking_id.toNat).nr → smallHist (nth_raw (r.1 s.tracking_id.toNat) i)) →
        r.2.position_x = weighted (r.1 s.tracking_id.toNat).nr
          (fun i => (nth_raw (r.1 s.tracking_id.toNat) i).x) ∧
        r.2.position_y = weighted (r.1 s.tracking_id.toNat).nr
          (fun i => (nth_raw (r.1 s.tracking_id.toNat) i).y) ∧
        r.2.pressure = weighted (r.1 s.tracking_id.toNat).nr
          (fun i => (nth_raw (r.1 s.tracking_id.toNat) i).p) ∧
        ((r.1 s.tracking_id.toNat).nr = 2 →
          r.2.position_x =
            (5 * s.position_x + 3 * (nth_raw (djts s.tracking_id.toNat) 0).x) / 8 ∧
          r.2.position_y =
            (5 * s.position_y + 3 * (nth_raw (djts s.tracking_id.toNat) 0).y) / 8 ∧
          r.2.pressure =
            (5 * u32 s.pressure + 3 * (nth_raw (djts s.tracking_id.toNat) 0).p) / 8)) := by
  refine ⟨_, jitter_finger_some djts s hid, ?_⟩
  simp only [Function.update_same]
  generalize djts s.tracking_id.toNat = djt at hnr hnj ⊢
  have hnext : next_nr djt s = min (djt.nr + 1) 8 := by
    unfold next_nr
    rw [if_neg hnj]
    simp only [NR_SAMPHISTLEN]
    split_ifs <;> omega
  have hnrEq : (jitter_djt djt s).1.nr = next_nr djt s := by
    simp [jitter_djt_eq, inserted]
  have hraw : ∀ i, nth_raw (jitter_djt djt s).1 i = (inserted djt s).hist (cursor (inserted djt s).head i) := by
    intro i
    simp [jitter_djt_eq, nth_raw, inserted, head_succ_pred]
  refine ⟨by rw [hnrEq, hnext], nth_raw_inserted_zero djt s,
    fun i hi => nth_raw_inserted_succ djt s i hi, ?_, ?_⟩
  · intro h1
    rw [hnrEq] at h1
    simp [jitter_djt_eq, h1]
  · intro h2 hsmall
    rw [hnrEq] at h2 hsmall ⊢
    have hout : (jitter_djt djt s).2 = average (inserted djt s) s := by
      rw [jitter_djt_eq]
      simp only
      rw [if_pos (by omega)]
    have hins : (inserted djt s).nr = next_nr djt s := rfl
    have hav := average_eq_weighted (inserted djt s) s (by rw [hins]; exact h2)
      (by rw [hins, hnext]; omega)
      (by
        intro i hi
        rw [← hraw]
        exact hsmall i (by rw [← hins]; exact hi))
    rw [hins] at hav
    simp only [hraw, hout]
    refine ⟨hav.1, hav.2.1, hav.2.2.1, ?_⟩
    intro hn2
    have e0 := nth_raw_inserted_zero djt s
    have e1 := nth_raw_inserted_succ djt s 0 (by omega)
    rw [hraw] at e0 e1
    rw [hav.1, hav.2.1, hav.2.2.1, hn2]
    simp only [weighted, weightAt, weight, NR_SAMPHISTLEN, List.range_succ, List.range_zero,
      List.nil_append, List.map_append, List.map_cons, List.map_nil, List.sum_append,
      List.sum_cons, List.sum_nil, List.cons_append]
    simp only [e0, e1, raw_of]
    refine ⟨?_, ?_, ?_⟩ <;>
    · simp
      ring_nf

theorem weighted_congr (n : Nat) (r r' : Nat → Int) (h : ∀ i, i < n → r i = r' i) :
    weighted n r = weighted n r' := by
  unfold weighted
  congr 2
  apply List.map_congr_left
  intro i hi
  rw [h i (List.mem_range.mp hi)]

theorem weighted_const (n : Nat) (v : Int) (h2 : 2 ≤ n) (h8 : n ≤ 8) :
    weighted n (fun _ => v) = v := by
  interval_cases n <;>
  · simp [weighted, weightAt, weight, NR_SAMPHISTLEN, List.range_succ]
    omega

theorem FingerState.eq_of_fields (a b : FingerState) (h1 : a.tracking_id = b.tracking_id)
    (h2 : a.position_x = b.position_x) (h3 : a.position_y = b.position_y)
    (h4 : a.pressure = b.pressure) : a = b := by
  cases a; cases b; simp_all

theorem jitter_djt_tracking_id (djt : tslib_dejitter) (s : FingerState) :
    (jitter_djt djt s).2.tracking_id = s.tracking_id := by
  rw [jitter_djt_eq]
  simp only
  split_ifs <;> simp [average]

theorem smallHist_raw_of (s : FingerState) (hs : smallSample s) :
    smallHist (raw_of s) ∧ u32 s.pressure = s.pressure := by
  obtain ⟨⟨h1, h2⟩, ⟨h3, h4⟩, h5, h6⟩ := hs
  have hp : u32 s.pressure = s.pressure := u32_small _ h5 (by omega)
  refine ⟨?_, hp⟩
  simp only [smallHist, raw_of, hp]
  omega

/-- The samples a constant input leaves in the window. -/
theorem jitter_djt_constant (djt : tslib_dejitter) (s : FingerState) (m : Nat)
    (hnr : djt.nr ≤ 8) (hs : smallSample s)
    (hc : ∀ i, i < m → nth_raw djt i = raw_of s) :
    (jitter_djt djt s).1.nr ≤ 8 ∧ (jitter_djt djt s).1.nr ≤ djt.nr + 1 ∧
    (∀ i, i < min (m + 1) 8 → nth_raw (jitter_djt djt s).1 i = raw_of s) ∧
    ((jitter_djt djt s).1.nr ≤ m + 1 → (jitter_djt djt s).2 = s) := by
  have hnrEq : (jitter_djt djt s).1.nr = next_nr djt s := by
    simp [jitter_djt_eq, inserted]
  have hle : next_nr djt s ≤ 8 ∧ next_nr djt s ≤ djt.nr + 1 := by
    unfold next_nr
    simp only [NR_SAMPHISTLEN]
    split_ifs <;> omega
  have hwin : ∀ i, i < min (m + 1) 8 → nth_raw (jitter_djt djt s).1 i = raw_of s := by
    intro i hi
    cases i with
    | zero => exact nth_raw_inserted_zero djt s
    | succ k =>
      rw [nth_raw_inserted_succ djt s k (by omega)]
      exact hc k (by omega)
  refine ⟨by omega, by omega, hwin, ?_⟩
  intro hm
  rw [hnrEq] at hm
  have hraw : ∀ i, nth_raw (jitter_djt djt s).1 i =
      (inserted djt s).hist (cursor (inserted djt s).head i) := by
    intro i
    simp [jitter_djt_eq, nth_raw, inserted, head_succ_pred]
  rw [jitter_djt_eq]
  simp only
  split_ifs with h1
  · have hins : (inserted djt s).nr = next_nr djt s := rfl
    have hall : ∀ i, i < next_nr djt s →
        (inserted djt s).hist (cursor (inserted djt s).head i) = raw_of s := by
      intro i hi
      rw [← hraw]
      exact hwin i (by omega)
    obtain ⟨hsm, hp⟩ := smallHist_raw_of s hs
    have hav := average_eq_weighted (inserted djt s) s (by rw [hins]; omega)
      (by rw [hins]; omega) (by
        intro i hi
        rw [hall i (by rw [← hins]; exact hi)]
        exact hsm)
    rw [hins] at hav
    apply FingerState.eq_of_fields
    · exact hav.2.2.2
    · rw [hav.1, weighted_congr _ _ (fun _ => (raw_of s).x) (fun i hi => by rw [hall i hi]),
        weighted_const _ _ (by omega) (by omega)]
      rfl
    · rw [hav.2.1, weighted_congr _ _ (fun _ => (raw_of s).y) (fun i hi => by rw [hall i hi]),
        weighted_const _ _ (by omega) (by omega)]
      rfl
    · rw [hav.2.2.1, weighted_congr _ _ (fun _ => (raw_of s).p) (fun i hi => by rw [hall i hi]),
        weighted_const _ _ (by omega) (by omega)]
      exact hp
  · rfl


/-- One constant call, after the reset `jitter_filter` applies when `z = 0`. -/
theorem constant_call (djt : tslib_dejitter) (s : FingerState) (m : Nat) (z : Int)
    (hnr : djt.nr ≤ 8) (hs : smallSample s) (hc : ConstWindow djt (raw_of s) m) :
    (jitter_djt (if z = 0 then { djt with nr := 0 } else djt) s).1.nr ≤ 8 ∧
    ConstWindow (jitter_djt (if z = 0 then { djt with nr := 0 } else djt) s).1 (raw_of s)
      (min (m + 1) 8) ∧
    ((7 ≤ m ∨ z = 0 ∨ ConstWindow djt (raw_of s) djt.nr) →
      (jitter_djt (if z = 0 then { djt with nr := 0 } else djt) s).2 = s) ∧
    ((z = 0 ∨ ConstWindow djt (raw_of s) djt.nr) →
      ConstWindow (jitter_djt (if z = 0 then { djt with nr := 0 } else djt) s).1 (raw_of s)
        (jitter_djt (if z = 0 then { djt with nr := 0 } else djt) s).1.nr) := by
  by_cases hz : z = 0
  · simp only [hz, if_true]
    have h := jitter_djt_constant { djt with nr := 0 } s m (by simp) hs hc
    simp only at h
    refine ⟨h.1, h.2.2.1, fun _ => h.2.2.2 (by omega), fun _ => ?_⟩
    intro i hi
    exact h.2.2.1 i (by omega)
  · simp only [hz, if_false, false_or]
    have h := jitter_djt_constant djt s m hnr hs hc
    refine ⟨h.1, h.2.2.1, ?_, ?_⟩
    · rintro (h7 | hJ)
      · exact h.2.2.2 (by omega)
      · exact (jitter_djt_constant djt s djt.nr hnr hs hJ).2.2.2
          (jitter_djt_constant djt s djt.nr hnr hs hJ).2.1
    · intro hJ i hi
      have h' := jitter_djt_constant djt s djt.nr hnr hs hJ
      exact h'.2.2.1 i (by omega)

theorem filter_step_same (prev : Nat → Int) (d : Nat → tslib_dejitter)
    (fingers : Nat → FingerState) (j : Nat)
    (hid : 0 ≤ (fingers j).tracking_id ∧ (fingers j).tracking_id < 2) :
    filter_step prev (d, fingers) j =
      some (Function.update d (fingers j).tracking_id.toNat
          (jitter_djt (if prev (fingers j).tracking_id.toNat = 0
            then { d (fingers j).tracking_id.toNat with nr := 0 }
            else d (fingers j).tracking_id.toNat) (fingers j)).1,
        Function.update fingers j
          (jitter_djt (if prev (fingers j).tracking_id.toNat = 0
            then { d (fingers j).tracking_id.toNat with nr := 0 }
            else d (fingers j).tracking_id.toNat) (fingers j)).2) := by
  unfold filter_step
  simp only
  rw [if_neg (by simp only [MAX_FINGERS]; push_cast; omega)]
  rw [jitter_finger_some _ _ hid]
  by_cases hp : prev (fingers j).tracking_id.toNat = 0
  · simp [hp]
  · simp [hp]

theorem toNat_ne_of_ne (a b : Int) (ha : 0 ≤ a) (hb : 0 ≤ b) (h : a ≠ b) : a.toNat ≠ b.toNat := by
  omega

/-- The first loop of `jitter_filter` over the slots `l` of a frame in which
every contact with the identity of `s` carries the sample `s`. -/
theorem filter_loop_constant (prev : Nat → Int) (s : FingerState)
    (hid : 0 ≤ s.tracking_id ∧ s.tracking_id < 2) (hs : smallSample s) :
    ∀ (l : List Nat) (d : Nat → tslib_dejitter) (fingers : Nat → FingerState) (m : Nat),
      l.Nodup → m ≤ 8 → (d s.tracking_id.toNat).nr ≤ 8 →
      ConstWindow (d s.tracking_id.toNat) (raw_of s) m →
      (∀ j, j ∈ l → 0 ≤ (fingers j).tracking_id ∧ (fingers j).tracking_id < 2 ∧
        ((fingers j).tracking_id = s.tracking_id → fingers j = s)) →
      ∃ d' fingers', filter_loop prev l (d, fingers) = some (d', fingers') ∧
        (d' s.tracking_id.toNat).nr ≤ 8 ∧
        ConstWindow (d' s.tracking_id.toNat) (raw_of s) m ∧
        ((∃ j, j ∈ l ∧ fingers j = s) →
          ConstWindow (d' s.tracking_id.toNat) (raw_of s) (min (m + 1) 8)) ∧
        (∀ j, j ∉ l → fingers' j = fingers j) ∧
        (∀ j, (fingers' j).tracking_id = (fingers j).tracking_id) ∧
        ((7 ≤ m ∨ prev s.tracking_id.toNat = 0 ∨
            ConstWindow (d s.tracking_id.toNat) (raw_of s) (d s.tracking_id.toNat).nr) →
          ∀ j, j ∈ l → (fingers j).tracking_id = s.tracking_id → fingers' j = s) ∧
        ((prev s.tracking_id.toNat = 0 ∨
            ConstWindow (d s.tracking_id.toNat) (raw_of s) (d s.tracking_id.toNat).nr) →
          (∃ j, j ∈ l ∧ fingers j = s) →
          ConstWindow (d' s.tracking_id.toNat) (raw_of s) (d' s.tracking_id.toNat).nr) ∧
        (ConstWindow (d s.tracking_id.toNat) (raw_of s) (d s.tracking_id.toNat).nr →
          ConstWindow (d' s.tracking_id.toNat) (raw_of s) (d' s.tracking_id.toNat).nr) := by
  intro l
  induction l with
  | nil =>
    intro d fingers m _ _ hnr hc _
    refine ⟨d, fingers, rfl, hnr, hc, ?_, fun _ _ => rfl, fun _ => rfl, ?_, ?_, fun h => h⟩
    · rintro ⟨j, hj, _⟩; simp at hj
    · intro _ j hj; simp at hj
    · rintro _ ⟨j, hj, _⟩; simp at hj
  | cons j l ih =>
    intro d fingers m hnd hm8 hnr hc hfr
    have hjl : j ∉ l := (List.nodup_cons.mp hnd).1
    have hndl : l.Nodup := (List.nodup_cons.mp hnd).2
    obtain ⟨hj0, hj2, hjs⟩ := hfr j (List.mem_cons_self j l)
    have hstep := filter_step_same prev d fingers j ⟨hj0, hj2⟩
    by_cases htid : (fingers j).tracking_id = s.tracking_id
    · -- a contact with the identity of `s`
      have hfj : fingers j = s := hjs htid
      rw [hfj] at hstep
      have hcall := constant_call (d s.tracking_id.toNat) s m (prev s.tracking_id.toNat) hnr hs hc
      generalize hr : jitter_djt (if prev s.tracking_id.toNat = 0
            then { d s.tracking_id.toNat with nr := 0 }
            else d s.tracking_id.toNat) s = r at hstep hcall
      obtain ⟨c1, c2, c3, c4⟩ := hcall
      have htr : r.2.tracking_id = s.tracking_id := by
        rw [← hr]; exact jitter_djt_tracking_id _ _
      have hfr' : ∀ j', j' ∈ l →
          0 ≤ ((Function.update fingers j r.2) j').tracking_id ∧
          ((Function.update fingers j r.2) j').tracking_id < 2 ∧
          (((Function.update fingers j r.2) j').tracking_id = s.tracking_id →
            (Function.update fingers j r.2) j' = s) := by
        intro j' hj'
        have hne : j' ≠ j := fun h => hjl (h ▸ hj')
        rw [Function.update_noteq hne]
        exact hfr j' (List.mem_cons_of_mem j hj')
      obtain ⟨d', fingers', e1, e2, e3, _, e5, e6, e7, _, e9⟩ :=
        ih (Function.update d s.tracking_id.toNat r.1) (Function.update fingers j r.2)
          (min (m + 1) 8) hndl (by omega) (by simpa using c1) (by simpa using c2) hfr'
      simp only [Function.update_same] at e2 e3 e7 e9
      refine ⟨d', fingers', ?_, e2, fun i hi => e3 i (by omega), fun _ => e3, ?_, ?_, ?_, ?_, ?_⟩
      · simp only [filter_loop, hstep, Option.some_bind]
        exact e1
      · intro j' hj'
        have hne : j' ≠ j := fun h => hj' (h ▸ List.mem_cons_self j l)
        rw [e5 j' (fun h => hj' (List.mem_cons_of_mem j h)), Function.update_noteq hne]
      · intro j'
        rw [e6 j']
        by_cases hne : j' = j
        · subst hne; simp [htr, hfj]
        · rw [Function.update_noteq hne]
      · intro hE j' hj' htid'
        rcases List.mem_cons.mp hj' with rfl | hj'l
        · rw [e5 j' hjl, Function.update_same]
          exact c3 hE
        · have hne : j' ≠ j := fun h => hjl (h ▸ hj'l)
          refine e7 ?_ j' hj'l ?_
          · rcases hE with h7 | hp | hJ
            · left; omega
            · right; right; exact c4 (Or.inl hp)
            · right; right; exact c4 (Or.inr hJ)
          · rw [Function.update_noteq hne]; exact htid'
      · intro hE _
        exact e9 (c4 hE)
      · intro hJ
        exact e9 (c4 (Or.inr hJ))
    · -- a contact with the other identity
      have hk : (fingers j).tracking_id.toNat ≠ s.tracking_id.toNat :=
        toNat_ne_of_ne _ _ hj0 hid.1 htid
      generalize hr : jitter_djt (if prev (fingers j).tracking_id.toNat = 0
            then { d (fingers j).tracking_id.toNat with nr := 0 }
            else d (fingers j).tracking_id.toNat) (fingers j) = r at hstep
      have htr : r.2.tracking_id = (fingers j).tracking_id := by
        rw [← hr]; exact jitter_djt_tracking_id _ _
      have hd : (Function.update d (fingers j).tracking_id.toNat r.1) s.tracking_id.toNat =
          d s.tracking_id.toNat := Function.update_noteq (Ne.symm hk) _ _
      have hfr' : ∀ j', j' ∈ l →
          0 ≤ ((Function.update fingers j r.2) j').tracking_id ∧
          ((Function.update fingers j r.2) j').tracking_id < 2 ∧
          (((Function.update fingers j r.2) j').tracking_id = s.tracking_id →
            (Function.update fingers j r.2) j' = s) := by
        intro j' hj'
        have hne : j' ≠ j := fun h => hjl (h ▸ hj')
        rw [Function.update_noteq hne]
        exact hfr j' (List.mem_cons_of_mem j hj')
      obtain ⟨d', fingers', e1, e2, e3, e4, e5, e6, e7, e8, e9⟩ :=
        ih (Function.update d (fingers j).tracking_id.toNat r.1) (Function.update fingers j r.2)
          m hndl hm8 (by rw [hd]; exact hnr) (by rw [hd]; exact hc) hfr'
      rw [hd] at e7 e8 e9
      refine ⟨d', fingers', ?_, e2, e3, ?_, ?_, ?_, ?_, ?_, e9⟩
      · simp only [filter_loop, hstep, Option.some_bind]
        exact e1
      · rintro ⟨j', hj', hj's⟩
        rcases List.mem_cons.mp hj' with rfl | hj'l
        · exact absurd (by rw [hj's]) htid
        · have hne : j' ≠ j := fun h => hjl (h ▸ hj'l)
          exact e4 ⟨j', hj'l, by rw [Function.update_noteq hne]; exact hj's⟩
      · intro j' hj'
        have hne : j' ≠ j := fun h => hj' (h ▸ List.mem_cons_self j l)
        rw [e5 j' (fun h => hj' (List.mem_cons_of_mem j h)), Function.update_noteq hne]
      · intro j'
        rw [e6 j']
        by_cases hne : j' = j
        · subst hne; simp [htr]
        · rw [Function.update_noteq hne]
      · intro hE j' hj' htid'
        rcases List.mem_cons.mp hj' with rfl | hj'l
        · exact absurd htid' htid
        · have hne : j' ≠ j := fun h => hjl (h ▸ hj'l)
          exact e7 hE j' hj'l (by rw [Function.update_noteq hne]; exact htid')
      · rintro hE ⟨j', hj', hj's⟩
        rcases List.mem_cons.mp hj' with rfl | hj'l
        · exact absurd (by rw [hj's]) htid
        · have hne : j' ≠ j := fun h => hjl (h ▸ hj'l)
          exact e8 hE ⟨j', hj'l, by rw [Function.update_noteq hne]; exact hj's⟩

theorem mark_loop_spec (fingers : Nat → FingerState) :
    ∀ (l : List Nat) (prev : Nat → Int),
      (∀ j, j ∈ l → 0 ≤ (fingers j).tracking_id ∧ (fingers j).tracking_id < 2) →
      ∃ p', mark_loop fingers l prev = some p' ∧
        ∀ k, ((∃ j, j ∈ l ∧ (fingers j).tracking_id.toNat = k) → p' k = 1) ∧
          ((¬ ∃ j, j ∈ l ∧ (fingers j).tracking_id.toNat = k) → p' k = prev k) := by
  intro l
  induction l with
  | nil =>
    intro prev _
    exact ⟨prev, rfl, fun k => ⟨by rintro ⟨j, hj, _⟩; simp at hj, fun _ => rfl⟩⟩
  | cons j l ih =>
    intro prev h
    obtain ⟨h0, h2⟩ := h j (List.mem_cons_self j l)
    obtain ⟨p', e1, e2⟩ := ih (Function.update prev (fingers j).tracking_id.toNat 1)
      (fun j' hj' => h j' (List.mem_cons_of_mem j hj'))
    refine ⟨p', ?_, ?_⟩
    · simp only [mark_loop]
      rw [if_pos (by simp only [MAX_FINGERS]; push_cast; omega)]
      exact e1
    · intro k
      by_cases hl : ∃ j', j' ∈ l ∧ (fingers j').tracking_id.toNat = k
      · refine ⟨fun _ => (e2 k).1 hl, fun hn => ?_⟩
        obtain ⟨j', hj', hk⟩ := hl
        exact absurd ⟨j', List.mem_cons_of_mem j hj', hk⟩ hn
      · have hp := (e2 k).2 hl
        constructor
        · rintro ⟨j', hj', hk⟩
          rcases List.mem_cons.mp hj' with rfl | hj'l
          · rw [hp, ← hk, Function.update_same]
          · exact absurd ⟨j', hj'l, hk⟩ hl
        · intro hn
          rw [hp, Function.update_noteq]
          intro hk
          exact hn ⟨j, List.mem_cons_self j l, hk.symm⟩

/-- One frame of a constant input through `jitter_filter`. -/
theorem jitter_filter_constant_frame (g : JitterGlobals) (f : MTState) (s : FingerState)
    (m : Nat) (hid : 0 ≤ s.tracking_id ∧ s.tracking_id < 2) (hs : smallSample s) (hm : m ≤ 8)
    (hnr : (current_djts g s.tracking_id.toNat).nr ≤ 8)
    (hc : ConstWindow (current_djts g s.tracking_id.toNat) (raw_of s) m)
    (hf : FrameHolds f s) :
    ∃ g' f', jitter_filter g f = some (g', f', 1) ∧
      (current_djts g' s.tracking_id.toNat).nr ≤ 8 ∧
      ConstWindow (current_djts g' s.tracking_id.toNat) (raw_of s) (min (m + 1) 8) ∧
      current_prev g' s.tracking_id.toNat ≠ 0 ∧
      ((7 ≤ m ∨ current_prev g s.tracking_id.toNat = 0 ∨
          ConstWindow (current_djts g s.tracking_id.toNat) (raw_of s)
            (current_djts g s.tracking_id.toNat).nr) →
        ∀ j, j < f.nfinger → (f.finger j).tracking_id = s.tracking_id → f'.finger j = s) ∧
      ((current_prev g s.tracking_id.toNat = 0 ∨
          ConstWindow (current_djts g s.tracking_id.toNat) (raw_of s)
            (current_djts g s.tracking_id.toNat).nr) →
        ConstWindow (current_djts g' s.tracking_id.toNat) (raw_of s)
          (current_djts g' s.tracking_id.toNat).nr) := by
  obtain ⟨⟨j0, hj0, hj0s⟩, hall⟩ := hf
  have hall' : ∀ j, j ∈ List.range f.nfinger →
      0 ≤ (f.finger j).tracking_id ∧ (f.finger j).tracking_id < 2 ∧
      ((f.finger j).tracking_id = s.tracking_id → f.finger j = s) := by
    intro j hj
    have := hall j (List.mem_range.mp hj)
    simpa [MAX_FINGERS] using this
  have hex : ∃ j, j ∈ List.range f.nfinger ∧ f.finger j = s :=
    ⟨j0, List.mem_range.mpr hj0, hj0s⟩
  obtain ⟨d', fingers', e1, e2, _, e4, _, e6, e7, e8, _⟩ :=
    filter_loop_constant (current_prev g) s hid hs (List.range f.nfinger) (current_djts g)
      f.finger m (List.nodup_range _) hm hnr hc hall'
  obtain ⟨p', q1, q2⟩ := mark_loop_spec fingers' (List.range f.nfinger) (fun _ => 0)
    (fun j hj => by
      rw [e6 j]
      exact ⟨(hall' j hj).1, (hall' j hj).2.1⟩)
  refine ⟨⟨some d', p'⟩, { f with finger := fingers' }, ?_, e2, e4 hex, ?_, ?_, ?_⟩
  · simp only [jitter_filter, e1, Option.some_bind, q1, Option.map_some']
  · have : p' s.tracking_id.toNat = 1 :=
      (q2 s.tracking_id.toNat).1 ⟨j0, List.mem_range.mpr hj0, by rw [e6 j0, hj0s]⟩
    simp only [current_prev, this]
    decide
  · intro hE j hj htid
    exact e7 hE j (List.mem_range.mpr hj) htid
  · intro hE
    exact e8 hE hex

/-- A run of frames of a constant input through `jitter_filter`. -/
theorem jitter_run_constant (s : FingerState)
    (hid : 0 ≤ s.tracking_id ∧ s.tracking_id < 2) (hs : smallSample s) :
    ∀ (fs : List MTState) (g : JitterGlobals) (m : Nat), m ≤ 8 →
      (current_djts g s.tracking_id.toNat).nr ≤ 8 →
      ConstWindow (current_djts g s.tracking_id.toNat) (raw_of s) m →
      (∀ f, f ∈ fs → FrameHolds f s) →
      ∃ g' outs, jitter_run g fs = some (g', outs) ∧ outs.length = fs.length ∧
        ∀ t f out, fs[t]? = some f → outs[t]? = some out →
          (7 ≤ m + t ∨ current_prev g s.tracking_id.toNat = 0 ∨
            ConstWindow (current_djts g s.tracking_id.toNat) (raw_of s)
              (current_djts g s.tracking_id.toNat).nr) →
          ∀ j, j < f.nfinger → (f.finger j).tracking_id = s.tracking_id → out.finger j = s := by
  intro fs
  induction fs with
  | nil =>
    intro g m _ _ _ _
    refine ⟨g, [], rfl, rfl, ?_⟩
    intro t f out hf
    simp at hf
  | cons f0 fs ih =>
    intro g m hm hnr hc hfs
    obtain ⟨g1, f1, a1, a2, a3, a4, a5, a6⟩ :=
      jitter_filter_constant_frame g f0 s m hid hs hm hnr hc (hfs f0 (List.mem_cons_self _ _))
    obtain ⟨g', outs, b1, b2, b3⟩ := ih g1 (min (m + 1) 8) (by omega) a2 a3
      (fun f hf => hfs f (List.mem_cons_of_mem _ hf))
    refine ⟨g', f1 :: outs, ?_, by simp [b2], ?_⟩
    · simp only [jitter_run, a1, Option.some_bind, b1, Option.map_some']
    · intro t f out hf hout hE j hj htid
      cases t with
      | zero =>
        simp only [List.getElem?_cons_zero, Option.some.injEq] at hf hout
        subst hf; subst hout
        exact a5 (by simpa using hE) j hj htid
      | succ t =>
        simp only [List.getElem?_cons_succ] at hf hout
        refine b3 t f out hf hout ?_ j hj htid
        rcases hE with h7 | hE
        · left; omega
        · right; right; exact a6 hE

/-- C1 (amended): feeding `jitter_filter` a run of frames in which every contact
of an in-range identity carries the same raw sample `s` (small enough that 32
times each value does not overflow) never faults, and the filtered sample of
that identity equals `s` exactly in every frame from the eighth on; it equals
`s` in every frame of the run when the filter is fresh or the identity was
absent from the frame before the run. -/
theorem jitter_filter_constant_input (g : JitterGlobals) (fs : List MTState) (s : FingerState)
    (hid : 0 ≤ s.tracking_id ∧ s.tracking_id < 2) (hs : smallSample s)
    (hnr : (current_djts g s.tracking_id.toNat).nr ≤ 8)
    (hfs : ∀ f, f ∈ fs → FrameHolds f s) :
    ∃ g' outs, jitter_run g fs = some (g', outs) ∧ outs.length = fs.length ∧
      ∀ t f out, fs[t]? = some f → outs[t]? = some out →
        (7 ≤ t ∨ current_prev g s.tracking_id.toNat = 0) →
        ∀ j, j < f.nfinger → (f.finger j).tracking_id = s.tracking_id → out.finger j = s := by
  obtain ⟨g', outs, h1, h2, h3⟩ :=
    jitter_run_constant s hid hs fs g 0 (by omega) hnr (fun i hi => absurd hi (by omega)) hfs
  refine ⟨g', outs, h1, h2, ?_⟩
  intro t f out hf hout hE
  refine h3 t f out hf hout ?_
  rcases hE with h7 | hp
  · left; omega
  · right; left; exact hp

theorem frameHolds_single (s : FingerState) (hid : 0 ≤ s.tracking_id ∧ s.tracking_id < 2) :
    FrameHolds (single_frame s) s := by
  refine ⟨⟨0, by simp [single_frame], rfl⟩, ?_⟩
  intro j _
  exact ⟨hid.1, by simp only [MAX_FINGERS]; push_cast; exact hid.2, fun _ => rfl⟩

theorem jitter_filter_constant_input_witness :
    ∃ g' outs,
      jitter_run JitterGlobals.initial (List.replicate 3 (single_frame ⟨1, 5, -3, 7⟩)) =
        some (g', outs) ∧
      outs.length = (List.replicate 3 (single_frame ⟨1, 5, -3, 7⟩)).length ∧
      ∀ t f out, (List.replicate 3 (single_frame ⟨1, 5, -3, 7⟩))[t]? = some f →
        outs[t]? = some out →
        (7 ≤ t ∨ current_prev JitterGlobals.initial (1 : Int).toNat = 0) →
        ∀ j, j < f.nfinger → (f.finger j).tracking_id = 1 → out.finger j = ⟨1, 5, -3, 7⟩ :=
  jitter_filter_constant_input JitterGlobals.initial
    (List.replicate 3 (single_frame ⟨1, 5, -3, 7⟩)) ⟨1, 5, -3, 7⟩ (by decide) (by decide)
    (by decide)
    (fun f hf => by
      rw [List.eq_of_mem_replicate hf]
      exact frameHolds_single _ (by decide))

/-- C1 (counterexample): after one frame with the sample `(0, 0, 0)`, the sample
`(1, 0, 0)` held for eight consecutive frames is filtered to `(0, 0, 0)` in
the first seven of them and to `(1, 0, 0)` only in the eighth. -/
theorem constant_input_not_exact_before_eighth :
    (0 : Int) ≤ 0 ∧ (0 : Int) < 2 ∧ smallSample ⟨0, 1, 0, 0⟩ ∧
    run_outputs JitterGlobals.initial
      (single_frame ⟨0, 0, 0, 0⟩ :: List.replicate 8 (single_frame ⟨0, 1, 0, 0⟩)) =
      some (⟨0, 0, 0, 0⟩ :: (List.replicate 7 ⟨0, 0, 0, 0⟩ ++ [⟨0, 1, 0, 0⟩])) := by
  decide

/-- Witness of `jitter_finger_weighted_mean`: the sample `(11, 21, 31)` after
the sample `(10, 20, 30)`. -/
theorem jitter_finger_weighted_mean_witness :
    ∃ r, jitter_finger (after_one ⟨0, 10, 20, 30⟩) ⟨0, 11, 21, 31⟩ = some r ∧
      (r.1 0).nr = 2 ∧ nth_raw (r.1 0) 0 = ⟨11, 21, 31⟩ := by
  obtain ⟨r, h1, h2, h3, _⟩ :=
    jitter_finger_weighted_mean (after_one ⟨0, 10, 20, 30⟩) ⟨0, 11, 21, 31⟩
      (by decide) (by decide) (by decide)
  exact ⟨r, h1, h2, h3⟩

/-- C3 (counterexample): with the pressure `536870912` stored once and fed again
(no jump), the weighted sum `8 * 536870912` wraps to 0 in `unsigned`
arithmetic: the filtered pressure is 0, the formula of the claim gives
`536870912`. -/
theorem jitter_finger_pressure_sum_wraps :
    jump (after_one ⟨0, 0, 0, 536870912⟩ 0) ⟨0, 0, 0, 536870912⟩ = false ∧
    (jitter_finger (after_one ⟨0, 0, 0, 536870912⟩) ⟨0, 0, 0, 536870912⟩).map
      (fun r => ((r.1 0).nr, r.2.pressure,
        weighted (r.1 0).nr (fun i => (nth_raw (r.1 0) i).p))) =
      some (2, 0, 536870912) := by
  decide


/-! ## Theorems: bit masks -/

theorem BITMASK_eq (x : Nat) (h : x < 32) : BITMASK x = 2 ^ x := by
  unfold BITMASK
  rw [Nat.one_shiftLeft, Nat.mod_eq_of_lt]
  calc 2 ^ x < 2 ^ 32 := Nat.pow_lt_pow_right (by omega) h
    _ = 4294967296 := by norm_num

theorem BITMASK_ne_zero (x : Nat) (h : x < 32) : BITMASK x ≠ 0 := by
  rw [BITMASK_eq x h]
  exact Nat.pos_iff_ne_zero.mp (Nat.two_pow_pos _)

theorem GETBIT_eq (m x : Nat) : GETBIT m x = (m.testBit x).toNat := by
  unfold GETBIT
  rw [Nat.testBit, Nat.and_comm]
  rcases Nat.mod_two_eq_zero_or_one (m >>> x) with h | h <;>
    simp [Nat.and_one_is_mod, h]

theorem GETBIT_zero (x : Nat) : GETBIT 0 x = 0 := by
  simp [GETBIT_eq]

theorem GETBIT_SETBIT (m x y : Nat) (hx : x < 32) :
    GETBIT (SETBIT m x) y = if x = y then 1 else GETBIT m y := by
  simp only [GETBIT_eq, SETBIT, BITMASK_eq x hx, Nat.testBit_or, Nat.testBit_two_pow]
  by_cases h : x = y
  · simp [h]
  · simp [h]

theorem BITMASK_and_BITONES (x d : Nat) (hx : x < d) (hd : d ≤ 32) :
    BITMASK x &&& BITONES d = BITMASK x := by
  have hx32 : x < 32 := by omega
  have hones : BITONES d = 2 ^ d - 1 := by
    unfold BITONES
    by_cases h32 : d = 32
    · subst h32; decide
    · rw [BITMASK_eq d (by omega)]
      have : 2 ^ d < 4294967296 := by
        calc 2 ^ d < 2 ^ 32 := Nat.pow_lt_pow_right (by omega) (by omega)
          _ = 4294967296 := by norm_num
      have hpos : 0 < 2 ^ d := Nat.two_pow_pos _
      omega
  rw [hones, Nat.and_pow_two_sub_one_eq_mod, BITMASK_eq x hx32]
  exact Nat.mod_eq_of_lt (Nat.pow_lt_pow_right (by omega) hx)

theorem bitcount_BITMASK : ∀ i : Fin 32, bitcount (BITMASK i.val) = 1 := by decide

theorem foreach_bit_BITMASK : ∀ i : Fin 32, foreach_bit (BITMASK i.val) = [i.val] := by decide

/-! ## Theorems: `foreach_bit` visits the set bits in ascending order -/

theorem firstbit_none (v : Nat) (h : ∀ i, i < 32 → v.testBit i = false) : firstbit v = -1 := by
  unfold firstbit
  have : (List.range 32).find? (fun i => v.testBit i) = none := by
    rw [List.find?_range_eq_none]
    intro i hi
    simp [h i hi]
  rw [this]

theorem firstbit_cases (v : Nat) :
    (firstbit v = -1 ∧ ∀ i, i < 32 → v.testBit i = false) ∨
    ∃ i : Nat, firstbit v = i ∧ i < 32 ∧ v.testBit i = true ∧
      ∀ j, j < i → v.testBit j = false := by
  unfold firstbit
  cases h : (List.range 32).find? (fun i => v.testBit i) with
  | none =>
    left
    refine ⟨rfl, ?_⟩
    rw [List.find?_range_eq_none] at h
    intro i hi
    simpa using h i hi
  | some i =>
    right
    rw [List.find?_range_eq_some] at h
    refine ⟨i, rfl, List.mem_range.mp h.2.1, h.1, ?_⟩
    intro j hj
    simpa using h.2.2 j hj

theorem testBit_mask (m k b : Nat) (hb : b < 32) :
    (m &&& ((4294967295 <<< k) % 4294967296)).testBit b = (decide (k ≤ b) && m.testBit b) := by
  have e1 : (4294967296 : Nat) = 2 ^ 32 := by norm_num
  have e2 : (4294967295 : Nat) = 2 ^ 32 - 1 := by norm_num
  rw [Nat.testBit_and, e1, Nat.testBit_mod_two_pow, Nat.testBit_shiftLeft, e2,
    Nat.testBit_two_pow_sub_one]
  by_cases hk : k ≤ b
  · have h1 : b - k < 32 := by omega
    simp [hk, hb, h1, Bool.and_comm]
  · simp [hk]

/-- The set bits of `m` with index at least `k` and below 32, ascending. -/
theorem foreach_bit_from_eq (m : Nat) :
    ∀ (fuel k v : Nat), 32 ≤ fuel + k →
      (∀ b, b < 32 → v.testBit b = (decide (k ≤ b) && m.testBit b)) →
      foreach_bit_from m fuel (firstbit v) =
        (List.range' k (32 - k)).filter (fun b => m.testBit b) := by
  intro fuel
  induction fuel with
  | zero =>
    intro k v hk _
    have : 32 - k = 0 := by omega
    simp [foreach_bit_from, this]
  | succ fuel ih =>
    intro k v hk hv
    rcases firstbit_cases v with ⟨hf, hnone⟩ | ⟨i, hf, hi, hset, hlow⟩
    · rw [hf]
      simp only [foreach_bit_from]
      rw [if_pos (by decide)]
      symm
      rw [List.filter_eq_nil_iff]
      intro b hb
      rw [List.mem_range'_1] at hb
      have := hnone b (by omega)
      rw [hv b (by omega)] at this
      simpa [hb.1] using this
    · rw [hf]
      have hvi := hv i hi
      rw [hset] at hvi
      have hki : k ≤ i := by
        by_contra hc
        simp [hc] at hvi
      have hmi : m.testBit i = true := by
        simpa [hki] using hvi.symm
      simp only [foreach_bit_from]
      rw [if_neg (by omega)]
      simp only [Int.toNat_ofNat]
      rw [ih (i + 1) _ (by omega) (fun b hb => testBit_mask m (i + 1) b hb)]
      have hsplit : List.range' k (32 - k) =
          List.range' k (i - k) ++ i :: List.range' (i + 1) (32 - (i + 1)) := by
        have h2 := List.range'_append_1 k (i - k) (32 - i)
        rw [show k + (i - k) = i by omega, show (32 - i) + (i - k) = 32 - k by omega] at h2
        have h3 : List.range' i (32 - i) = i :: List.range' (i + 1) (32 - (i + 1)) := by
          rw [show 32 - i = (32 - (i + 1)) + 1 by omega, List.range'_succ]
        rw [← h2, h3]
      rw [hsplit, List.filter_append, List.filter_cons, hmi]
      have hnil : (List.range' k (i - k)).filter (fun b => m.testBit b) = [] := by
        rw [List.filter_eq_nil_iff]
        intro b hb
        rw [List.mem_range'_1] at hb
        have := hlow b (by omega)
        rw [hv b (by omega)] at this
        simpa [hb.1] using this
      rw [hnil]
      rfl

/-- The loop `foreach_bit(i, m)` visits exactly the set bits of the 32-bit mask
`m`, in ascending order of the index: the 32 steps of the embedding suffice. -/
theorem foreach_bit_eq_filter (m : Nat) :
    foreach_bit m = (List.range 32).filter (fun b => m.testBit b) := by
  unfold foreach_bit
  rw [foreach_bit_from_eq m 32 0 m (by omega) (fun b _ => by simp), List.range_eq_range']

/-! ## Theorems: the loop `foreach_bit` at index 31 -/

/-- The checked loop returns exactly when bit 31 of the mask is clear, and then
it visits the indices of `foreach_bit_from`. -/
theorem foreach_bit_checked_from_eq (m : Nat) :
    ∀ (fuel k v : Nat), 32 ≤ fuel + k → k ≤ 31 →
      (∀ b, b < 32 → v.testBit b = (decide (k ≤ b) && m.testBit b)) →
      foreach_bit_checked_from m (fuel + 1) (firstbit v) =
        if m.testBit 31 = true then none else some (foreach_bit_from m fuel (firstbit v)) := by
  intro fuel
  induction fuel with
  | zero => intro k v hk hk31 _; omega
  | succ fuel ih =>
    intro k v hk hk31 hv
    rcases firstbit_cases v with ⟨hf, hnone⟩ | ⟨i, hf, hi, hset, hlow⟩
    · have h31 : m.testBit 31 = false := by
        have := hnone 31 (by omega)
        rw [hv 31 (by omega)] at this
        simpa [hk31] using this
      rw [hf, if_neg (by simp [h31])]
      simp only [foreach_bit_checked_from, foreach_bit_from]
      rw [if_pos (by decide), if_pos (by decide)]
    · have hvi := hv i hi
      rw [hset] at hvi
      have hki : k ≤ i := by
        by_contra hc
        simp [hc] at hvi
      have hmi : m.testBit i = true := by
        simpa [hki] using hvi.symm
      rw [hf]
      by_cases h31 : i = 31
      · subst h31
        rw [if_pos hmi]
        simp only [foreach_bit_checked_from]
        rw [if_neg (by omega), if_pos (by simp)]
      · have hs := ih (i + 1) (m &&& ((4294967295 <<< (i + 1)) % 4294967296)) (by omega)
          (by omega) (fun b hb => testBit_mask m (i + 1) b hb)
        rw [foreach_bit_checked_from, if_neg (by omega), if_neg (by simp; omega)]
        simp only [Int.toNat_ofNat]
        rw [hs]
        by_cases hm : m.testBit 31 = true
        · rw [if_pos hm, if_pos hm]; rfl
        · rw [if_neg hm, if_neg hm]
          simp only [Option.map_some', foreach_bit_from]
          rw [if_neg (by omega)]
          simp only [Int.toNat_ofNat]

/-- The loop `foreach_bit(i, m)` returns exactly when bit 31 of `m` is clear;
it then visits the indices `foreach_bit m`. -/
theorem foreach_bit_checked_eq (m : Nat) :
    foreach_bit_checked m = if m.testBit 31 = true then none else some (foreach_bit m) := by
  unfold foreach_bit_checked foreach_bit
  exact foreach_bit_checked_from_eq m 32 0 m (by omega) (by omega) (fun b _ => by simp)

theorem extract_buttons_mt (c : Consts) (gs : Gestures) (mt : MTouch) :
    (extract_buttons c gs mt).2.state = mt.state ∧
    (extract_buttons c gs mt).2.prev_state = mt.prev_state ∧
    (extract_buttons c gs mt).2.mem.pointing = mt.mem.pointing ∧
    (extract_buttons c gs mt).2.mem.moving = mt.mem.moving ∧
    (extract_buttons c gs mt).2.mem.thumb = mt.mem.thumb ∧
    (extract_buttons c gs mt).2.mem.dx = mt.mem.dx ∧
    (extract_buttons c gs mt).2.mem.dy = mt.mem.dy := by
  unfold extract_buttons mt_delay_movement
  simp only
  split_ifs <;> simp

theorem extract_buttons_gs (c : Consts) (gs : Gestures) (mt : MTouch) :
    (extract_buttons c gs mt).1.dx = gs.dx ∧ (extract_buttons c gs mt).1.dy = gs.dy ∧
    (extract_buttons c gs mt).1.scale = gs.scale ∧ (extract_buttons c gs mt).1.rot = gs.rot ∧
    (extract_buttons c gs mt).1.posx = gs.posx ∧ (extract_buttons c gs mt).1.posy = gs.posy ∧
    (extract_buttons c gs mt).1.same_fingers = gs.same_fingers ∧
    (extract_buttons c gs mt).1.tapmask = gs.tapmask ∧
    (extract_buttons c gs mt).1.ntap = gs.ntap ∧
    ((extract_buttons c gs mt).1.type = gs.type ∨
      (extract_buttons c gs mt).1.type = SETBIT gs.type c.GS_BUTTON) := by
  unfold extract_buttons mt_delay_movement
  simp only
  split_ifs <;> simp

theorem movement_vars_congr {F : Type} (ops : FloatOps F) (mt mt' : MTouch)
    (h1 : mt'.state = mt.state) (h2 : mt'.mem.moving = mt.mem.moving)
    (h3 : mt'.mem.dx = mt.mem.dx) (h4 : mt'.mem.dy = mt.mem.dy) :
    movement_vars ops mt' = movement_vars ops mt := by
  unfold movement_vars
  rw [h1, h2, h3, h4]

theorem WF_motion (c : Consts) (hc : c.WF) (b : Nat) (hb : b ∈ c.motionBits) :
    b < 32 ∧ b ≠ c.GS_BUTTON ∧ c.GS_BUTTON < 32 := by
  obtain ⟨_, _, _, _, _, h32, hnd⟩ := hc
  refine ⟨h32 b (by simp [hb]), ?_, h32 _ (by simp)⟩
  intro he
  rw [List.nodup_cons] at hnd
  exact hnd.1 (by rw [← he]; simp [hb])

theorem GETBIT_after_buttons (c : Consts) (hc : c.WF) (t b : Nat) (hb : b ∈ c.motionBits)
    (ht : t = 0 ∨ t = SETBIT 0 c.GS_BUTTON) : GETBIT t b = 0 := by
  obtain ⟨_, hne, h32⟩ := WF_motion c hc b hb
  rcases ht with rfl | rfl
  · exact GETBIT_zero b
  · rw [GETBIT_SETBIT _ _ _ h32, if_neg (Ne.symm hne), GETBIT_zero]

theorem set_by_count_cases (t n a b d : Nat) :
    set_by_count t n a b d = t ∨ set_by_count t n a b d = SETBIT t a ∨
    set_by_count t n a b d = SETBIT t b ∨ set_by_count t n a b d = SETBIT t d := by
  unfold set_by_count
  by_cases h2 : n = 2
  · subst h2; simp
  · by_cases h3 : n = 3
    · subst h3; simp
    · by_cases h4 : n = 4
      · subst h4; simp
      · simp [h2, h3, h4]

theorem translation_type_cases (c : Consts) (t n : Nat) (dx dy : Int) :
    translation_type c t n dx dy = t ∨
    ∃ X, X ∈ c.motionBits ∧ translation_type c t n dx dy = SETBIT t X := by
  unfold translation_type
  simp only
  by_cases hh : c_abs dx > c_abs dy
  · have hv : ¬ c_abs dy > c_abs dx := by omega
    rw [if_pos hh, if_neg hv]
    rcases set_by_count_cases t n c.GS_HSCROLL c.GS_HSWIPE c.GS_HSWIPE4 with h | h | h | h
    · exact Or.inl h
    · exact Or.inr ⟨_, by simp [Consts.motionBits], h⟩
    · exact Or.inr ⟨_, by simp [Consts.motionBits], h⟩
    · exact Or.inr ⟨_, by simp [Consts.motionBits], h⟩
  · rw [if_neg hh]
    by_cases hv : c_abs dy > c_abs dx
    · rw [if_pos hv]
      rcases set_by_count_cases t n c.GS_VSCROLL c.GS_VSWIPE c.GS_VSWIPE4 with h | h | h | h
      · exact Or.inl h
      · exact Or.inr ⟨_, by simp [Consts.motionBits], h⟩
      · exact Or.inr ⟨_, by simp [Consts.motionBits], h⟩
      · exact Or.inr ⟨_, by simp [Consts.motionBits], h⟩
    · rw [if_neg hv]
      exact Or.inl rfl

/-- The type bits `extract_movement` can add: none, or one motion bit. -/
theorem extract_movement_type {F : Type} (c : Consts) (ops : FloatOps F) (gs : Gestures)
    (mt : MTouch) :
    (extract_movement c ops gs mt).1.type = gs.type ∨
    ∃ X, X ∈ c.motionBits ∧ (extract_movement c ops gs mt).1.type = SETBIT gs.type X := by
  unfold extract_movement
  simp only
  split_ifs with h1 h2 h3 h4 h5 h6 h7 h8 h9
  all_goals first
    | (left; rfl)
    | (right; exact ⟨_, by simp [Consts.motionBits], rfl⟩)
    | exact translation_type_cases c _ _ _ _

/-- The fields of the record `extract_movement` does not write. -/
theorem extract_movement_gs {F : Type} (c : Consts) (ops : FloatOps F) (gs : Gestures)
    (mt : MTouch) :
    (extract_movement c ops gs mt).1.btmask = gs.btmask ∧
    (extract_movement c ops gs mt).1.btdata = gs.btdata ∧
    (extract_movement c ops gs mt).1.posx = gs.posx ∧
    (extract_movement c ops gs mt).1.posy = gs.posy ∧
    (extract_movement c ops gs mt).1.same_fingers = gs.same_fingers ∧
    (extract_movement c ops gs mt).1.tapmask = gs.tapmask ∧
    (extract_movement c ops gs mt).1.ntap = gs.ntap := by
  unfold extract_movement
  simp only
  split_ifs <;> simp

/-- The fields of the context `extract_movement` does not write. -/
theorem extract_movement_mt {F : Type} (c : Consts) (ops : FloatOps F) (gs : Gestures)
    (mt : MTouch) :
    (extract_movement c ops gs mt).2.state = mt.state ∧
    (extract_movement c ops gs mt).2.mem.btdata = mt.mem.btdata ∧
    (extract_movement c ops gs mt).2.mem.pointing = mt.mem.pointing ∧
    (extract_movement c ops gs mt).2.mem.moving = mt.mem.moving := by
  unfold extract_movement mt_skip_movement
  simp only
  split_ifs <;> simp

theorem extract_movement_skip {F : Type} (c : Consts) (ops : FloatOps F) (gs : Gestures)
    (mt : MTouch)
    (h : bitcount mt.mem.moving = 0 ∨ bitcount mt.mem.moving ≠ bitcount mt.mem.pointing) :
    extract_movement c ops gs mt = (gs, mt) := by
  unfold extract_movement
  simp only
  rw [if_pos h]

/-- The type bits when `extract_gestures` calls `extract_movement`. -/
theorem type_after_buttons (c : Consts) (mt : MTouch) (gs : Gestures) (h0 : gs.type = 0) :
    (extract_buttons c gs mt).1.type = 0 ∨
    (extract_buttons c gs mt).1.type = SETBIT 0 c.GS_BUTTON := by
  have h := (extract_buttons_gs c gs mt).2.2.2.2.2.2.2.2.2
  rw [h0] at h
  exact h

/-- C7: in the record produced by `extract_gestures`, for every state and memory,
at most one of the motion gesture types MOVE, ROTATE, SCALE, HSCROLL, VSCROLL,
HSWIPE, VSWIPE, HSWIPE4, VSWIPE4 has its bit set: any two of them whose bits
are both set are the same type.  In particular ROTATE, SCALE and a
scroll/swipe bit are never set together, nor a horizontal and a vertical bit.
It holds for any floating-point arithmetic. -/
theorem extract_gestures_one_motion_bit {F : Type} (c : Consts) (ops : FloatOps F)
    (mt : MTouch) (hc : c.WF) :
    ∀ a, a ∈ c.motionBits → ∀ b, b ∈ c.motionBits →
      GETBIT (extract_gestures c ops mt).1.type a = 1 →
      GETBIT (extract_gestures c ops mt).1.type b = 1 → a = b := by
  intro a ha b hb hga hgb
  simp only [extract_gestures] at hga hgb
  generalize hgs : ({ Gestures.zero with
    posx := (mt.state.finger 0).position_x
    posy := (mt.state.finger 0).position_y
    same_fingers := mt.mem.same } : Gestures) = gs0 at hga hgb
  have h0 : gs0.type = 0 := by rw [← hgs]; rfl
  have ht := type_after_buttons c mt gs0 h0
  have hza := GETBIT_after_buttons c hc _ a ha ht
  have hzb := GETBIT_after_buttons c hc _ b hb ht
  rcases extract_movement_type c ops (extract_buttons c gs0 mt).1 (extract_buttons c gs0 mt).2
    with hm | ⟨X, hX, hm⟩
  · rw [hm, hza] at hga
    exact absurd hga (by decide)
  · have hX32 := (WF_motion c hc X hX).1
    rw [hm, GETBIT_SETBIT _ _ _ hX32] at hga hgb
    have e1 : X = a := by
      by_contra hne
      rw [if_neg hne, hza] at hga
      exact absurd hga (by decide)
    have e2 : X = b := by
      by_contra hne
      rw [if_neg hne, hzb] at hgb
      exact absurd hgb (by decide)
    rw [← e1, ← e2]

/-- Witness of `extract_gestures_one_motion_bit`: in the two-finger scroll sample
HSCROLL and VSCROLL are not both set. -/
theorem extract_gestures_one_motion_bit_witness :
    Consts.sample.WF ∧
    ¬ (GETBIT (extract_gestures Consts.sample (ratOps sample_sqrt) two_finger_scroll).1.type
        Consts.sample.GS_HSCROLL = 1 ∧
      GETBIT (extract_gestures Consts.sample (ratOps sample_sqrt) two_finger_scroll).1.type
        Consts.sample.GS_VSCROLL = 1) :=
  ⟨by decide, fun h =>
    absurd (extract_gestures_one_motion_bit Consts.sample (ratOps sample_sqrt) two_finger_scroll
      (by decide) Consts.sample.GS_HSCROLL (by decide) Consts.sample.GS_VSCROLL (by decide)
      h.1 h.2) (by decide)⟩

/-- C10: when the number of moving contacts is zero or differs from the number
of pointing contacts, `extract_gestures` sets none of the motion gesture
bits, leaves `dx`, `dy`, `scale` and `rot` of the record at zero, and leaves
every accumulated delta `mem.dx[i]`, `mem.dy[i]` unchanged.  It holds for any
floating-point arithmetic. -/
theorem extract_gestures_incomplete {F : Type} (c : Consts) (ops : FloatOps F) (mt : MTouch)
    (hc : c.WF)
    (h : bitcount mt.mem.moving = 0 ∨ bitcount mt.mem.moving ≠ bitcount mt.mem.pointing) :
    (∀ b, b ∈ c.motionBits → GETBIT (extract_gestures c ops mt).1.type b = 0) ∧
    (extract_gestures c ops mt).1.dx = 0 ∧ (extract_gestures c ops mt).1.dy = 0 ∧
    (extract_gestures c ops mt).1.scale = 0 ∧ (extract_gestures c ops mt).1.rot = 0 ∧
    (extract_gestures c ops mt).2.mem.dx = mt.mem.dx ∧
    (extract_gestures c ops mt).2.mem.dy = mt.mem.dy := by
  simp only [extract_gestures]
  generalize hgs : ({ Gestures.zero with
    posx := (mt.state.finger 0).position_x
    posy := (mt.state.finger 0).position_y
    same_fingers := mt.mem.same } : Gestures) = gs0
  have h0 : gs0.type = 0 := by rw [← hgs]; rfl
  have hb := extract_buttons_mt c gs0 mt
  have hg := extract_buttons_gs c gs0 mt
  have h' : bitcount (extract_buttons c gs0 mt).2.mem.moving = 0 ∨
      bitcount (extract_buttons c gs0 mt).2.mem.moving ≠
        bitcount (extract_buttons c gs0 mt).2.mem.pointing := by
    rw [hb.2.2.2.1, hb.2.2.1]; exact h
  rw [extract_movement_skip c ops _ _ h']
  refine ⟨fun b hbm => GETBIT_after_buttons c hc _ b hbm (type_after_buttons c mt gs0 h0),
    ?_, ?_, ?_, ?_, hb.2.2.2.2.2.1, hb.2.2.2.2.2.2⟩
  · rw [hg.1, ← hgs]; rfl
  · rw [hg.2.1, ← hgs]; rfl
  · rw [hg.2.2.1, ← hgs]; rfl
  · rw [hg.2.2.2.1, ← hgs]; rfl

/-- Witness of `extract_gestures_incomplete`: two pointing contacts, one moving. -/
theorem extract_gestures_incomplete_witness :
    (∀ b, b ∈ Consts.sample.motionBits →
      GETBIT (extract_gestures Consts.sample (ratOps sample_sqrt) incomplete_update).1.type b = 0) ∧
    (extract_gestures Consts.sample (ratOps sample_sqrt) incomplete_update).1.dx = 0 ∧
    (extract_gestures Consts.sample (ratOps sample_sqrt) incomplete_update).1.dy = 0 ∧
    (extract_gestures Consts.sample (ratOps sample_sqrt) incomplete_update).1.scale = 0 ∧
    (extract_gestures Consts.sample (ratOps sample_sqrt) incomplete_update).1.rot = 0 ∧
    (extract_gestures Consts.sample (ratOps sample_sqrt) incomplete_update).2.mem.dx =
      incomplete_update.mem.dx ∧
    (extract_gestures Consts.sample (ratOps sample_sqrt) incomplete_update).2.mem.dy =
      incomplete_update.mem.dy :=
  extract_gestures_incomplete Consts.sample (ratOps sample_sqrt) incomplete_update (by decide)
    (by decide)

/-! ## Theorems: masks of one bit -/

theorem ratToInt_intCast (z : Int) : ratToInt (z : ℚ) = z := by
  simp [ratToInt]

theorem bitcount_BITMASK_of_lt (i : Nat) (hi : i < 32) : bitcount (BITMASK i) = 1 :=
  bitcount_BITMASK ⟨i, hi⟩

theorem foreach_bit_BITMASK_of_lt (i : Nat) (hi : i < 32) : foreach_bit (BITMASK i) = [i] :=
  foreach_bit_BITMASK ⟨i, hi⟩

theorem BITMASK_and_eq_zero (t i : Nat) (hi : i < 32) :
    BITMASK i &&& t = 0 ↔ GETBIT t i = 0 := by
  rw [BITMASK_eq i hi, Nat.and_comm, Nat.and_two_pow, GETBIT_eq]
  have hpos : 0 < 2 ^ i := Nat.two_pow_pos i
  cases t.testBit i <;> simp

/-! ## Theorems: masks of two bits -/

theorem bitcount_pair : ∀ i j : Fin 32, i < j →
    bitcount (BITMASK i.val ||| BITMASK j.val) = 2 := by decide

theorem foreach_bit_pair : ∀ i j : Fin 32, i < j →
    foreach_bit (BITMASK i.val ||| BITMASK j.val) = [i.val, j.val] := by decide

/-- C4 (amended): when the hardware button mask differs from the previous
frame's, the button data `extract_gestures` reports and remembers is the mask
derived for the frame.  If the hardware mask is exactly the left button, the
derived mask is LEFT for 1 pointing contact, RIGHT for 2, MIDDLE for 3, and
LEFT again (the hardware button itself) for 0 or for 4 and more; for any
other hardware mask it is the hardware mask restricted to the button bits,
whatever the number of pointing contacts. -/
theorem extract_gestures_button_data {F : Type} (c : Consts) (ops : FloatOps F) (mt : MTouch)
    (hc : c.WF) (htr : mt.state.button ≠ mt.prev_state.button) :
    (extract_gestures c ops mt).1.btdata = derived_btdata c mt ∧
    (extract_gestures c ops mt).2.mem.btdata = derived_btdata c mt ∧
    (mt.state.button = BITMASK c.MT_BUTTON_LEFT →
      (bitcount mt.mem.pointing = 1 →
        (extract_gestures c ops mt).1.btdata = BITMASK c.MT_BUTTON_LEFT) ∧
      (bitcount mt.mem.pointing = 2 →
        (extract_gestures c ops mt).1.btdata = BITMASK c.MT_BUTTON_RIGHT) ∧
      (bitcount mt.mem.pointing = 3 →
        (extract_gestures c ops mt).1.btdata = BITMASK c.MT_BUTTON_MIDDLE) ∧
      (bitcount mt.mem.pointing ≠ 2 → bitcount mt.mem.pointing ≠ 3 →
        (extract_gestures c ops mt).1.btdata = BITMASK c.MT_BUTTON_LEFT)) ∧
    (mt.state.button ≠ BITMASK c.MT_BUTTON_LEFT →
      (extract_gestures c ops mt).1.btdata = mt.state.button &&& BITONES c.DIM_BUTTON) := by
  obtain ⟨hD, hL, _, _, _, _, _⟩ := hc
  have hLD := BITMASK_and_BITONES c.MT_BUTTON_LEFT c.DIM_BUTTON hL hD
  simp only [extract_gestures]
  generalize ({ Gestures.zero with
    posx := (mt.state.finger 0).position_x
    posy := (mt.state.finger 0).position_y
    same_fingers := mt.mem.same } : Gestures) = gs0
  have hg := (extract_movement_gs c ops (extract_buttons c gs0 mt).1 (extract_buttons c gs0 mt).2).2.1
  have hm := (extract_movement_mt c ops (extract_buttons c gs0 mt).1 (extract_buttons c gs0 mt).2).2.1
  have hb : (extract_buttons c gs0 mt).1.btdata = derived_btdata c mt ∧
      (extract_buttons c gs0 mt).2.mem.btdata = derived_btdata c mt := by
    unfold extract_buttons mt_delay_movement
    simp only [if_pos htr]
    split_ifs <;> simp
  rw [hg, hm]
  refine ⟨hb.1, hb.2, ?_, ?_⟩
  · intro hbut
    rw [hb.1]
    unfold derived_btdata
    simp only [if_pos hbut]
    rw [hbut, hLD]
    refine ⟨?_, ?_, ?_, ?_⟩
    · intro h; simp [h]
    · intro h; simp [h]
    · intro h; simp [h]
    · intro h2 h3; simp [h2, h3]
  · intro hbut
    rw [hb.1]
    unfold derived_btdata
    simp only [if_neg hbut]

/-- Witness of `extract_gestures_button_data`: the left button pressed with two
pointing contacts is reported as the right button. -/
theorem extract_gestures_button_data_witness :
    (extract_gestures Consts.sample (ratOps sample_sqrt) press_two_contacts).1.btdata =
      BITMASK Consts.sample.MT_BUTTON_RIGHT :=
  ((extract_gestures_button_data Consts.sample (ratOps sample_sqrt) press_two_contacts
    (by decide) (by decide)).2.2.1 (by decide)).2.1 (by decide)

/-- C4 (counterexample): the left hardware button goes down, a button transition
is reported, and the button data is LEFT, not empty, both with no pointing
contact and with four pointing contacts. -/
theorem button_data_left_without_contacts :
    bitcount press_no_contact.mem.pointing = 0 ∧
    (extract_gestures Consts.sample (ratOps sample_sqrt) press_no_contact).1.btmask ≠ 0 ∧
    (extract_gestures Consts.sample (ratOps sample_sqrt) press_no_contact).1.btdata =
      BITMASK Consts.sample.MT_BUTTON_LEFT ∧
    bitcount press_four_contacts.mem.pointing = 4 ∧
    (extract_gestures Consts.sample (ratOps sample_sqrt) press_four_contacts).1.btmask ≠ 0 ∧
    (extract_gestures Consts.sample (ratOps sample_sqrt) press_four_contacts).1.btdata =
      BITMASK Consts.sample.MT_BUTTON_LEFT ∧
    BITMASK Consts.sample.MT_BUTTON_LEFT ≠ 0 := by
  decide

/-! ## Theorems: delayed gestures -/

theorem delayed_tapmask (c : Consts) (mt : MTouch) :
    (extract_delayed_gestures c mt).1.tapmask =
      if mt.mem.tpdown < mt.mem.tpup then
        if mt.mem.maxtap = 1 then BITMASK c.MT_BUTTON_LEFT
        else if mt.mem.maxtap = 2 then BITMASK c.MT_BUTTON_RIGHT
        else if mt.mem.maxtap = 3 then BITMASK c.MT_BUTTON_MIDDLE
        else 0
      else 0 := by
  unfold extract_delayed_gestures
  simp only
  split_ifs <;> rfl

theorem delayed_type (c : Consts) (mt : MTouch) :
    (extract_delayed_gestures c mt).1.type =
      if (extract_delayed_gestures c mt).1.tapmask ≠ 0 then SETBIT 0 c.GS_TAP else 0 := by
  rw [delayed_tapmask]
  unfold extract_delayed_gestures
  simp only
  split_ifs <;> first | rfl | contradiction

/-- C8: when `tpdown < tpup`, `extract_delayed_gestures` returns the tap mask
LEFT for `maxtap = 1`, RIGHT for `maxtap = 2`, MIDDLE for `maxtap = 3` and the
empty mask for any other `maxtap`; the TAP type bit is set if and only if the
tap mask is not empty; `gs.ntap` equals `mem.ntap`; and when
`tpdown >= tpup` the tap mask is empty and TAP is not set. -/
theorem extract_delayed_gestures_tap (c : Consts) (mt : MTouch) (hc : c.WF) :
    (mt.mem.tpdown < mt.mem.tpup →
      (mt.mem.maxtap = 1 →
        (extract_delayed_gestures c mt).1.tapmask = BITMASK c.MT_BUTTON_LEFT) ∧
      (mt.mem.maxtap = 2 →
        (extract_delayed_gestures c mt).1.tapmask = BITMASK c.MT_BUTTON_RIGHT) ∧
      (mt.mem.maxtap = 3 →
        (extract_delayed_gestures c mt).1.tapmask = BITMASK c.MT_BUTTON_MIDDLE) ∧
      (mt.mem.maxtap ≠ 1 → mt.mem.maxtap ≠ 2 → mt.mem.maxtap ≠ 3 →
        (extract_delayed_gestures c mt).1.tapmask = 0)) ∧
    (GETBIT (extract_delayed_gestures c mt).1.type c.GS_TAP = 1 ↔
      (extract_delayed_gestures c mt).1.tapmask ≠ 0) ∧
    (extract_delayed_gestures c mt).1.ntap = mt.mem.ntap ∧
    (¬ mt.mem.tpdown < mt.mem.tpup →
      (extract_delayed_gestures c mt).1.tapmask = 0 ∧
      GETBIT (extract_delayed_gestures c mt).1.type c.GS_TAP = 0) := by
  obtain ⟨_, _, _, _, _, h32, _⟩ := hc
  have hT : c.GS_TAP < 32 := h32 _ (by simp)
  have hset : GETBIT (SETBIT 0 c.GS_TAP) c.GS_TAP = 1 := by
    rw [GETBIT_SETBIT _ _ _ hT, if_pos rfl]
  have hiff : GETBIT (extract_delayed_gestures c mt).1.type c.GS_TAP = 1 ↔
      (extract_delayed_gestures c mt).1.tapmask ≠ 0 := by
    rw [delayed_type]
    by_cases h : (extract_delayed_gestures c mt).1.tapmask ≠ 0
    · rw [if_pos h, hset]
      exact ⟨fun _ => h, fun _ => rfl⟩
    · rw [if_neg h, GETBIT_zero]
      exact ⟨fun h1 => absurd h1 (by decide), fun h1 => absurd h1 h⟩
  refine ⟨?_, hiff, ?_, ?_⟩
  · intro hlt
    rw [delayed_tapmask, if_pos hlt]
    refine ⟨?_, ?_, ?_, ?_⟩
    · intro h
      rw [if_pos h]
    · intro h
      rw [if_neg (by rw [h]; decide), if_pos h]
    · intro h
      rw [if_neg (by rw [h]; decide), if_neg (by rw [h]; decide), if_pos h]
    · intro h1 h2 h3
      rw [if_neg h1, if_neg h2, if_neg h3]
  · unfold extract_delayed_gestures
    simp only
  · intro hge
    have ht : (extract_delayed_gestures c mt).1.tapmask = 0 := by
      rw [delayed_tapmask, if_neg hge]
    refine ⟨ht, ?_⟩
    rw [delayed_type, if_neg (by rw [ht]; exact fun h => h rfl), GETBIT_zero]

/-- Witness of `extract_delayed_gestures_tap`: a completed one-finger tap gives
the left tap mask, the TAP bit and the tap count 1. -/
theorem extract_delayed_gestures_tap_witness :
    (extract_delayed_gestures Consts.sample one_finger_tap).1.tapmask =
      BITMASK Consts.sample.MT_BUTTON_LEFT ∧
    GETBIT (extract_delayed_gestures Consts.sample one_finger_tap).1.type
      Consts.sample.GS_TAP = 1 ∧
    (extract_delayed_gestures Consts.sample one_finger_tap).1.ntap = 1 := by
  obtain ⟨h1, h2, h3, _⟩ := extract_delayed_gestures_tap Consts.sample one_finger_tap (by decide)
  have ht := (h1 (by decide)).1 (by decide)
  refine ⟨ht, h2.mpr ?_, h3⟩
  rw [ht]
  decide

/-! ## Theorems: empty input -/

theorem bitcount_zero : bitcount 0 = 0 := by decide

theorem derived_btdata_zero (c : Consts) (mt : MTouch) (hb : mt.state.button = 0)
    (hp : mt.mem.pointing = 0) : derived_btdata c mt = 0 := by
  unfold derived_btdata
  simp [hb, hp, bitcount_zero]

/-- C9 (amended): for a frame with no active contacts and no hardware button
pressed, processed by `extract_gestures` against fresh all-zero memory and a
previous frame with no button pressed, the resulting record is empty except
for `posx` and `posy`, which are copied from slot 0 of the frame's contact
array (the code reads it without looking at `nfinger`): `type`, `btmask`,
`btdata`, `tapmask`, `ntap`, `dx`, `dy`, `scale`, `rot` and `same_fingers`
are zero, and the whole record is zero when slot 0 holds a zero position.
It holds for any floating-point arithmetic. -/
theorem extract_gestures_empty {F : Type} (c : Consts) (ops : FloatOps F) (mt : MTouch)
    (_hn : mt.state.nfinger = 0) (hb : mt.state.button = 0) (hp : mt.prev_state.button = 0)
    (hm : mt.mem = Memory.zero) :
    (extract_gestures c ops mt).1 =
      { Gestures.zero with
        posx := (mt.state.finger 0).position_x
        posy := (mt.state.finger 0).position_y } ∧
    ((mt.state.finger 0).position_x = 0 → (mt.state.finger 0).position_y = 0 →
      (extract_gestures c ops mt).1 = Gestures.zero) := by
  have hpt : mt.mem.pointing = 0 := by rw [hm]; rfl
  have hmv : mt.mem.moving = 0 := by rw [hm]; rfl
  have hnt : mt.mem.ntap = 0 := by rw [hm]; rfl
  have hsm : mt.mem.same = 0 := by rw [hm]; rfl
  have hd := derived_btdata_zero c mt hb hpt
  have hbtn : ∀ gs : Gestures, gs.btmask = 0 → extract_buttons c gs mt = (gs, mt) := by
    intro gs hg
    unfold extract_buttons
    simp [hd, hb, hp, hnt, hg]
  have hmain : (extract_gestures c ops mt).1 =
      { Gestures.zero with
        posx := (mt.state.finger 0).position_x
        posy := (mt.state.finger 0).position_y } := by
    simp only [extract_gestures]
    rw [hbtn _ rfl, extract_movement_skip c ops _ mt (Or.inl (by rw [hmv]; exact bitcount_zero))]
    simp only [hsm]
    rfl
  refine ⟨hmain, ?_⟩
  intro hx hy
  rw [hmain, hx, hy]
  rfl

/-- Witness of `extract_gestures_empty`: the all-zero context gives the all-zero
record. -/
theorem extract_gestures_empty_witness :
    (extract_gestures Consts.sample (ratOps sample_sqrt) MTouch.zero).1 = Gestures.zero :=
  (extract_gestures_empty Consts.sample (ratOps sample_sqrt) MTouch.zero rfl rfl rfl rfl).2
    rfl rfl

/-- C9 (counterexample): a frame with `nfinger = 0`, no button, fresh memory and
an all-zero previous frame, whose slot 0 still holds the position
`(100, 200)`: the record has `posx = 100` and `posy = 200`. -/
theorem empty_frame_reports_stale_position :
    empty_frame_stale_slot.state.nfinger = 0 ∧ empty_frame_stale_slot.state.button = 0 ∧
    (extract_gestures Consts.sample (ratOps sample_sqrt) empty_frame_stale_slot).1.posx = 100 ∧
    (extract_gestures Consts.sample (ratOps sample_sqrt) empty_frame_stale_slot).1.posy = 200 := by
  decide

/-! ## Theorems: the thumb -/

theorem extract_movement_thumb {F : Type} (c : Consts) (ops : FloatOps F) (gs : Gestures)
    (mt : MTouch) (hmov : bitcount mt.mem.moving = 1) (hpt : bitcount mt.mem.pointing = 1)
    (hth : mt.mem.moving &&& mt.mem.thumb ≠ 0) :
    (extract_movement c ops gs mt).1 = gs := by
  unfold extract_movement
  simp [hmov, hpt, hth]

/-- C11: with exactly one moving contact and exactly one pointing contact, the
moving contact thumb-flagged (`mem.moving & mem.thumb != 0`),
`extract_gestures` does not set the MOVE bit (nor any other motion bit) and
reports `gs.dx = gs.dy = 0`, whatever the accumulated deltas of the contact
are.  It holds for any floating-point arithmetic. -/
theorem extract_gestures_thumb {F : Type} (c : Consts) (ops : FloatOps F) (mt : MTouch)
    (hc : c.WF) (hmov : bitcount mt.mem.moving = 1) (hpt : bitcount mt.mem.pointing = 1)
    (hth : mt.mem.moving &&& mt.mem.thumb ≠ 0) :
    GETBIT (extract_gestures c ops mt).1.type c.GS_MOVE = 0 ∧
    (∀ b, b ∈ c.motionBits → GETBIT (extract_gestures c ops mt).1.type b = 0) ∧
    (extract_gestures c ops mt).1.dx = 0 ∧ (extract_gestures c ops mt).1.dy = 0 := by
  simp only [extract_gestures]
  generalize hgs : ({ Gestures.zero with
    posx := (mt.state.finger 0).position_x
    posy := (mt.state.finger 0).position_y
    same_fingers := mt.mem.same } : Gestures) = gs0
  have h0 : gs0.type = 0 := by rw [← hgs]; rfl
  obtain ⟨_, _, b3, b4, b5, _, _⟩ := extract_buttons_mt c gs0 mt
  obtain ⟨g1, g2, _⟩ := extract_buttons_gs c gs0 mt
  have ht := type_after_buttons c mt gs0 h0
  rw [extract_movement_thumb c ops _ _ (by rw [b4]; exact hmov) (by rw [b3]; exact hpt)
    (by rw [b4, b5]; exact hth)]
  refine ⟨GETBIT_after_buttons c hc _ _ (by simp [Consts.motionBits]) ht,
    fun b hb => GETBIT_after_buttons c hc _ b hb ht, ?_, ?_⟩
  · rw [g1, ← hgs]; rfl
  · rw [g2, ← hgs]; rfl

/-- Witness of `extract_gestures_thumb`: a thumb with the accumulated delta
`(5, 0)` gives no MOVE and the delta `(0, 0)`. -/
theorem extract_gestures_thumb_witness :
    thumb_move.mem.dx 0 = 5 ∧
    GETBIT (extract_gestures Consts.sample (ratOps sample_sqrt) thumb_move).1.type
      Consts.sample.GS_MOVE = 0 ∧
    (extract_gestures Consts.sample (ratOps sample_sqrt) thumb_move).1.dx = 0 ∧
    (extract_gestures Consts.sample (ratOps sample_sqrt) thumb_move).1.dy = 0 := by
  obtain ⟨h1, _, h3, h4⟩ :=
    extract_gestures_thumb Consts.sample (ratOps sample_sqrt) thumb_move (by decide)
      (by decide) (by decide) (by decide)
  exact ⟨by decide, h1, h3, h4⟩

/-! ## Theorems: the change mask and the remembered button data -/

/-- The three ways `extract_buttons` ends. -/
theorem extract_buttons_cases (c : Consts) (gs : Gestures) (mt : MTouch) :
    (mt.state.button ≠ mt.prev_state.button →
      (extract_buttons c gs mt).1.btmask =
        (derived_btdata c mt ^^^ mt.mem.btdata) &&& BITONES c.DIM_BUTTON ∧
      (extract_buttons c gs mt).1.btdata = derived_btdata c mt ∧
      (extract_buttons c gs mt).2.mem.btdata = derived_btdata c mt) ∧
    (mt.state.button = mt.prev_state.button → derived_btdata c mt = 0 → mt.mem.ntap ≠ 0 →
      (extract_buttons c gs mt).1.btmask =
        ((if bitcount mt.mem.pointing = 1 ∧ mt.mem.maxtap = 1
          then BITMASK c.MT_BUTTON_LEFT else 0) ^^^ mt.mem.btdata) &&& BITONES c.DIM_BUTTON ∧
      (extract_buttons c gs mt).1.btdata =
        (if bitcount mt.mem.pointing = 1 ∧ mt.mem.maxtap = 1
          then BITMASK c.MT_BUTTON_LEFT else 0) ∧
      (extract_buttons c gs mt).2.mem.btdata =
        (if bitcount mt.mem.pointing = 1 ∧ mt.mem.maxtap = 1
          then BITMASK c.MT_BUTTON_LEFT else 0)) ∧
    (mt.state.button = mt.prev_state.button → ¬ (derived_btdata c mt = 0 ∧ mt.mem.ntap ≠ 0) →
      (extract_buttons c gs mt).1.btmask = gs.btmask ∧
      (extract_buttons c gs mt).1.btdata = gs.btdata ∧
      (extract_buttons c gs mt).2.mem.btdata = mt.mem.btdata) := by
  unfold extract_buttons mt_delay_movement
  simp only
  refine ⟨?_, ?_, ?_⟩
  · intro htr
    split_ifs <;> simp_all
  · intro hsame hd hn
    split_ifs <;> simp_all
  · intro hsame hcond
    split_ifs <;> simp_all

/-- The BUTTON type bit is set exactly when the change mask is not empty. -/
theorem extract_buttons_type (c : Consts) (gs : Gestures) (mt : MTouch) :
    (extract_buttons c gs mt).1.type =
      if (extract_buttons c gs mt).1.btmask ≠ 0 then SETBIT gs.type c.GS_BUTTON else gs.type := by
  unfold extract_buttons mt_delay_movement
  simp only
  split_ifs <;> simp_all

/-- C12 (amended): with `b` the button mask derived for the frame and `m` the
remembered button data before the call of `extract_gestures`: when the
hardware button mask differs from the previous frame's, the change mask
`gs.btmask` is `(b XOR m)` restricted to the `DIM_BUTTON` button bits and
`mem.btdata` becomes `b`; when it does not differ, `b` is empty and a tap is
counted (`mem.ntap != 0`), the same holds with, in the place of `b`, LEFT if
one contact is pointing and `mem.maxtap = 1` and the empty mask otherwise; in
every other call the change mask is empty and `mem.btdata` keeps the value
`m`.  It holds for any floating-point arithmetic. -/
theorem extract_gestures_change_mask {F : Type} (c : Consts) (ops : FloatOps F) (mt : MTouch) :
    (mt.state.button ≠ mt.prev_state.button →
      (extract_gestures c ops mt).1.btmask =
        (derived_btdata c mt ^^^ mt.mem.btdata) &&& BITONES c.DIM_BUTTON ∧
      (extract_gestures c ops mt).2.mem.btdata = derived_btdata c mt) ∧
    (mt.state.button = mt.prev_state.button → derived_btdata c mt = 0 → mt.mem.ntap ≠ 0 →
      (extract_gestures c ops mt).1.btmask =
        ((if bitcount mt.mem.pointing = 1 ∧ mt.mem.maxtap = 1
          then BITMASK c.MT_BUTTON_LEFT else 0) ^^^ mt.mem.btdata) &&& BITONES c.DIM_BUTTON ∧
      (extract_gestures c ops mt).2.mem.btdata =
        (if bitcount mt.mem.pointing = 1 ∧ mt.mem.maxtap = 1
          then BITMASK c.MT_BUTTON_LEFT else 0)) ∧
    (mt.state.button = mt.prev_state.button → ¬ (derived_btdata c mt = 0 ∧ mt.mem.ntap ≠ 0) →
      (extract_gestures c ops mt).1.btmask = 0 ∧
      (extract_gestures c ops mt).2.mem.btdata = mt.mem.btdata) := by
  simp only [extract_gestures]
  generalize hgs : ({ Gestures.zero with
    posx := (mt.state.finger 0).position_x
    posy := (mt.state.finger 0).position_y
    same_fingers := mt.mem.same } : Gestures) = gs0
  have h0 : gs0.btmask = 0 := by rw [← hgs]; rfl
  have hg := (extract_movement_gs c ops (extract_buttons c gs0 mt).1
    (extract_buttons c gs0 mt).2).1
  have hm := (extract_movement_mt c ops (extract_buttons c gs0 mt).1
    (extract_buttons c gs0 mt).2).2.1
  obtain ⟨c1, c2, c3⟩ := extract_buttons_cases c gs0 mt
  rw [hg, hm]
  refine ⟨fun h => ⟨(c1 h).1, (c1 h).2.2⟩, fun h1 h2 h3 => ⟨(c2 h1 h2 h3).1, (c2 h1 h2 h3).2.2⟩,
    fun h1 h2 => ⟨?_, (c3 h1 h2).2.2⟩⟩
  rw [(c3 h1 h2).1, h0]

/-- C12 (counterexample): the left hardware button is held, remembered as LEFT,
and a second contact has started pointing.  The derived mask is RIGHT, which
differs from the remembered LEFT in two button bits, but the change mask is
empty and the remembered button data stays LEFT. -/
theorem held_button_change_not_reported :
    derived_btdata Consts.sample held_button_two_contacts =
      BITMASK Consts.sample.MT_BUTTON_RIGHT ∧
    held_button_two_contacts.mem.btdata = BITMASK Consts.sample.MT_BUTTON_LEFT ∧
    (derived_btdata Consts.sample held_button_two_contacts ^^^
      held_button_two_contacts.mem.btdata) &&& BITONES Consts.sample.DIM_BUTTON = 5 ∧
    (extract_gestures Consts.sample (ratOps sample_sqrt) held_button_two_contacts).1.btmask = 0 ∧
    (extract_gestures Consts.sample (ratOps sample_sqrt) held_button_two_contacts).2.mem.btdata =
      BITMASK Consts.sample.MT_BUTTON_LEFT := by
  decide

/-! ## Theorems: the click synthesised from a tap -/

/-- C13 (amended): when the hardware button mask equals the previous frame's, no
hardware button is pressed, the remembered button data is empty, the tap count
is 1, exactly one contact is pointing and the tap was made with one finger
(`mem.maxtap = 1`), `extract_gestures` synthesises a left click:
`gs.btmask = LEFT`, `gs.btdata = LEFT`, the BUTTON type bit is set, and
`mem.btdata` becomes LEFT.  It holds for any floating-point arithmetic. -/
theorem extract_gestures_tap_click {F : Type} (c : Consts) (ops : FloatOps F) (mt : MTouch)
    (hc : c.WF) (hsame : mt.state.button = mt.prev_state.button) (hb : mt.state.button = 0)
    (hm : mt.mem.btdata = 0) (hn : mt.mem.ntap = 1) (hp : bitcount mt.mem.pointing = 1)
    (hmax : mt.mem.maxtap = 1) :
    (extract_gestures c ops mt).1.btmask = BITMASK c.MT_BUTTON_LEFT ∧
    (extract_gestures c ops mt).1.btdata = BITMASK c.MT_BUTTON_LEFT ∧
    GETBIT (extract_gestures c ops mt).1.type c.GS_BUTTON = 1 ∧
    (extract_gestures c ops mt).2.mem.btdata = BITMASK c.MT_BUTTON_LEFT := by
  have hc0 := hc
  have hBW := (WF_motion c hc c.GS_MOVE (by simp [Consts.motionBits])).2.2
  obtain ⟨hD, hL, _, _, _, _, _⟩ := hc
  have hLD := BITMASK_and_BITONES c.MT_BUTTON_LEFT c.DIM_BUTTON hL hD
  have hL0 : BITMASK c.MT_BUTTON_LEFT ≠ 0 := BITMASK_ne_zero _ (by omega)
  have hd : derived_btdata c mt = 0 := by
    unfold derived_btdata
    simp only [hb]
    rw [if_neg (fun h => hL0 h.symm)]
    simp
  simp only [extract_gestures]
  generalize hgs : ({ Gestures.zero with
    posx := (mt.state.finger 0).position_x
    posy := (mt.state.finger 0).position_y
    same_fingers := mt.mem.same } : Gestures) = gs0
  have h0 : gs0.type = 0 := by rw [← hgs]; rfl
  obtain ⟨g1, g2, _⟩ := extract_movement_gs c ops (extract_buttons c gs0 mt).1
    (extract_buttons c gs0 mt).2
  have hmm := (extract_movement_mt c ops (extract_buttons c gs0 mt).1
    (extract_buttons c gs0 mt).2).2.1
  obtain ⟨k1, k2, k3⟩ := (extract_buttons_cases c gs0 mt).2.1 hsame hd (by rw [hn]; decide)
  rw [if_pos ⟨hp, hmax⟩] at k1 k2 k3
  rw [hm, Nat.xor_zero, hLD] at k1
  have hty : (extract_buttons c gs0 mt).1.type = SETBIT 0 c.GS_BUTTON := by
    rw [extract_buttons_type, if_pos (by rw [k1]; exact hL0), h0]
  refine ⟨by rw [g1, k1], by rw [g2, k2], ?_, by rw [hmm, k3]⟩
  rcases extract_movement_type c ops (extract_buttons c gs0 mt).1 (extract_buttons c gs0 mt).2
    with ht | ⟨X, hX, ht⟩
  · rw [ht, hty, GETBIT_SETBIT _ _ _ hBW, if_pos rfl]
  · rw [ht, hty, GETBIT_SETBIT _ _ _ (WF_motion c hc0 X hX).1, GETBIT_SETBIT _ _ _ hBW,
      if_pos rfl]
    split_ifs <;> rfl

/-- Witness of `extract_gestures_tap_click`: one pointing contact, a one-finger tap counted once, no button. -/
theorem extract_gestures_tap_click_witness :
    one_finger_tap_click.mem.ntap = 1 ∧
    (extract_gestures Consts.sample (ratOps sample_sqrt) one_finger_tap_click).1.btmask =
      BITMASK Consts.sample.MT_BUTTON_LEFT ∧
    (extract_gestures Consts.sample (ratOps sample_sqrt) one_finger_tap_click).1.btdata =
      BITMASK Consts.sample.MT_BUTTON_LEFT ∧
    GETBIT (extract_gestures Consts.sample (ratOps sample_sqrt) one_finger_tap_click).1.type
      Consts.sample.GS_BUTTON = 1 ∧
    (extract_gestures Consts.sample (ratOps sample_sqrt) one_finger_tap_click).2.mem.btdata =
      BITMASK Consts.sample.MT_BUTTON_LEFT :=
  ⟨by decide, extract_gestures_tap_click Consts.sample (ratOps sample_sqrt) one_finger_tap_click
    (by decide) (by decide) (by decide) (by decide) (by decide) (by decide) (by decide)⟩

/-- C13 (counterexample): the conditions of the claim hold (the hardware mask is
unchanged and empty, the remembered button data is empty, the tap count is 1,
one contact is pointing), but the tap was made with two fingers
(`mem.maxtap = 2`): no click is synthesised. -/
theorem two_finger_tap_no_click :
    two_finger_tap_click.state.button = two_finger_tap_click.prev_state.button ∧
    two_finger_tap_click.state.button = 0 ∧
    two_finger_tap_click.mem.btdata = 0 ∧
    two_finger_tap_click.mem.ntap = 1 ∧
    bitcount two_finger_tap_click.mem.pointing = 1 ∧
    (extract_gestures Consts.sample (ratOps sample_sqrt) two_finger_tap_click).1.btmask = 0 ∧
    (extract_gestures Consts.sample (ratOps sample_sqrt) two_finger_tap_click).1.btdata = 0 ∧
    GETBIT (extract_gestures Consts.sample (ratOps sample_sqrt) two_finger_tap_click).1.type
      Consts.sample.GS_BUTTON = 0 ∧
    (extract_gestures Consts.sample (ratOps sample_sqrt) two_finger_tap_click).2.mem.btdata = 0 := by
  decide

/-- Witness of `extract_gestures_change_mask`: the left button goes down while two contacts are pointing. -/
theorem extract_gestures_change_mask_witness :
    press_two_contacts.state.button ≠ press_two_contacts.prev_state.button ∧
    (extract_gestures Consts.sample (ratOps sample_sqrt) press_two_contacts).1.btmask =
      (derived_btdata Consts.sample press_two_contacts ^^^ press_two_contacts.mem.btdata) &&&
        BITONES Consts.sample.DIM_BUTTON ∧
    (extract_gestures Consts.sample (ratOps sample_sqrt) press_two_contacts).2.mem.btdata =
      derived_btdata Consts.sample press_two_contacts :=
  ⟨by decide,
    (extract_gestures_change_mask Consts.sample (ratOps sample_sqrt) press_two_contacts).1
      (by decide)⟩

/-! ## Theorems: the delayed tap and the pending flag -/

/-- C15 (amended): `extract_delayed_gestures` leaves `mem.wait` cleared in every
case, and it does not read the flag: the record and the memory it produces
are the same whatever value `mem.wait` had before the call, so that the tap
mask is LEFT, RIGHT or MIDDLE for `maxtap` 1, 2 or 3 whenever
`tpdown < tpup`, and empty otherwise, whether the flag was set or not; the
TAP type bit is set exactly when the tap mask is not empty. -/
theorem extract_delayed_gestures_wait (c : Consts) (mt : MTouch) (hc : c.WF) :
    (extract_delayed_gestures c mt).2.mem.wait = 0 ∧
    (∀ w : Int, extract_delayed_gestures c { mt with mem := { mt.mem with wait := w } } =
      extract_delayed_gestures c mt) ∧
    (extract_delayed_gestures c mt).1.tapmask =
      (if mt.mem.tpdown < mt.mem.tpup then
        if mt.mem.maxtap = 1 then BITMASK c.MT_BUTTON_LEFT
        else if mt.mem.maxtap = 2 then BITMASK c.MT_BUTTON_RIGHT
        else if mt.mem.maxtap = 3 then BITMASK c.MT_BUTTON_MIDDLE
        else 0
      else 0) ∧
    (GETBIT (extract_delayed_gestures c mt).1.type c.GS_TAP = 1 ↔
      (extract_delayed_gestures c mt).1.tapmask ≠ 0) := by
  obtain ⟨_, _, _, _, _, h32, _⟩ := hc
  have hT : c.GS_TAP < 32 := h32 _ (by simp)
  refine ⟨rfl, fun _ => rfl, delayed_tapmask c mt, ?_⟩
  rw [delayed_type]
  by_cases h : (extract_delayed_gestures c mt).1.tapmask ≠ 0
  · rw [if_pos h, GETBIT_SETBIT _ _ _ hT, if_pos rfl]
    exact ⟨fun _ => h, fun _ => rfl⟩
  · rw [if_neg h, GETBIT_zero]
    exact ⟨fun h0 => absurd h0 (by decide), fun h1 => absurd h1 h⟩

/-- C15 (counterexample): the pending flag is not set (`mem.wait = 0`), the
last all-down time precedes the last all-up time and `maxtap = 1`:
`extract_delayed_gestures` produces the tap mask LEFT and sets the TAP bit. -/
theorem delayed_tap_without_wait :
    tap_without_wait.mem.wait = 0 ∧
    tap_without_wait.mem.tpdown < tap_without_wait.mem.tpup ∧
    tap_without_wait.mem.maxtap = 1 ∧
    (extract_delayed_gestures Consts.sample tap_without_wait).1.tapmask =
      BITMASK Consts.sample.MT_BUTTON_LEFT ∧
    GETBIT (extract_delayed_gestures Consts.sample tap_without_wait).1.type
      Consts.sample.GS_TAP = 1 := by
  decide

/-- Witness of `extract_delayed_gestures_wait`: a completed one-finger tap with
the pending flag set. -/
theorem extract_delayed_gestures_wait_witness :
    one_finger_tap.mem.wait = 1 ∧
    (extract_delayed_gestures Consts.sample one_finger_tap).2.mem.wait = 0 ∧
    (GETBIT (extract_delayed_gestures Consts.sample one_finger_tap).1.type
        Consts.sample.GS_TAP = 1 ↔
      (extract_delayed_gestures Consts.sample one_finger_tap).1.tapmask ≠ 0) :=
  ⟨rfl, (extract_delayed_gestures_wait Consts.sample one_finger_tap (by decide)).1,
    (extract_delayed_gestures_wait Consts.sample one_finger_tap (by decide)).2.2.2⟩

/-! ## Theorems: a contact whose identity is out of range -/

theorem jitter_djt_delta (d : tslib_dejitter) (s : FingerState) :
    (jitter_djt d s).1.delta = d.delta := by
  simp [jitter_djt_eq, inserted]

/-- The first loop of `jitter_filter` never leaves the arrays, and it keeps the
identity of every slot and the threshold of every filter state. -/
theorem filter_loop_total (prev : Nat → Int) :
    ∀ (l : List Nat) (st : (Nat → tslib_dejitter) × (Nat → FingerState)),
      ∃ st', filter_loop prev l st = some st' ∧
        (∀ j, (st'.2 j).tracking_id = (st.2 j).tracking_id) ∧
        ∀ k, (st'.1 k).delta = (st.1 k).delta := by
  intro l
  induction l with
  | nil => intro st; exact ⟨st, rfl, fun _ => rfl, fun _ => rfl⟩
  | cons i is ih =>
    intro st
    obtain ⟨d, fingers⟩ := st
    by_cases hid : 0 ≤ (fingers i).tracking_id ∧ (fingers i).tracking_id < 2
    · obtain ⟨st', h1, h2, h3⟩ := ih
        (Function.update d (fingers i).tracking_id.toNat
          (jitter_djt (if prev (fingers i).tracking_id.toNat = 0
            then { d (fingers i).tracking_id.toNat with nr := 0 }
            else d (fingers i).tracking_id.toNat) (fingers i)).1,
        Function.update fingers i
          (jitter_djt (if prev (fingers i).tracking_id.toNat = 0
            then { d (fingers i).tracking_id.toNat with nr := 0 }
            else d (fingers i).tracking_id.toNat) (fingers i)).2)
      refine ⟨st', ?_, ?_, ?_⟩
      · simp only [filter_loop, filter_step_same prev d fingers i hid, Option.some_bind]
        exact h1
      · intro j
        rw [h2 j]
        by_cases hj : j = i
        · subst hj
          simp only [Function.update_same]
          exact jitter_djt_tracking_id _ _
        · simp only [Function.update_noteq hj]
      · intro k
        rw [h3 k]
        by_cases hk : k = (fingers i).tracking_id.toNat
        · subst hk
          simp only [Function.update_same]
          rw [jitter_djt_delta]
          split_ifs <;> rfl
        · simp only [Function.update_noteq hk]
    · obtain ⟨st', h1, h2, h3⟩ := ih (d, fingers)
      refine ⟨st', ?_, h2, h3⟩
      have hstep : filter_step prev (d, fingers) i = some (d, fingers) := by
        unfold filter_step
        simp only [MAX_FINGERS]
        rw [if_pos]
        push_cast at hid ⊢
        omega
      simp only [filter_loop, hstep, Option.some_bind]
      exact h1

/-- The last loop of `jitter_filter` leaves the array `prev_fingers` as soon as
one of the slots holds an identity outside `[0, MAX_FINGERS)`. -/
theorem mark_loop_none (fingers : Nat → FingerState) (j : Nat)
    (hid : (fingers j).tracking_id < 0 ∨ (fingers j).tracking_id ≥ MAX_FINGERS) :
    ∀ (l : List Nat) (prev : Nat → Int), j ∈ l → mark_loop fingers l prev = none := by
  intro l
  induction l with
  | nil => intro prev hj; simp at hj
  | cons i is ih =>
    intro prev hj
    by_cases hi : 0 ≤ (fingers i).tracking_id ∧ (fingers i).tracking_id < MAX_FINGERS
    · have hne : j ≠ i := by
        rintro rfl
        omega
      have hj' : j ∈ is := by
        rcases List.mem_cons.mp hj with h | h
        · exact absurd h hne
        · exact h
      simp only [mark_loop, if_pos hi]
      exact ih _ hj'
    · simp only [mark_loop, if_neg hi]

/-- C17: for every frame that holds, in one of its `nfinger` slots, a contact
whose `tracking_id` is negative or at least `MAX_FINGERS`: the first loop of
`jitter_filter` skips that contact (the arrays and the frame are unchanged by
its iteration), and runs to its end without leaving the arrays, but the call
as a whole does not stay inside the arrays: the last loop executes
`prev_fingers[s->tracking_id] = 1` for that contact, an access outside
`[0, MAX_FINGERS)`, which is the result `none` of the model. -/
theorem jitter_filter_out_of_range_id (g : JitterGlobals) (state : MTState) (j : Nat)
    (hj : j < state.nfinger)
    (hid : (state.finger j).tracking_id < 0 ∨ (state.finger j).tracking_id ≥ MAX_FINGERS) :
    (∀ d fingers, fingers j = state.finger j →
      filter_step (current_prev g) (d, fingers) j = some (d, fingers)) ∧
    (filter_loop (current_prev g) (List.range state.nfinger)
      (current_djts g, state.finger)).isSome = true ∧
    jitter_filter g state = none := by
  obtain ⟨st', h1, h2, _⟩ := filter_loop_total (current_prev g) (List.range state.nfinger)
    (current_djts g, state.finger)
  refine ⟨?_, by rw [h1]; rfl, ?_⟩
  · intro d fingers hf
    unfold filter_step
    simp only [hf]
    rw [if_pos hid]
  · unfold jitter_filter
    rw [h1, Option.some_bind, mark_loop_none st'.2 j (by rw [h2 j]; exact hid) _ _
      (List.mem_range.mpr hj)]
    rfl

/-- Witness of `jitter_filter_out_of_range_id`: the first frame of a run holds one contact with the identity 2. -/
theorem jitter_filter_out_of_range_id_witness :
    (single_frame ⟨2, 10, 20, 30⟩).nfinger = 1 ∧
    ((single_frame ⟨2, 10, 20, 30⟩).finger 0).tracking_id = 2 ∧
    jitter_filter JitterGlobals.initial (single_frame ⟨2, 10, 20, 30⟩) = none :=
  ⟨rfl, rfl, (jitter_filter_out_of_range_id JitterGlobals.initial (single_frame ⟨2, 10, 20, 30⟩) 0
    (by decide) (by decide)).2.2⟩

/-! ## Theorems: the filter stays inside the range of its window -/

/-- The weighted mean of `n` values lies between any bounds of the values. -/
theorem weighted_bounds (n : Nat) (r : Nat → Int) (lo hi : Int) (h2 : 2 ≤ n) (h8 : n ≤ 8)
    (h : ∀ i, i < n → lo ≤ r i ∧ r i ≤ hi) : lo ≤ weighted n r ∧ weighted n r ≤ hi := by
  have k0 := h 0 (by omega)
  have k1 := h 1 (by omega)
  have k2 : 2 < n → lo ≤ r 2 ∧ r 2 ≤ hi := h 2
  have k3 : 3 < n → lo ≤ r 3 ∧ r 3 ≤ hi := h 3
  have k4 : 4 < n → lo ≤ r 4 ∧ r 4 ≤ hi := h 4
  have k5 : 5 < n → lo ≤ r 5 ∧ r 5 ≤ hi := h 5
  have k6 : 6 < n → lo ≤ r 6 ∧ r 6 ≤ hi := h 6
  have k7 : 7 < n → lo ≤ r 7 ∧ r 7 ≤ hi := h 7
  clear h
  interval_cases n <;>
  · simp [weighted, weightAt, weight, NR_SAMPHISTLEN, List.range_succ]
    norm_num at k2 k3 k4 k5 k6 k7 ⊢
    omega

/-- C20: for an in-range identity whose filter state holds at most 8 samples and
a new raw sample with a pressure in `[0, 2^27)`, `jitter_finger` returns, and
with `n` the number of samples in the history window after the call (the new
sample and the previous ones since the last reset, at most 8: one more than
the count before the call, or than 0 after a jump, capped at 8): the newest
sample of the window is the new raw sample, and when the `n` samples of the
window are small enough that the weighted sums do not overflow (`smallHist`),
each filtered component lies between any lower bound `lo` and upper bound `hi`
of that component over the `n` samples of the window, so between their minimum
and their maximum. -/
theorem jitter_finger_within_window (djts : Nat → tslib_dejitter) (s : FingerState)
    (hid : 0 ≤ s.tracking_id ∧ s.tracking_id < 2)
    (hnr : (djts s.tracking_id.toNat).nr ≤ 8)
    (hp : 0 ≤ s.pressure ∧ s.pressure < 134217728) :
    ∃ r, jitter_finger djts s = some r ∧
      1 ≤ (r.1 s.tracking_id.toNat).nr ∧ (r.1 s.tracking_id.toNat).nr ≤ 8 ∧
      (r.1 s.tracking_id.toNat).nr = next_nr (djts s.tracking_id.toNat) s ∧
      nth_raw (r.1 s.tracking_id.toNat) 0 = ⟨s.position_x, s.position_y, s.pressure⟩ ∧
      ((∀ i, i < (r.1 s.tracking_id.toNat).nr →
          smallHist (nth_raw (r.1 s.tracking_id.toNat) i)) →
        ∀ lo hi : Int,
          ((∀ i, i < (r.1 s.tracking_id.toNat).nr →
              lo ≤ (nth_raw (r.1 s.tracking_id.toNat) i).x ∧
              (nth_raw (r.1 s.tracking_id.toNat) i).x ≤ hi) →
            lo ≤ r.2.position_x ∧ r.2.position_x ≤ hi) ∧
          ((∀ i, i < (r.1 s.tracking_id.toNat).nr →
              lo ≤ (nth_raw (r.1 s.tracking_id.toNat) i).y ∧
              (nth_raw (r.1 s.tracking_id.toNat) i).y ≤ hi) →
            lo ≤ r.2.position_y ∧ r.2.position_y ≤ hi) ∧
          ((∀ i, i < (r.1 s.tracking_id.toNat).nr →
              lo ≤ (nth_raw (r.1 s.tracking_id.toNat) i).p ∧
              (nth_raw (r.1 s.tracking_id.toNat) i).p ≤ hi) →
            lo ≤ r.2.pressure ∧ r.2.pressure ≤ hi)) := by
  refine ⟨_, jitter_finger_some djts s hid, ?_⟩
  simp only [Function.update_same]
  generalize djts s.tracking_id.toNat = djt at hnr ⊢
  have hu : u32 s.pressure = s.pressure := u32_small _ hp.1 (by omega)
  have hnext : 1 ≤ next_nr djt s ∧ next_nr djt s ≤ 8 := by
    unfold next_nr
    simp only [NR_SAMPHISTLEN]
    split_ifs <;> omega
  have hnrEq : (jitter_djt djt s).1.nr = next_nr djt s := by
    simp [jitter_djt_eq, inserted]
  have hraw : ∀ i, nth_raw (jitter_djt djt s).1 i =
      (inserted djt s).hist (cursor (inserted djt s).head i) := by
    intro i
    simp [jitter_djt_eq, nth_raw, inserted, head_succ_pred]
  have e0 : nth_raw (jitter_djt djt s).1 0 = ⟨s.position_x, s.position_y, s.pressure⟩ := by
    rw [nth_raw_inserted_zero, raw_of, hu]
  refine ⟨by rw [hnrEq]; exact hnext.1, by rw [hnrEq]; exact hnext.2, hnrEq, e0, ?_⟩
  intro hsmall lo hi
  rw [hnrEq] at hsmall ⊢
  by_cases h1 : next_nr djt s = 1
  · have hout : (jitter_djt djt s).2 = s := by
      rw [jitter_djt_eq]
      simp only
      rw [if_neg (by omega)]
    rw [hout, h1]
    refine ⟨fun h => ?_, fun h => ?_, fun h => ?_⟩
    · have := h 0 (by omega)
      rw [e0] at this
      exact this
    · have := h 0 (by omega)
      rw [e0] at this
      exact this
    · have := h 0 (by omega)
      rw [e0] at this
      exact this
  · have h2 : 2 ≤ next_nr djt s := by omega
    have hout : (jitter_djt djt s).2 = average (inserted djt s) s := by
      rw [jitter_djt_eq]
      simp only
      rw [if_pos (by omega)]
    have hins : (inserted djt s).nr = next_nr djt s := rfl
    have hav := average_eq_weighted (inserted djt s) s (by rw [hins]; exact h2)
      (by rw [hins]; exact hnext.2)
      (by
        intro i hi
        rw [← hraw]
        exact hsmall i (by rw [← hins]; exact hi))
    rw [hins] at hav
    rw [hout, hav.1, hav.2.1, hav.2.2.1]
    simp only [hraw]
    exact ⟨fun h => weighted_bounds _ _ lo hi h2 hnext.2 h,
      fun h => weighted_bounds _ _ lo hi h2 hnext.2 h,
      fun h => weighted_bounds _ _ lo hi h2 hnext.2 h⟩

/-- Witness of `jitter_finger_within_window`: the sample `(-11, 21, 31)` after the sample `(-10, 20, 30)`:
the window holds two samples and the filtered sample lies between them. -/
theorem jitter_finger_within_window_witness :
    ∃ r, jitter_finger (after_one ⟨0, -10, 20, 30⟩) ⟨0, -11, 21, 31⟩ = some r ∧
      1 ≤ (r.1 0).nr ∧ (r.1 0).nr ≤ 8 ∧ nth_raw (r.1 0) 0 = ⟨-11, 21, 31⟩ := by
  obtain ⟨r, h1, h2, h3, _, h4, _⟩ :=
    jitter_finger_within_window (after_one ⟨0, -10, 20, 30⟩) ⟨0, -11, 21, 31⟩
      (by decide) (by decide) (by decide)
  exact ⟨r, h1, h2, h3, h4⟩

/-! ## Theorems: the positions used by the shape sums -/

/-- C19: for two moving contacts `i < j` with the positions `(x_i, y_i)` and
`(x_j, y_j)`, over exact rational arithmetic, the positions `extract_movement`
uses in the radius, scale and rotation sums are `xp[i] = x_i - x_j / 2` and
`xp[j] = x_j / 2 - x_i` (and the same for `yp`): the first loop subtracts the
running `xpos` from each position before adding the difference to it, so that
`xpos` ends as the position of the last contact, not as the sum of the
positions.  The value `xp[i]` is the centroid-relative `x_i - (x_i + x_j) / 2`
only when `x_i = 0`. -/
theorem extract_movement_pair_positions (sqrt : ℚ → ℚ) (mt : MTouch) (i j : Nat)
    (hij : i < j) (hj : j < 32) (hmov : mt.mem.moving = BITMASK i ||| BITMASK j) :
    (shape_vars (ratOps sqrt) mt).xp i =
      ((mt.state.finger i).position_x : ℚ) - ((mt.state.finger j).position_x : ℚ) / 2 ∧
    (shape_vars (ratOps sqrt) mt).xp j =
      ((mt.state.finger j).position_x : ℚ) / 2 - ((mt.state.finger i).position_x : ℚ) ∧
    (shape_vars (ratOps sqrt) mt).yp i =
      ((mt.state.finger i).position_y : ℚ) - ((mt.state.finger j).position_y : ℚ) / 2 ∧
    (shape_vars (ratOps sqrt) mt).yp j =
      ((mt.state.finger j).position_y : ℚ) / 2 - ((mt.state.finger i).position_y : ℚ) ∧
    ((shape_vars (ratOps sqrt) mt).xp i =
        ((mt.state.finger i).position_x : ℚ) -
          (((mt.state.finger i).position_x : ℚ) + ((mt.state.finger j).position_x : ℚ)) / 2 ↔
      (mt.state.finger i).position_x = 0) := by
  have hi : i < 32 := by omega
  have hne : j ≠ i := by omega
  have hne' : i ≠ j := by omega
  have hn : bitcount mt.mem.moving = 2 := by
    rw [hmov]; exact bitcount_pair ⟨i, hi⟩ ⟨j, hj⟩ (by simpa using hij)
  have hl : foreach_bit mt.mem.moving = [i, j] := by
    rw [hmov]; exact foreach_bit_pair ⟨i, hi⟩ ⟨j, hj⟩ (by simpa using hij)
  have e1 : (shape_vars (ratOps sqrt) mt).xp i =
      ((mt.state.finger i).position_x : ℚ) - ((mt.state.finger j).position_x : ℚ) / 2 := by
    simp only [shape_vars, movement_vars, hl, hn]
    simp only [List.foldl, movement_step, shape_step, ratOps,
      Function.update_noteq hne, Function.update_noteq hne', Function.update_same]
    push_cast
    ring
  refine ⟨e1, ?_, ?_, ?_, ?_⟩
  · simp only [shape_vars, movement_vars, hl, hn]
    simp only [List.foldl, movement_step, shape_step, ratOps,
      Function.update_noteq hne, Function.update_noteq hne', Function.update_same]
    push_cast
    ring
  · simp only [shape_vars, movement_vars, hl, hn]
    simp only [List.foldl, movement_step, shape_step, ratOps,
      Function.update_noteq hne, Function.update_noteq hne', Function.update_same]
    push_cast
    ring
  · simp only [shape_vars, movement_vars, hl, hn]
    simp only [List.foldl, movement_step, shape_step, ratOps,
      Function.update_noteq hne, Function.update_noteq hne', Function.update_same]
    push_cast
    ring
  · rw [e1]
    constructor
    · intro h
      have h2 : ((mt.state.finger i).position_x : ℚ) = 0 := by linarith
      exact_mod_cast h2
    · intro h
      rw [h]
      push_cast
      ring

/-- Witness of `extract_movement_pair_positions`: two contacts at `(103, 104)` and `(200, 200)`: the
positions used are `(3, 4)` and `(-3, -4)`, where the centroid-relative ones
are `(-97/2, -48)` and `(97/2, 48)`. -/
theorem extract_movement_pair_positions_witness :
    (shape_vars (ratOps sample_sqrt) two_finger_scroll).xp 0 = 3 ∧
    (shape_vars (ratOps sample_sqrt) two_finger_scroll).xp 1 = -3 ∧
    (shape_vars (ratOps sample_sqrt) two_finger_scroll).yp 0 = 4 ∧
    (shape_vars (ratOps sample_sqrt) two_finger_scroll).yp 1 = -4 ∧
    (103 : ℚ) - (103 + 200) / 2 = -97 / 2 := by
  obtain ⟨h1, h2, h3, h4, _⟩ :=
    extract_movement_pair_positions sample_sqrt two_finger_scroll 0 1 (by decide) (by decide)
      (by decide)
  have f0 : two_finger_scroll.state.finger 0 = ⟨0, 103, 104, 0⟩ := rfl
  have f1 : two_finger_scroll.state.finger 1 = ⟨1, 200, 200, 0⟩ := rfl
  rw [f0, f1] at h1 h2 h3 h4
  refine ⟨?_, ?_, ?_, ?_, by norm_num⟩
  · rw [h1]; norm_num
  · rw [h2]; norm_num
  · rw [h3]; norm_num
  · rw [h4]; norm_num

/-! ## Theorems: rotation, scale and translation -/

theorem GETBIT_CLEARBIT_zero (x : Nat) : GETBIT (CLEARBIT 0 x) x = 0 := by
  simp [CLEARBIT, GETBIT_zero]

/-- The four ways one call of `extract_mouse_gestures` ends. -/
theorem mouse_step_spec (c : Consts) (st : Int × MTouch) (f : MTState) :
    (st.1 = -1 → f.nfinger = 1 →
      (mouse_step c st f).1 = (f.finger 0).tracking_id ∧
      (mouse_step c st f).2.1.btmask = SETBIT 0 c.MT_BUTTON_LEFT ∧
      (mouse_step c st f).2.1.btdata = SETBIT 0 c.MT_BUTTON_LEFT ∧
      (mouse_step c st f).2.1.posx = (f.finger 0).position_x ∧
      (mouse_step c st f).2.1.posy = (f.finger 0).position_y ∧
      (mouse_step c st f).2.2.mem.btdata = BITMASK c.MT_BUTTON_LEFT) ∧
    (st.1 = -1 → f.nfinger ≠ 1 →
      (mouse_step c st f).1 = -1 ∧
      (mouse_step c st f).2.1.btmask = 0 ∧
      (mouse_step c st f).2.2.mem.btdata = st.2.mem.btdata) ∧
    (st.1 ≠ -1 → find_finger f st.1 = none →
      (mouse_step c st f).1 = -1 ∧
      (mouse_step c st f).2.1.btmask = SETBIT 0 c.MT_BUTTON_LEFT ∧
      (mouse_step c st f).2.1.btdata = CLEARBIT 0 c.MT_BUTTON_LEFT ∧
      (mouse_step c st f).2.2.mem.btdata = 0) ∧
    (st.1 ≠ -1 → find_finger f st.1 ≠ none →
      (mouse_step c st f).1 = st.1 ∧
      (mouse_step c st f).2.1.btmask = 0 ∧
      (mouse_step c st f).2.2.mem.btdata = st.2.mem.btdata) := by
  refine ⟨?_, ?_, ?_, ?_⟩
  · intro h1 h2
    simp only [mouse_step, extract_mouse_gestures, extract_mouse, h1, h2, if_true]
    try (and_intros <;> trivial)
  · intro h1 h2
    simp only [mouse_step, extract_mouse_gestures, extract_mouse, h1, if_true, if_neg h2]
    try (and_intros <;> trivial)
  · intro h1 h2
    simp only [mouse_step, extract_mouse_gestures, extract_mouse, if_neg h1, h2]
    try (and_intros <;> trivial)
  · intro h1 h2
    obtain ⟨g, hg⟩ := Option.ne_none_iff_exists'.mp h2
    simp only [mouse_step, extract_mouse_gestures, extract_mouse, if_neg h1, hg]
    try (and_intros <;> trivial)

theorem button_events_cons (c : Consts) (r : Int × Gestures × MTouch)
    (rs : List (Int × Gestures × MTouch)) :
    button_events c (r :: rs) =
      if GETBIT r.2.1.btmask c.MT_BUTTON_LEFT = 1
      then decide (GETBIT r.2.1.btdata c.MT_BUTTON_LEFT = 1) :: button_events c rs
      else button_events c rs := by
  unfold button_events
  by_cases h : GETBIT r.2.1.btmask c.MT_BUTTON_LEFT = 1
  · rw [List.filterMap_cons_some (by rw [if_pos h]), if_pos h]
  · rw [List.filterMap_cons_none (by rw [if_neg h]), if_neg h]

/-- The left-button bits of the record after one call, by the four cases. -/
theorem mouse_step_bits (c : Consts) (hc : c.WF) (st : Int × MTouch) (f : MTState) :
    (st.1 = -1 → f.nfinger = 1 →
      GETBIT (mouse_step c st f).2.1.btmask c.MT_BUTTON_LEFT = 1 ∧
      GETBIT (mouse_step c st f).2.1.btdata c.MT_BUTTON_LEFT = 1) ∧
    (st.1 = -1 → f.nfinger ≠ 1 →
      GETBIT (mouse_step c st f).2.1.btmask c.MT_BUTTON_LEFT = 0) ∧
    (st.1 ≠ -1 → find_finger f st.1 = none →
      GETBIT (mouse_step c st f).2.1.btmask c.MT_BUTTON_LEFT = 1 ∧
      GETBIT (mouse_step c st f).2.1.btdata c.MT_BUTTON_LEFT = 0) ∧
    (st.1 ≠ -1 → find_finger f st.1 ≠ none →
      GETBIT (mouse_step c st f).2.1.btmask c.MT_BUTTON_LEFT = 0) := by
  obtain ⟨hD, hL, _⟩ := hc
  have hL32 : c.MT_BUTTON_LEFT < 32 := by omega
  have hset : GETBIT (SETBIT 0 c.MT_BUTTON_LEFT) c.MT_BUTTON_LEFT = 1 := by
    rw [GETBIT_SETBIT _ _ _ hL32, if_pos rfl]
  obtain ⟨sA, sB, sC, sD⟩ := mouse_step_spec c st f
  refine ⟨fun h1 h2 => ?_, fun h1 h2 => ?_, fun h1 h2 => ?_, fun h1 h2 => ?_⟩
  · obtain ⟨_, e1, e2, _⟩ := sA h1 h2
    rw [e1, e2]
    exact ⟨hset, hset⟩
  · obtain ⟨_, e1, _⟩ := sB h1 h2
    rw [e1]
    exact GETBIT_zero _
  · obtain ⟨_, e1, e2, _⟩ := sC h1 h2
    rw [e1, e2]
    exact ⟨hset, GETBIT_CLEARBIT_zero _⟩
  · obtain ⟨_, e1, _⟩ := sD h1 h2
    rw [e1]
    exact GETBIT_zero _

/-- Down and up alternate from any state, the first event being a down exactly
when no identity is tracked. -/
theorem mouse_run_alternating (c : Consts) (hc : c.WF) :
    ∀ (fs : List MTState) (st : Int × MTouch),
      (∀ f, f ∈ fs → ∀ j, j < f.nfinger → 0 ≤ (f.finger j).tracking_id) →
      alternating (decide (st.1 = -1)) (button_events c (mouse_run c st fs)) = true := by
  intro fs
  induction fs with
  | nil => intro st _; rfl
  | cons f fs ih =>
    intro st hids
    have hids' : ∀ g, g ∈ fs → ∀ j, j < g.nfinger → 0 ≤ (g.finger j).tracking_id :=
      fun g hg => hids g (List.mem_cons_of_mem _ hg)
    have hrec := ih ((mouse_step c st f).1, (mouse_step c st f).2.2) hids'
    obtain ⟨sA, sB, sC, sD⟩ := mouse_step_spec c st f
    obtain ⟨bA, bB, bC, bD⟩ := mouse_step_bits c hc st f
    simp only [mouse_run, button_events_cons]
    by_cases h1 : st.1 = -1
    · have h1d : decide (st.1 = -1) = true := decide_eq_true h1
      by_cases h2 : f.nfinger = 1
      · obtain ⟨m1, m2⟩ := bA h1 h2
        have hid := hids f (List.mem_cons_self _ _) 0 (by omega)
        have hne : (mouse_step c st f).1 ≠ -1 := by
          rw [(sA h1 h2).1]; omega
        rw [decide_eq_false hne] at hrec
        rw [m1, if_pos rfl, m2, h1d]
        exact hrec
      · have m1 := bB h1 h2
        rw [decide_eq_true (sB h1 h2).1] at hrec
        rw [m1, if_neg (by decide), h1d]
        exact hrec
    · have h1d : decide (st.1 = -1) = false := decide_eq_false h1
      by_cases h2 : find_finger f st.1 = none
      · obtain ⟨m1, m2⟩ := bC h1 h2
        rw [decide_eq_true (sC h1 h2).1] at hrec
        rw [m1, if_pos rfl, m2, h1d]
        exact hrec
      · have m1 := bD h1 h2
        have hne : (mouse_step c st f).1 ≠ -1 := by
          rw [(sD h1 h2).1]; exact h1
        rw [decide_eq_false hne] at hrec
        rw [m1, if_neg (by decide), h1d]
        exact hrec

/-- After every call the remembered button data is LEFT when an identity is
tracked and empty when none is. -/
theorem mouse_run_btdata (c : Consts) :
    ∀ (fs : List MTState) (st : Int × MTouch),
      (∀ f, f ∈ fs → ∀ j, j < f.nfinger → 0 ≤ (f.finger j).tracking_id) →
      st.2.mem.btdata = (if st.1 ≠ -1 then BITMASK c.MT_BUTTON_LEFT else 0) →
      ∀ r, r ∈ mouse_run c st fs →
        r.2.2.mem.btdata = (if r.1 ≠ -1 then BITMASK c.MT_BUTTON_LEFT else 0) := by
  intro fs
  induction fs with
  | nil => intro st _ _ r hr; simp [mouse_run] at hr
  | cons f fs ih =>
    intro st hids hinv r hr
    have hids' : ∀ g, g ∈ fs → ∀ j, j < g.nfinger → 0 ≤ (g.finger j).tracking_id :=
      fun g hg => hids g (List.mem_cons_of_mem _ hg)
    obtain ⟨sA, sB, sC, sD⟩ := mouse_step_spec c st f
    have hstep : (mouse_step c st f).2.2.mem.btdata =
        (if (mouse_step c st f).1 ≠ -1 then BITMASK c.MT_BUTTON_LEFT else 0) := by
      by_cases h1 : st.1 = -1
      · by_cases h2 : f.nfinger = 1
        · obtain ⟨e1, _, _, _, _, e2⟩ := sA h1 h2
          have hid := hids f (List.mem_cons_self _ _) 0 (by omega)
          rw [e2, if_pos (by rw [e1]; omega)]
        · obtain ⟨e1, _, e2⟩ := sB h1 h2
          rw [e2, e1, hinv, h1]
      · by_cases h2 : find_finger f st.1 = none
        · obtain ⟨e1, _, _, e2⟩ := sC h1 h2
          rw [e2, e1]
          rfl
        · obtain ⟨e1, _, e2⟩ := sD h1 h2
          rw [e2, e1, hinv]
    simp only [mouse_run, List.mem_cons] at hr
    rcases hr with rfl | hr
    · exact hstep
    · exact ih _ hids' hstep r hr

/-- The result of the call for the frame at a given position of a run. -/
theorem mouse_run_append (c : Consts) :
    ∀ (pre : List MTState) (st : Int × MTouch) (f : MTState) (post : List MTState),
      (mouse_run c st (pre ++ f :: post))[pre.length]? =
        some (mouse_step c (mouse_after c st pre) f) := by
  intro pre
  induction pre with
  | nil =>
    intro st f post
    simp only [List.nil_append, List.length_nil, mouse_run, mouse_after,
      List.getElem?_cons_zero]
  | cons g pre ih =>
    intro st f post
    simp only [List.cons_append, mouse_run, List.length_cons, List.getElem?_cons_succ, mouse_after]
    exact ih _ f post

/-- C18: for every sequence of frames whose contacts have non-negative tracking
ids, processed by `extract_mouse_gestures` from the untracked state
(`tracking_id = -1`) with `mem.btdata = 0`: the calls that report a
left-button change alternate between button-down and button-up, beginning
with button-down; after every call `mem.btdata` is LEFT when an identity is
tracked and 0 when none is; and for the call at any position of the
sequence, with `tr` the tracked identity before it: a button-down is reported
exactly when nothing is tracked and the frame has exactly one contact, with
that contact's position in `gs.posx`, `gs.posy` and its identity tracked
afterwards; a button-up is reported exactly when an identity is tracked and is
absent from the frame, and nothing is tracked afterwards; and a call that
reports no left-button change leaves the tracked identity as it is, so that
the button-up comes on the first frame without the tracked identity. -/
theorem extract_mouse_gestures_alternates (c : Consts) (mt0 : MTouch) (fs : List MTState)
    (hc : c.WF) (h0 : mt0.mem.btdata = 0)
    (hids : ∀ f, f ∈ fs → ∀ j, j < f.nfinger → 0 ≤ (f.finger j).tracking_id) :
    alternating true (button_events c (mouse_run c (-1, mt0) fs)) = true ∧
    (∀ r, r ∈ mouse_run c (-1, mt0) fs →
      r.2.2.mem.btdata = (if r.1 ≠ -1 then BITMASK c.MT_BUTTON_LEFT else 0)) ∧
    (∀ pre f post, fs = pre ++ f :: post →
      (mouse_run c (-1, mt0) fs)[pre.length]? =
        some (mouse_step c (mouse_after c (-1, mt0) pre) f) ∧
      ((GETBIT (mouse_step c (mouse_after c (-1, mt0) pre) f).2.1.btmask c.MT_BUTTON_LEFT = 1 ∧
          GETBIT (mouse_step c (mouse_after c (-1, mt0) pre) f).2.1.btdata c.MT_BUTTON_LEFT = 1) ↔
        ((mouse_after c (-1, mt0) pre).1 = -1 ∧ f.nfinger = 1)) ∧
      ((mouse_after c (-1, mt0) pre).1 = -1 ∧ f.nfinger = 1 →
        (mouse_step c (mouse_after c (-1, mt0) pre) f).2.1.posx = (f.finger 0).position_x ∧
        (mouse_step c (mouse_after c (-1, mt0) pre) f).2.1.posy = (f.finger 0).position_y ∧
        (mouse_step c (mouse_after c (-1, mt0) pre) f).1 = (f.finger 0).tracking_id ∧
        (mouse_step c (mouse_after c (-1, mt0) pre) f).1 ≠ -1) ∧
      ((GETBIT (mouse_step c (mouse_after c (-1, mt0) pre) f).2.1.btmask c.MT_BUTTON_LEFT = 1 ∧
          GETBIT (mouse_step c (mouse_after c (-1, mt0) pre) f).2.1.btdata c.MT_BUTTON_LEFT = 0) ↔
        ((mouse_after c (-1, mt0) pre).1 ≠ -1 ∧
          find_finger f (mouse_after c (-1, mt0) pre).1 = none)) ∧
      ((mouse_after c (-1, mt0) pre).1 ≠ -1 ∧
          find_finger f (mouse_after c (-1, mt0) pre).1 = none →
        (mouse_step c (mouse_after c (-1, mt0) pre) f).1 = -1) ∧
      (GETBIT (mouse_step c (mouse_after c (-1, mt0) pre) f).2.1.btmask c.MT_BUTTON_LEFT = 0 →
        (mouse_step c (mouse_after c (-1, mt0) pre) f).1 = (mouse_after c (-1, mt0) pre).1)) := by
  have halt := mouse_run_alternating c hc fs (-1, mt0) hids
  rw [decide_eq_true (rfl : ((-1 : Int), mt0).1 = -1)] at halt
  refine ⟨halt,
    mouse_run_btdata c fs (-1, mt0) hids (by rw [h0]; rfl), ?_⟩
  intro pre f post hfs
  have hf : f ∈ fs := by rw [hfs]; simp
  refine ⟨by rw [hfs]; exact mouse_run_append c pre (-1, mt0) f post, ?_⟩
  generalize mouse_after c (-1, mt0) pre = st
  obtain ⟨sA, sB, sC, sD⟩ := mouse_step_spec c st f
  obtain ⟨bA, bB, bC, bD⟩ := mouse_step_bits c hc st f
  by_cases h1 : st.1 = -1
  · by_cases h2 : f.nfinger = 1
    · obtain ⟨m1, m2⟩ := bA h1 h2
      obtain ⟨e1, _, _, e4, e5, _⟩ := sA h1 h2
      have hid := hids f hf 0 (by omega)
      refine ⟨⟨fun _ => ⟨h1, h2⟩, fun _ => ⟨m1, m2⟩⟩, fun _ => ⟨e4, e5, e1, by rw [e1]; omega⟩,
        ⟨fun h => ?_, fun h => absurd h1 h.1⟩, fun h => absurd h1 h.1, fun h => ?_⟩
      · rw [m2] at h; exact absurd h.2 (by decide)
      · rw [m1] at h; exact absurd h (by decide)
    · have m1 := bB h1 h2
      refine ⟨⟨fun h => ?_, fun h => absurd h.2 h2⟩, fun h => absurd h.2 h2,
        ⟨fun h => ?_, fun h => absurd h1 h.1⟩, fun h => absurd h1 h.1,
        fun _ => by rw [(sB h1 h2).1, h1]⟩
      · rw [m1] at h; exact absurd h.1 (by decide)
      · rw [m1] at h; exact absurd h.1 (by decide)
  · by_cases h2 : find_finger f st.1 = none
    · obtain ⟨m1, m2⟩ := bC h1 h2
      refine ⟨⟨fun h => ?_, fun h => absurd h.1 h1⟩, fun h => absurd h.1 h1,
        ⟨fun _ => ⟨h1, h2⟩, fun _ => ⟨m1, m2⟩⟩, fun _ => (sC h1 h2).1, fun h => ?_⟩
      · rw [m2] at h; exact absurd h.2 (by decide)
      · rw [m1] at h; exact absurd h (by decide)
    · have m1 := bD h1 h2
      refine ⟨⟨fun h => ?_, fun h => absurd h.1 h1⟩, fun h => absurd h.1 h1,
        ⟨fun h => ?_, fun h => absurd h.2 h2⟩, fun h => absurd h.2 h2,
        fun _ => (sD h1 h2).1⟩
      · rw [m1] at h; exact absurd h.1 (by decide)
      · rw [m1] at h; exact absurd h.1 (by decide)

/-- Witness of `extract_mouse_gestures_alternates`: a contact appears, moves, goes, and another contact appears:
a button-down, a button-up and a button-down are reported. -/
theorem extract_mouse_gestures_alternates_witness :
    button_events Consts.sample (mouse_run Consts.sample (-1, MTouch.zero) mouse_frames) =
      [true, false, true] ∧
    alternating true
      (button_events Consts.sample (mouse_run Consts.sample (-1, MTouch.zero) mouse_frames)) =
      true :=
  ⟨by decide,
    (extract_mouse_gestures_alternates Consts.sample MTouch.zero mouse_frames (by decide) rfl
      (by decide)).1⟩

/-! ## Theorems: a fresh identity starts from an empty history -/

/-- The sums of `average` depend on the samples of the window only, not on
where the window lies in the ring buffer. -/
theorem average_loop_congr (d d' : tslib_dejitter) (row : Nat) :
    ∀ m : Nat, (∀ i, i < m → d.hist (cursor d.head i) = d'.hist (cursor d'.head i)) →
      ((List.range m).foldl (average_step d row) ⟨0, 0, 0, d.head⟩).x =
        ((List.range m).foldl (average_step d' row) ⟨0, 0, 0, d'.head⟩).x ∧
      ((List.range m).foldl (average_step d row) ⟨0, 0, 0, d.head⟩).y =
        ((List.range m).foldl (average_step d' row) ⟨0, 0, 0, d'.head⟩).y ∧
      ((List.range m).foldl (average_step d row) ⟨0, 0, 0, d.head⟩).p =
        ((List.range m).foldl (average_step d' row) ⟨0, 0, 0, d'.head⟩).p ∧
      ((List.range m).foldl (average_step d row) ⟨0, 0, 0, d.head⟩).sn = cursor d.head m ∧
      ((List.range m).foldl (average_step d' row) ⟨0, 0, 0, d'.head⟩).sn = cursor d'.head m := by
  intro m
  induction m with
  | zero => intro _; exact ⟨rfl, rfl, rfl, rfl, rfl⟩
  | succ m ih =>
    intro h
    obtain ⟨hx, hy, hp, hs, hs'⟩ := ih (fun i hi => h i (by omega))
    have hm := h m (by omega)
    simp only [List.range_succ, List.foldl_append, List.foldl_cons, List.foldl_nil]
    simp only [average_step, hs, hs', hx, hy, hp, hm, cursor]
    try (and_intros <;> trivial)

theorem average_congr (d d' : tslib_dejitter) (s : FingerState) (hnr : d.nr = d'.nr)
    (h : ∀ i, i < d.nr → d.hist (cursor d.head i) = d'.hist (cursor d'.head i)) :
    average d s = average d' s := by
  obtain ⟨hx, hy, hp, _, _⟩ := average_loop_congr d d' (d'.nr - 2) d'.nr (by rw [← hnr]; exact h)
  unfold average average_loop
  simp only [hnr, hx, hy, hp]

/-- One call of `jitter_finger` on two filter states with the same window:
the same filtered sample, and again the same window. -/
theorem jitter_djt_same_window (d d' : tslib_dejitter) (s : FingerState)
    (h : SameWindow d d') :
    (jitter_djt d s).2 = (jitter_djt d' s).2 ∧
    SameWindow (jitter_djt d s).1 (jitter_djt d' s).1 := by
  obtain ⟨hδ, hnr, h8, hw⟩ := h
  have hjump : d.nr ≠ 0 → jump d s = jump d' s := by
    intro h0
    have e := hw 0 (by omega)
    simp only [nth_raw, cursor] at e
    simp only [jump, e, hδ]
  have hnext : next_nr d s = next_nr d' s := by
    unfold next_nr
    by_cases h0 : d.nr = 0
    · have h0' : d'.nr = 0 := by omega
      simp [h0, h0']
    · rw [hjump h0, hnr]
  have hn8 : next_nr d s ≤ 8 ∧ next_nr d s ≤ d.nr + 1 := by
    unfold next_nr
    simp only [NR_SAMPHISTLEN]
    split_ifs <;> omega
  have hraw : ∀ (e : tslib_dejitter) (i : Nat), nth_raw (jitter_djt e s).1 i =
      (inserted e s).hist (cursor (inserted e s).head i) := by
    intro e i
    simp [jitter_djt_eq, nth_raw, inserted, head_succ_pred]
  have hwin : ∀ i, i < next_nr d s →
      nth_raw (jitter_djt d s).1 i = nth_raw (jitter_djt d' s).1 i := by
    intro i hi
    cases i with
    | zero => rw [nth_raw_inserted_zero, nth_raw_inserted_zero]
    | succ k =>
      rw [nth_raw_inserted_succ d s k (by omega), nth_raw_inserted_succ d' s k (by omega)]
      exact hw k (by omega)
  have hnrEq : ∀ e : tslib_dejitter, (jitter_djt e s).1.nr = next_nr e s := by
    intro e
    simp [jitter_djt_eq, inserted]
  have hdelta : ∀ e : tslib_dejitter, (jitter_djt e s).1.delta = e.delta := by
    intro e
    simp [jitter_djt_eq, inserted]
  refine ⟨?_, ?_, ?_, ?_, ?_⟩
  · rw [jitter_djt_eq d s, jitter_djt_eq d' s]
    simp only
    rw [← hnext]
    by_cases h1 : next_nr d s > 1
    · rw [if_pos h1, if_pos h1]
      apply average_congr
      · exact hnext
      · intro i hi
        rw [← hraw d i, ← hraw d' i]
        exact hwin i hi
    · rw [if_neg h1, if_neg h1]
  · rw [hdelta, hdelta]; exact hδ
  · rw [hnrEq, hnrEq]; exact hnext
  · rw [hnrEq]; exact hn8.1
  · intro i hi
    rw [hnrEq] at hi
    exact hwin i hi

/-- A filter state whose history has just been cleared passes the sample through. -/
theorem jitter_djt_cleared (d : tslib_dejitter) (s : FingerState) :
    (jitter_djt { d with nr := 0 } s).2 = s := by
  rw [jitter_djt_eq]
  simp [next_nr, NR_SAMPHISTLEN]

/-- One iteration of the first loop of `jitter_filter` in two runs that agree
on the contacts with the identity `id`. -/
theorem filter_step_same_window (id : Int) (hid : 0 ≤ id ∧ id < 2) (prev prev' : Nat → Int)
    (hprev : prev id.toNat = 0 ↔ prev' id.toNat = 0) (P : Prop)
    (d d' : Nat → tslib_dejitter) (fingers fingers' : Nat → FingerState) (i : Nat)
    (hr : 0 ≤ (fingers i).tracking_id ∧ (fingers i).tracking_id < 2)
    (hr' : 0 ≤ (fingers' i).tracking_id ∧ (fingers' i).tracking_id < 2)
    (hiff : (fingers i).tracking_id = id ↔ (fingers' i).tracking_id = id)
    (heq : (fingers i).tracking_id = id → fingers i = fingers' i)
    (hδ : (d id.toNat).delta = (d' id.toNat).delta)
    (hP : prev id.toNat ≠ 0 → P)
    (hR : P → SameWindow (d id.toNat) (d' id.toNat)) :
    ∃ d1 d1' o o',
      filter_step prev (d, fingers) i = some (d1, Function.update fingers i o) ∧
      filter_step prev' (d', fingers') i = some (d1', Function.update fingers' i o') ∧
      (d1 id.toNat).delta = (d id.toNat).delta ∧
      (d1' id.toNat).delta = (d' id.toNat).delta ∧
      ((fingers i).tracking_id = id →
        o = o' ∧ (prev id.toNat = 0 → o = fingers i) ∧
        SameWindow (d1 id.toNat) (d1' id.toNat)) ∧
      ((fingers i).tracking_id ≠ id →
        d1 id.toNat = d id.toNat ∧ d1' id.toNat = d' id.toNat) := by
  refine ⟨_, _, _, _, filter_step_same prev d fingers i hr,
    filter_step_same prev' d' fingers' i hr', ?_, ?_, ?_, ?_⟩
  · by_cases h : (fingers i).tracking_id.toNat = id.toNat
    · rw [h, Function.update_same, jitter_djt_delta]
      split_ifs <;> rfl
    · rw [Function.update_noteq (Ne.symm h)]
  · by_cases h : (fingers' i).tracking_id.toNat = id.toNat
    · rw [h, Function.update_same, jitter_djt_delta]
      split_ifs <;> rfl
    · rw [Function.update_noteq (Ne.symm h)]
  · intro hi
    have hi' := hiff.mp hi
    have hf := heq hi
    rw [← hf, hi, Function.update_same, Function.update_same]
    have hSW : SameWindow
        (if prev id.toNat = 0 then { d id.toNat with nr := 0 } else d id.toNat)
        (if prev' id.toNat = 0 then { d' id.toNat with nr := 0 } else d' id.toNat) := by
      by_cases hp0 : prev id.toNat = 0
      · rw [if_pos hp0, if_pos (hprev.mp hp0)]
        exact ⟨hδ, rfl, by simp, fun i hi => absurd hi (by simp)⟩
      · rw [if_neg hp0, if_neg (fun h => hp0 (hprev.mpr h))]
        exact hR (hP hp0)
    obtain ⟨e1, e2⟩ := jitter_djt_same_window _ _ (fingers i) hSW
    refine ⟨e1, ?_, e2⟩
    intro hp0
    rw [if_pos hp0]
    exact jitter_djt_cleared _ _
  · intro hi
    have hi' : (fingers' i).tracking_id ≠ id := fun h => hi (hiff.mpr h)
    have h1 : id.toNat ≠ (fingers i).tracking_id.toNat := by omega
    have h2 : id.toNat ≠ (fingers' i).tracking_id.toNat := by omega
    rw [Function.update_noteq h1, Function.update_noteq h2]
    exact ⟨rfl, rfl⟩

/-- The first loop of `jitter_filter` in two runs that agree on the contacts
with the identity `id`. -/
theorem filter_loop_same_window (id : Int) (hid : 0 ≤ id ∧ id < 2) (prev prev' : Nat → Int)
    (hprev : prev id.toNat = 0 ↔ prev' id.toNat = 0) :
    ∀ (l : List Nat) (P : Prop) (d d' : Nat → tslib_dejitter)
      (fingers fingers' : Nat → FingerState),
      l.Nodup →
      (∀ j, j ∈ l →
        (0 ≤ (fingers j).tracking_id ∧ (fingers j).tracking_id < 2) ∧
        (0 ≤ (fingers' j).tracking_id ∧ (fingers' j).tracking_id < 2) ∧
        ((fingers j).tracking_id = id ↔ (fingers' j).tracking_id = id) ∧
        ((fingers j).tracking_id = id → fingers j = fingers' j)) →
      (d id.toNat).delta = (d' id.toNat).delta →
      (prev id.toNat ≠ 0 → P) →
      (P → SameWindow (d id.toNat) (d' id.toNat)) →
      ∃ st st', filter_loop prev l (d, fingers) = some st ∧
        filter_loop prev' l (d', fingers') = some st' ∧
        (st.1 id.toNat).delta = (d id.toNat).delta ∧
        (st'.1 id.toNat).delta = (d' id.toNat).delta ∧
        ((P ∨ ∃ j, j ∈ l ∧ (fingers j).tracking_id = id) →
          SameWindow (st.1 id.toNat) (st'.1 id.toNat)) ∧
        (∀ j, j ∉ l → st.2 j = fingers j ∧ st'.2 j = fingers' j) ∧
        (∀ j, j ∈ l → (fingers j).tracking_id = id →
          st.2 j = st'.2 j ∧ (prev id.toNat = 0 → st.2 j = fingers j)) := by
  intro l
  induction l with
  | nil =>
    intro P d d' fingers fingers' _ _ hδ _ hR
    refine ⟨(d, fingers), (d', fingers'), rfl, rfl, rfl, rfl, ?_, fun _ _ => ⟨rfl, rfl⟩, ?_⟩
    · rintro (hp | ⟨j, hj, _⟩)
      · exact hR hp
      · simp at hj
    · intro j hj
      simp at hj
  | cons i is ih =>
    intro P d d' fingers fingers' hnd hall hδ hP hR
    obtain ⟨hi_notin, hnd'⟩ := List.nodup_cons.mp hnd
    obtain ⟨hr, hr', hiff, heq⟩ := hall i (List.mem_cons_self _ _)
    obtain ⟨d1, d1', o, o', s1, s1', δ1, δ1', hA, hB⟩ :=
      filter_step_same_window id hid prev prev' hprev P d d' fingers fingers' i hr hr' hiff heq
        hδ hP hR
    have hne : ∀ j, j ∈ is → j ≠ i := fun j hj h => hi_notin (h ▸ hj)
    have hall1 : ∀ j, j ∈ is →
        (0 ≤ (Function.update fingers i o j).tracking_id ∧
          (Function.update fingers i o j).tracking_id < 2) ∧
        (0 ≤ (Function.update fingers' i o' j).tracking_id ∧
          (Function.update fingers' i o' j).tracking_id < 2) ∧
        ((Function.update fingers i o j).tracking_id = id ↔
          (Function.update fingers' i o' j).tracking_id = id) ∧
        ((Function.update fingers i o j).tracking_id = id →
          Function.update fingers i o j = Function.update fingers' i o' j) := by
      intro j hj
      rw [Function.update_noteq (hne j hj), Function.update_noteq (hne j hj)]
      exact hall j (List.mem_cons_of_mem _ hj)
    by_cases hi : (fingers i).tracking_id = id
    · obtain ⟨ho, hraw, hW⟩ := hA hi
      obtain ⟨st, st', r1, r2, r3, r4, r5, r6, r7⟩ :=
        ih True d1 d1' (Function.update fingers i o) (Function.update fingers' i o') hnd' hall1
          (by rw [δ1, δ1']; exact hδ) (fun _ => trivial) (fun _ => hW)
      refine ⟨st, st', ?_, ?_, by rw [r3, δ1], by rw [r4, δ1'], fun _ => r5 (Or.inl trivial),
        ?_, ?_⟩
      · simp only [filter_loop, s1, Option.some_bind]; exact r1
      · simp only [filter_loop, s1', Option.some_bind]; exact r2
      · intro j hj
        have hji : j ≠ i := fun h => hj (h ▸ List.mem_cons_self _ _)
        have hjis : j ∉ is := fun h => hj (List.mem_cons_of_mem _ h)
        obtain ⟨a, b⟩ := r6 j hjis
        rw [a, b, Function.update_noteq hji, Function.update_noteq hji]
        exact ⟨rfl, rfl⟩
      · intro j hj hjid
        rcases List.mem_cons.mp hj with rfl | hjis
        · obtain ⟨a, b⟩ := r6 j hi_notin
          rw [a, b, Function.update_same, Function.update_same]
          exact ⟨ho, hraw⟩
        · have hji := hne j hjis
          have := r7 j hjis (by rw [Function.update_noteq hji]; exact hjid)
          rw [Function.update_noteq hji] at this
          exact this
    · obtain ⟨e1, e1'⟩ := hB hi
      obtain ⟨st, st', r1, r2, r3, r4, r5, r6, r7⟩ :=
        ih P d1 d1' (Function.update fingers i o) (Function.update fingers' i o') hnd' hall1
          (by rw [δ1, δ1']; exact hδ) hP (fun hp => by rw [e1, e1']; exact hR hp)
      refine ⟨st, st', ?_, ?_, by rw [r3, δ1], by rw [r4, δ1'], ?_, ?_, ?_⟩
      · simp only [filter_loop, s1, Option.some_bind]; exact r1
      · simp only [filter_loop, s1', Option.some_bind]; exact r2
      · rintro (hp | ⟨j, hj, hjid⟩)
        · exact r5 (Or.inl hp)
        · rcases List.mem_cons.mp hj with rfl | hjis
          · exact absurd hjid hi
          · exact r5 (Or.inr ⟨j, hjis, by rw [Function.update_noteq (hne j hjis)]; exact hjid⟩)
      · intro j hj
        have hji : j ≠ i := fun h => hj (h ▸ List.mem_cons_self _ _)
        have hjis : j ∉ is := fun h => hj (List.mem_cons_of_mem _ h)
        obtain ⟨a, b⟩ := r6 j hjis
        rw [a, b, Function.update_noteq hji, Function.update_noteq hji]
        exact ⟨rfl, rfl⟩
      · intro j hj hjid
        rcases List.mem_cons.mp hj with rfl | hjis
        · exact absurd hjid hi
        · have hji := hne j hjis
          have := r7 j hjis (by rw [Function.update_noteq hji]; exact hjid)
          rw [Function.update_noteq hji] at this
          exact this

/-- One frame given to `jitter_filter` in two runs that agree on the contacts
with the identity `id`. -/
theorem jitter_filter_same_window (id : Int) (hid : 0 ≤ id ∧ id < 2) (g g' : JitterGlobals)
    (f f' : MTState)
    (hprev : current_prev g id.toNat = 0 ↔ current_prev g' id.toNat = 0)
    (hδ : (current_djts g id.toNat).delta = (current_djts g' id.toNat).delta)
    (hR : current_prev g id.toNat ≠ 0 →
      SameWindow (current_djts g id.toNat) (current_djts g' id.toNat))
    (hin : InRange f) (hin' : InRange f') (hs : SameAt id f f') :
    ∃ r r', jitter_filter g f = some r ∧ jitter_filter g' f' = some r' ∧
      (current_prev r.1 id.toNat = 0 ↔ current_prev r'.1 id.toNat = 0) ∧
      (current_djts r.1 id.toNat).delta = (current_djts g id.toNat).delta ∧
      (current_djts r'.1 id.toNat).delta = (current_djts g' id.toNat).delta ∧
      (current_prev r.1 id.toNat ≠ 0 →
        SameWindow (current_djts r.1 id.toNat) (current_djts r'.1 id.toNat)) ∧
      (current_prev r.1 id.toNat = 0 ↔
        ∀ j, j < f.nfinger → (f.finger j).tracking_id ≠ id) ∧
      r.2.1.nfinger = f.nfinger ∧ r'.2.1.nfinger = f'.nfinger ∧
      (∀ j, (r.2.1.finger j).tracking_id = (f.finger j).tracking_id) ∧
      (∀ j, j < f.nfinger → (f.finger j).tracking_id = id →
        r.2.1.finger j = r'.2.1.finger j ∧
        (current_prev g id.toNat = 0 → r.2.1.finger j = f.finger j)) := by
  obtain ⟨hn, hsame⟩ := hs
  simp only [InRange, MAX_FINGERS] at hin hin'
  have hall : ∀ j, j ∈ List.range f.nfinger →
      (0 ≤ (f.finger j).tracking_id ∧ (f.finger j).tracking_id < 2) ∧
      (0 ≤ (f'.finger j).tracking_id ∧ (f'.finger j).tracking_id < 2) ∧
      ((f.finger j).tracking_id = id ↔ (f'.finger j).tracking_id = id) ∧
      ((f.finger j).tracking_id = id → f.finger j = f'.finger j) := by
    intro j hj
    have hj' := List.mem_range.mp hj
    exact ⟨by exact_mod_cast hin j hj', by exact_mod_cast hin' j (by omega), hsame j hj'⟩
  obtain ⟨st, st', l1, l2, l3, l4, l5, _, l7⟩ :=
    filter_loop_same_window id hid (current_prev g) (current_prev g') hprev
      (List.range f.nfinger) (current_prev g id.toNat ≠ 0) (current_djts g) (current_djts g')
      f.finger f'.finger (List.nodup_range _) hall hδ (fun h => h) hR
  obtain ⟨t, t1, t2, _⟩ := filter_loop_total (current_prev g) (List.range f.nfinger)
    (current_djts g, f.finger)
  obtain ⟨t', t1', t2', _⟩ := filter_loop_total (current_prev g') (List.range f.nfinger)
    (current_djts g', f'.finger)
  have et : t = st := Option.some.inj (t1.symm.trans l1)
  have et' : t' = st' := Option.some.inj (t1'.symm.trans l2)
  subst et
  subst et'
  simp only at t2 t2'
  obtain ⟨p, m1, m2⟩ := mark_loop_spec t.2 (List.range f.nfinger) (fun _ => 0)
    (fun j hj => by rw [t2 j]; exact (hall j hj).1)
  obtain ⟨p', m1', m2'⟩ := mark_loop_spec t'.2 (List.range f.nfinger) (fun _ => 0)
    (fun j hj => by rw [t2' j]; exact (hall j hj).2.1)
  have hpres : (∃ j, j ∈ List.range f.nfinger ∧ (t.2 j).tracking_id.toNat = id.toNat) ↔
      ∃ j, j < f.nfinger ∧ (f.finger j).tracking_id = id := by
    constructor
    · rintro ⟨j, hj, h⟩
      have := (hall j hj).1
      rw [t2 j] at h
      exact ⟨j, List.mem_range.mp hj, by omega⟩
    · rintro ⟨j, hj, h⟩
      exact ⟨j, List.mem_range.mpr hj, by rw [t2 j, h]⟩
  have hpres' : (∃ j, j ∈ List.range f.nfinger ∧ (t'.2 j).tracking_id.toNat = id.toNat) ↔
      ∃ j, j < f.nfinger ∧ (f.finger j).tracking_id = id := by
    constructor
    · rintro ⟨j, hj, h⟩
      have := (hall j hj).2.1
      rw [t2' j] at h
      exact ⟨j, List.mem_range.mp hj, (hall j hj).2.2.1.mpr (by omega)⟩
    · rintro ⟨j, hj, h⟩
      exact ⟨j, List.mem_range.mpr hj, by
        rw [t2' j, (hsame j hj).1.mp h]⟩
  have hp0 : p id.toNat = 0 ↔ ∀ j, j < f.nfinger → (f.finger j).tracking_id ≠ id := by
    by_cases hex : ∃ j, j < f.nfinger ∧ (f.finger j).tracking_id = id
    · have : p id.toNat = 1 := (m2 id.toNat).1 (hpres.mpr hex)
      rw [this]
      obtain ⟨j, hj, h⟩ := hex
      exact ⟨fun h1 => absurd h1 (by decide), fun h1 => absurd h (h1 j hj)⟩
    · have : p id.toNat = 0 := (m2 id.toNat).2 (fun h => hex (hpres.mp h))
      rw [this]
      exact ⟨fun _ j hj h => hex ⟨j, hj, h⟩, fun _ => rfl⟩
  have hp0' : p' id.toNat = 0 ↔ ∀ j, j < f.nfinger → (f.finger j).tracking_id ≠ id := by
    by_cases hex : ∃ j, j < f.nfinger ∧ (f.finger j).tracking_id = id
    · have : p' id.toNat = 1 := (m2' id.toNat).1 (hpres'.mpr hex)
      rw [this]
      obtain ⟨j, hj, h⟩ := hex
      exact ⟨fun h1 => absurd h1 (by decide), fun h1 => absurd h (h1 j hj)⟩
    · have : p' id.toNat = 0 := (m2' id.toNat).2 (fun h => hex (hpres'.mp h))
      rw [this]
      exact ⟨fun _ j hj h => hex ⟨j, hj, h⟩, fun _ => rfl⟩
  refine ⟨(⟨some t.1, p⟩, { f with finger := t.2 }, 1),
    (⟨some t'.1, p'⟩, { f' with finger := t'.2 }, 1), ?_, ?_, ?_, l3, l4, ?_, hp0, rfl, rfl,
    t2, ?_⟩
  · unfold jitter_filter
    rw [l1, Option.some_bind, m1]
    rfl
  · unfold jitter_filter
    rw [← hn, l2, Option.some_bind, m1']
    rfl
  · show p id.toNat = 0 ↔ p' id.toNat = 0
    rw [hp0, hp0']
  · intro hne
    have hne' : ¬ p id.toNat = 0 := hne
    rw [hp0] at hne'
    push_neg at hne'
    obtain ⟨j, hj, h⟩ := hne'
    exact l5 (Or.inr ⟨j, List.mem_range.mpr hj, h⟩)
  · intro j hj h
    exact l7 j (List.mem_range.mpr hj) h

/-- One frame with in-range identities: `jitter_filter` returns, keeps the
thresholds, and records the identity `id` as absent exactly when no contact
of the frame has it. -/
theorem jitter_filter_absent (id : Int) (hid : 0 ≤ id ∧ id < 2) (g : JitterGlobals)
    (f : MTState) (hin : InRange f) :
    ∃ r, jitter_filter g f = some r ∧
      (∀ k, (current_djts r.1 k).delta = (current_djts g k).delta) ∧
      (current_prev r.1 id.toNat = 0 ↔ ∀ j, j < f.nfinger → (f.finger j).tracking_id ≠ id) := by
  simp only [InRange, MAX_FINGERS] at hin
  have hr : ∀ j, j ∈ List.range f.nfinger →
      0 ≤ (f.finger j).tracking_id ∧ (f.finger j).tracking_id < 2 := by
    intro j hj
    exact_mod_cast hin j (List.mem_range.mp hj)
  obtain ⟨t, t1, t2, t3⟩ := filter_loop_total (current_prev g) (List.range f.nfinger)
    (current_djts g, f.finger)
  simp only at t2 t3
  obtain ⟨p, m1, m2⟩ := mark_loop_spec t.2 (List.range f.nfinger) (fun _ => 0)
    (fun j hj => by rw [t2 j]; exact hr j hj)
  refine ⟨(⟨some t.1, p⟩, { f with finger := t.2 }, 1), ?_, t3, ?_⟩
  · unfold jitter_filter
    rw [t1, Option.some_bind, m1]
    rfl
  · show p id.toNat = 0 ↔ _
    by_cases hex : ∃ j, j ∈ List.range f.nfinger ∧ (t.2 j).tracking_id.toNat = id.toNat
    · rw [(m2 id.toNat).1 hex]
      obtain ⟨j, hj, h⟩ := hex
      have := hr j hj
      rw [t2 j] at h
      exact ⟨fun h1 => absurd h1 (by decide),
        fun h1 => absurd (by omega : (f.finger j).tracking_id = id) (h1 j (List.mem_range.mp hj))⟩
    · rw [(m2 id.toNat).2 hex]
      refine ⟨fun _ j hj h => hex ⟨j, List.mem_range.mpr hj, by rw [t2 j, h]⟩, fun _ => rfl⟩

theorem jitter_run_cons (g : JitterGlobals) (f : MTState) (fs : List MTState)
    (r : JitterGlobals × MTState × Int) (q : JitterGlobals × List MTState)
    (h1 : jitter_filter g f = some r) (h2 : jitter_run r.1 fs = some q) :
    jitter_run g (f :: fs) = some (q.1, r.2.1 :: q.2) := by
  simp only [jitter_run, h1, Option.some_bind, h2, Option.map_some']

/-- A run over two sequences of frames, one after the other. -/
theorem jitter_run_append (pre fs : List MTState) :
    ∀ (g : JitterGlobals) (a b : JitterGlobals × List MTState),
      jitter_run g pre = some a → jitter_run a.1 fs = some b →
      jitter_run g (pre ++ fs) = some (b.1, a.2 ++ b.2) := by
  induction pre with
  | nil =>
    intro g a b ha hb
    simp only [jitter_run, Option.some.injEq] at ha
    subst ha
    simpa using hb
  | cons f pre ih =>
    intro g a b ha hb
    simp only [jitter_run] at ha
    cases hf : jitter_filter g f with
    | none => rw [hf] at ha; simp at ha
    | some r =>
      rw [hf, Option.some_bind] at ha
      cases hq : jitter_run r.1 pre with
      | none => rw [hq] at ha; simp at ha
      | some q =>
        rw [hq, Option.map_some', Option.some.injEq] at ha
        subst ha
        have := ih r.1 q b hq hb
        rw [List.cons_append, jitter_run_cons g f (pre ++ fs) r _ hf this]
        rfl

/-- A run over frames with in-range identities returns; it keeps the
thresholds, and at its end the identity `id` is recorded as absent exactly
when no contact of the last frame has it. -/
theorem jitter_run_history (id : Int) (hid : 0 ≤ id ∧ id < 2) :
    ∀ (pre : List MTState) (g : JitterGlobals), (∀ f, f ∈ pre → InRange f) →
      ∃ a, jitter_run g pre = some a ∧ a.2.length = pre.length ∧
        (∀ k, (current_djts a.1 k).delta = (current_djts g k).delta) ∧
        (pre = [] → a.1 = g) ∧
        (∀ f, pre.getLast? = some f →
          (current_prev a.1 id.toNat = 0 ↔
            ∀ j, j < f.nfinger → (f.finger j).tracking_id ≠ id)) := by
  intro pre
  induction pre with
  | nil =>
    intro g _
    exact ⟨(g, []), rfl, rfl, fun _ => rfl, fun _ => rfl, fun f h => by simp at h⟩
  | cons f pre ih =>
    intro g hin
    obtain ⟨r, r1, r2, r3⟩ := jitter_filter_absent id hid g f (hin f (List.mem_cons_self _ _))
    obtain ⟨a, a1, a2, a3, a4, a5⟩ := ih r.1 (fun x hx => hin x (List.mem_cons_of_mem _ hx))
    refine ⟨(a.1, r.2.1 :: a.2), jitter_run_cons g f pre r a r1 a1, by simp [a2],
      fun k => by rw [a3 k, r2 k], fun h => by simp at h, ?_⟩
    intro x hx
    cases pre with
    | nil =>
      simp only [List.getLast?_singleton, Option.some.injEq] at hx
      subst hx
      rw [a4 rfl]
      exact r3
    | cons y ys =>
      rw [List.getLast?_cons_cons] at hx
      exact a5 x hx

/-- Two runs that agree on the contacts with the identity `id`, from states
with the same window for it: the same filtered samples for `id`. -/
theorem jitter_run_same_window (id : Int) (hid : 0 ≤ id ∧ id < 2) :
    ∀ (fs fs' : List MTState), List.Forall₂ (SameAt id) fs fs' →
      ∀ (g g' : JitterGlobals),
        (current_prev g id.toNat = 0 ↔ current_prev g' id.toNat = 0) →
        (current_djts g id.toNat).delta = (current_djts g' id.toNat).delta →
        (current_prev g id.toNat ≠ 0 →
          SameWindow (current_djts g id.toNat) (current_djts g' id.toNat)) →
        (∀ f, f ∈ fs → InRange f) → (∀ f, f ∈ fs' → InRange f) →
        ∃ r r', jitter_run g fs = some r ∧ jitter_run g' fs' = some r' ∧
          List.Forall₂ (fun f o => o.nfinger = f.nfinger ∧
            ∀ j, (o.finger j).tracking_id = (f.finger j).tracking_id) fs r.2 ∧
          (current_prev g id.toNat = 0 → ∀ f rest, fs = f :: rest →
            ∃ o orest, r.2 = o :: orest ∧
              ∀ j, j < f.nfinger → (f.finger j).tracking_id = id → o.finger j = f.finger j) ∧
          List.Forall₂ (fun o o' => ∀ j, j < o.nfinger → (o.finger j).tracking_id = id →
            o.finger j = o'.finger j) r.2 r'.2 := by
  intro fs fs' hrel
  induction hrel with
  | nil =>
    intro g g' _ _ _ _ _
    exact ⟨(g, []), (g', []), rfl, rfl, List.Forall₂.nil, fun _ f rest h => by simp at h,
      List.Forall₂.nil⟩
  | @cons f f' fs fs' hs _ ih =>
    intro g g' hprev hδ hR hin hin'
    obtain ⟨r, r', e, e', k1, k2, k3, k4, k5, k6, k7, k8, k9⟩ :=
      jitter_filter_same_window id hid g g' f f' hprev hδ hR (hin f (List.mem_cons_self _ _))
        (hin' f' (List.mem_cons_self _ _)) hs
    obtain ⟨q, q', u, u', v1, _, v3⟩ := ih r.1 r'.1 k1 (by rw [k2, k3]; exact hδ) k4
      (fun x hx => hin x (List.mem_cons_of_mem _ hx))
      (fun x hx => hin' x (List.mem_cons_of_mem _ hx))
    refine ⟨(q.1, r.2.1 :: q.2), (q'.1, r'.2.1 :: q'.2), jitter_run_cons g f fs r q e u,
      jitter_run_cons g' f' fs' r' q' e' u', List.Forall₂.cons ⟨k6, k8⟩ v1, ?_,
      List.Forall₂.cons ?_ v3⟩
    · intro hp0 x rest hx
      simp only [List.cons.injEq] at hx
      obtain ⟨rfl, _⟩ := hx
      exact ⟨r.2.1, q.2, rfl, fun j hj h => (k9 j hj h).2 hp0⟩
    · intro j hj h
      rw [k6] at hj
      rw [k8 j] at h
      exact (k9 j hj h).1

/-- C16: for every two sequences of frames with in-range identities given to
`jitter_filter` from the program's initial state, `pre ++ fs` and
`pre' ++ fs'`, and every in-range identity `id` that is absent from the last
frame of `pre` and of `pre'` (or the sequence before is empty, `fs` starting
with the first frame): if `fs` and `fs'` carry the same contacts with the
identity `id` in the same slots, then both runs return, every filtered frame
keeps the slots and identities of its frame, the filtered samples of `id` in the first
frame of `fs` equal the raw samples exactly, and the filtered samples of `id`
in all the frames of `fs` are the same in the two runs: they depend neither on
the frames before `fs` nor on the contacts with another identity. -/
theorem jitter_filter_fresh_identity (id : Int) (pre pre' fs fs' : List MTState)
    (hid : 0 ≤ id ∧ id < 2)
    (hin : ∀ f, f ∈ pre ++ fs → InRange f) (hin' : ∀ f, f ∈ pre' ++ fs' → InRange f)
    (habs : ∀ f, pre.getLast? = some f →
      ∀ j, j < f.nfinger → (f.finger j).tracking_id ≠ id)
    (habs' : ∀ f, pre'.getLast? = some f →
      ∀ j, j < f.nfinger → (f.finger j).tracking_id ≠ id)
    (hrel : List.Forall₂ (SameAt id) fs fs') :
    ∃ gf gf' opre opre' out out',
      jitter_run JitterGlobals.initial (pre ++ fs) = some (gf, opre ++ out) ∧
      opre.length = pre.length ∧
      jitter_run JitterGlobals.initial (pre' ++ fs') = some (gf', opre' ++ out') ∧
      opre'.length = pre'.length ∧
      List.Forall₂ (fun f o => o.nfinger = f.nfinger ∧
        ∀ j, (o.finger j).tracking_id = (f.finger j).tracking_id) fs out ∧
      (∀ f rest, fs = f :: rest →
        ∃ o orest, out = o :: orest ∧
          ∀ j, j < f.nfinger → (f.finger j).tracking_id = id → o.finger j = f.finger j) ∧
      List.Forall₂ (fun o o' => ∀ j, j < o.nfinger → (o.finger j).tracking_id = id →
        o.finger j = o'.finger j) out out' := by
  obtain ⟨a, a1, a2, a3, a4, a5⟩ := jitter_run_history id hid pre JitterGlobals.initial
    (fun f hf => hin f (List.mem_append_left _ hf))
  obtain ⟨a', a1', a2', a3', a4', a5'⟩ := jitter_run_history id hid pre' JitterGlobals.initial
    (fun f hf => hin' f (List.mem_append_left _ hf))
  have hp : current_prev a.1 id.toNat = 0 := by
    cases hl : pre.getLast? with
    | none => rw [a4 (List.getLast?_eq_none_iff.mp hl)]; rfl
    | some f => exact (a5 f hl).mpr (habs f hl)
  have hp' : current_prev a'.1 id.toNat = 0 := by
    cases hl : pre'.getLast? with
    | none => rw [a4' (List.getLast?_eq_none_iff.mp hl)]; rfl
    | some f => exact (a5' f hl).mpr (habs' f hl)
  obtain ⟨r, r', e, e', v1, v2, v3⟩ := jitter_run_same_window id hid fs fs' hrel a.1 a'.1
    (by rw [hp, hp']) (by rw [a3, a3']) (fun h => absurd hp h)
    (fun f hf => hin f (List.mem_append_right _ hf))
    (fun f hf => hin' f (List.mem_append_right _ hf))
  exact ⟨r.1, r'.1, a.2, a'.2, r.2, r'.2, jitter_run_append pre fs _ a r a1 e, a2,
    jitter_run_append pre' fs' _ a' r' a1' e', a2', v1, v2 hp, v3⟩

/-- Witness of `jitter_filter_fresh_identity`: the identity 0 comes back after a frame without it, in one
run, and is there from the first frame, in the other: in both the first
filtered sample is the raw `(10, 20, 30)`. -/
theorem jitter_filter_fresh_identity_witness :
    ∃ gf gf' opre out out',
      jitter_run JitterGlobals.initial (history_a ++ fresh_frames) = some (gf, opre ++ out) ∧
      opre.length = 2 ∧
      jitter_run JitterGlobals.initial fresh_frames = some (gf', out') ∧
      (∃ o orest, out = o :: orest ∧ o.finger 0 = ⟨0, 10, 20, 30⟩) ∧
      List.Forall₂ (fun o o' => ∀ j, j < o.nfinger → (o.finger j).tracking_id = 0 →
        o.finger j = o'.finger j) out out' := by
  obtain ⟨gf, gf', opre, opre', out, out', h1, h2, h3, h4, _, h6, h7⟩ :=
    jitter_filter_fresh_identity 0 history_a [] fresh_frames fresh_frames (by decide)
      (by decide) (by decide)
      (fun f hf j hj => by
        have hf' : f = single_frame ⟨1, 100, 100, 30⟩ := by
          simp only [history_a, List.getLast?_cons_cons, List.getLast?_singleton,
            Option.some.injEq] at hf
          exact hf.symm
        subst hf'
        exact (by decide : (1 : Int) ≠ 0))
      (fun f hf => by simp at hf)
      (List.Forall₂.cons (by decide) (List.Forall₂.cons (by decide) List.Forall₂.nil))
  have hnil : opre' = [] := List.length_eq_zero.mp h4
  subst hnil
  obtain ⟨o, orest, e1, e2⟩ := h6 _ _ rfl
  exact ⟨gf, gf', opre, out, out', h1, h2, h3, ⟨o, orest, e1, e2 0 (by decide) rfl⟩, h7⟩

/-! ## Theorems: rounding to `float` -/

theorem round32_zero : round32 0 = 0 := by
  simp [round32]

/-- A value `m * 2 ^ k` with `|m| < 2 ^ 24` and `k >= -149` is a `float`:
rounding leaves it as it is. -/
theorem round32_dyadic (m k : Int) (hm : |m| < 16777216) (hk : -149 ≤ k) :
    round32 ((m : ℚ) * 2 ^ k) = (m : ℚ) * 2 ^ k := by
  have h2 : (2 : ℚ) ≠ 0 := by norm_num
  by_cases h0 : m = 0
  · subst h0
    simp [round32_zero]
  have hlog : Int.log 2 |(m : ℚ) * 2 ^ k| - 23 ≤ k := by
    have hpos : (0 : ℚ) < |(m : ℚ) * 2 ^ k| := by
      apply abs_pos.mpr
      exact mul_ne_zero (by exact_mod_cast h0) (zpow_ne_zero _ h2)
    have hlt : |(m : ℚ) * 2 ^ k| < (2 : ℚ) ^ (24 + k) := by
      rw [abs_mul, abs_of_pos (zpow_pos (by norm_num : (0 : ℚ) < 2) k), zpow_add₀ h2]
      apply mul_lt_mul_of_pos_right _ (zpow_pos (by norm_num) k)
      have : ((|m| : Int) : ℚ) < 16777216 := by exact_mod_cast hm
      rw [Int.cast_abs] at this
      norm_num
      exact this
    have := (Int.lt_zpow_iff_log_lt (by norm_num : 1 < 2) hpos).mp (by exact_mod_cast hlt)
    omega
  have he : 0 ≤ k - (max (Int.log 2 |(m : ℚ) * 2 ^ k|) (-126) - 23) := by omega
  unfold round32
  simp only
  generalize max (Int.log 2 |(m : ℚ) * 2 ^ k|) (-126) = e at he ⊢
  obtain ⟨t, ht⟩ := Int.eq_ofNat_of_zero_le he
  have hk' : k = (e - 23) + (t : Int) := by omega
  have hn : (m : ℚ) * 2 ^ k / 2 ^ (e - 23) = ((m * 2 ^ t : Int) : ℚ) := by
    rw [hk', zpow_add₀ h2, zpow_natCast]
    field_simp
    ring
  rw [hn, Int.floor_intCast]
  simp only [sub_self]
  rw [if_pos (by norm_num)]
  rw [hk', zpow_add₀ h2, zpow_natCast]
  push_cast
  ring

/-- An `int` of magnitude at most `2 ^ 24` is a `float`. -/
theorem round32_int (z : Int) (hz : |z| ≤ 16777216) : round32 (z : ℚ) = z := by
  by_cases h : |z| < 16777216
  · have := round32_dyadic z 0 h (by norm_num)
    simpa using this
  · have h2 : |z| = 16777216 := by omega
    rcases abs_eq (by norm_num : (0 : Int) ≤ 16777216) |>.mp h2 with rfl | rfl
    · have := round32_dyadic 8388608 1 (by norm_num) (by norm_num)
      norm_num at this ⊢
      exact this
    · have := round32_dyadic (-8388608) 1 (by norm_num) (by norm_num)
      norm_num at this ⊢
      exact this

/-- Half an `int` of magnitude below `2 ^ 24` is a `float`. -/
theorem round32_half (z : Int) (hz : |z| < 16777216) : round32 ((z : ℚ) / 2) = (z : ℚ) / 2 := by
  have := round32_dyadic z (-1) hz (by norm_num)
  have e : (z : ℚ) * 2 ^ (-1 : Int) = (z : ℚ) / 2 := by
    rw [zpow_neg_one]; ring
  rw [e] at this
  exact this

/-- The `int` 16777217, which is `2 ^ 24 + 1`, is not a `float`: it lies halfway
between 16777216 and 16777218 and is rounded to the even one. -/
theorem round32_odd : round32 16777217 = 16777216 := by
  have hlog : Int.log 2 |(16777217 : ℚ)| = 24 := by
    rw [abs_of_pos (by norm_num)]
    have : ((16777217 : Nat) : ℚ) = 16777217 := by norm_num
    rw [← this, Int.log_natCast]
    have : Nat.log 2 16777217 = 24 :=
      Nat.log_eq_of_pow_le_of_lt_pow (by norm_num) (by norm_num)
    rw [this]
    rfl
  have hfl : ⌊(16777217 : ℚ) / 2⌋ = 8388608 := by
    rw [Int.floor_eq_iff]
    norm_num
  unfold round32
  simp only [hlog]
  norm_num [hfl]

/-! ## Theorems: one moving contact in `float` arithmetic -/

/-- The translation `extract_movement` computes for one moving contact `i`. -/
theorem single_move_values {F : Type} (ops : FloatOps F) (mt : MTouch) (i : Nat) (hi : i < 32)
    (hmov : mt.mem.moving = BITMASK i) :
    move_x ops mt = ops.div (ops.add (ops.ofInt 0) (ops.ofInt (mt.mem.dx i))) (ops.ofInt 1) ∧
    move_y ops mt = ops.div (ops.add (ops.ofInt 0) (ops.ofInt (mt.mem.dy i))) (ops.ofInt 1) ∧
    (movement_vars ops mt).dx = Function.update mt.mem.dx i 0 ∧
    (movement_vars ops mt).dy = Function.update mt.mem.dy i 0 := by
  have hn : bitcount mt.mem.moving = 1 := by rw [hmov]; exact bitcount_BITMASK_of_lt i hi
  have hl : foreach_bit mt.mem.moving = [i] := by rw [hmov]; exact foreach_bit_BITMASK_of_lt i hi
  refine ⟨?_, ?_, ?_, ?_⟩
  · simp only [move_x, movement_vars, hl, hn, List.foldl, movement_step, Nat.cast_one]
  · simp only [move_y, movement_vars, hl, hn, List.foldl, movement_step, Nat.cast_one]
  · simp only [movement_vars, hl, List.foldl, movement_step]
  · simp only [movement_vars, hl, List.foldl, movement_step]

/-- The result of `extract_movement` with exactly one moving contact `i`, not
thumb-flagged, whose translation converts to the `int`s `X` and `Y`. -/
theorem extract_movement_single {F : Type} (c : Consts) (ops : FloatOps F) (gs : Gestures)
    (mt : MTouch) (i : Nat) (X Y : Int) (hi : i < 32) (hmov : mt.mem.moving = BITMASK i)
    (hpt : bitcount mt.mem.pointing = 1) (hth : GETBIT mt.mem.thumb i = 0)
    (hx : ops.toInt (move_x ops mt) = X) (hy : ops.toInt (move_y ops mt) = Y) :
    extract_movement c ops gs mt =
      (if X ≠ 0 ∨ Y ≠ 0 then
          { gs with dx := X, dy := Y, type := SETBIT gs.type c.GS_MOVE }
        else { gs with dx := X, dy := Y },
       { mt with mem := { mt.mem with dx := Function.update mt.mem.dx i 0
                                      dy := Function.update mt.mem.dy i 0 } }) := by
  have hn : bitcount mt.mem.moving = 1 := by rw [hmov]; exact bitcount_BITMASK_of_lt i hi
  have hth' : mt.mem.moving &&& mt.mem.thumb = 0 := by
    rw [hmov]; exact (BITMASK_and_eq_zero _ i hi).mpr hth
  obtain ⟨_, _, hdx, hdy⟩ := single_move_values ops mt i hi hmov
  unfold extract_movement
  simp only [hn, hpt, hth', hdx, hdy, hx, hy]
  simp

/-- The record and the memory `extract_gestures` produces with exactly one
moving contact `i`, not thumb-flagged, whose translation converts to the
`int`s `X` and `Y`. -/
theorem extract_gestures_single {F : Type} (c : Consts) (ops : FloatOps F) (mt : MTouch)
    (i : Nat) (X Y : Int) (hc : c.WF) (hi : i < 32) (hmov : mt.mem.moving = BITMASK i)
    (hpt : bitcount mt.mem.pointing = 1) (hth : GETBIT mt.mem.thumb i = 0)
    (hx : ops.toInt (move_x ops mt) = X) (hy : ops.toInt (move_y ops mt) = Y) :
    (extract_gestures c ops mt).1.dx = X ∧
    (extract_gestures c ops mt).1.dy = Y ∧
    (GETBIT (extract_gestures c ops mt).1.type c.GS_MOVE = 1 ↔ (X ≠ 0 ∨ Y ≠ 0)) ∧
    (∀ b, b ∈ c.motionBits → b ≠ c.GS_MOVE →
      GETBIT (extract_gestures c ops mt).1.type b = 0) ∧
    (extract_gestures c ops mt).2.mem.dx i = 0 ∧
    (extract_gestures c ops mt).2.mem.dy i = 0 := by
  simp only [extract_gestures]
  generalize hgs : ({ Gestures.zero with
    posx := (mt.state.finger 0).position_x
    posy := (mt.state.finger 0).position_y
    same_fingers := mt.mem.same } : Gestures) = gs0
  have h0 : gs0.type = 0 := by rw [← hgs]; rfl
  obtain ⟨b1, _, b3, b4, b5, b6, b7⟩ := extract_buttons_mt c gs0 mt
  have ht := type_after_buttons c mt gs0 h0
  have hMOVE : c.GS_MOVE ∈ c.motionBits := by simp [Consts.motionBits]
  have hM32 := (WF_motion c hc _ hMOVE).1
  have hv := movement_vars_congr ops mt (extract_buttons c gs0 mt).2 b1 b4 b6 b7
  have hx' : ops.toInt (move_x ops (extract_buttons c gs0 mt).2) = X := by
    rw [← hx]; unfold move_x; rw [hv, b4]
  have hy' : ops.toInt (move_y ops (extract_buttons c gs0 mt).2) = Y := by
    rw [← hy]; unfold move_y; rw [hv, b4]
  rw [extract_movement_single c ops _ _ i X Y hi (by rw [b4]; exact hmov) (by rw [b3]; exact hpt)
    (by rw [b5]; exact hth) hx' hy']
  by_cases hd : X ≠ 0 ∨ Y ≠ 0
  · rw [if_pos hd]
    refine ⟨rfl, rfl, ?_, ?_, by simp, by simp⟩
    · simp only [GETBIT_SETBIT _ _ _ hM32, if_true, hd]
    · intro b hb hne
      simp only [GETBIT_SETBIT _ _ _ hM32, if_neg (Ne.symm hne)]
      exact GETBIT_after_buttons c hc _ b hb ht
  · rw [if_neg hd]
    refine ⟨rfl, rfl, ?_, ?_, by simp, by simp⟩
    · simp only [GETBIT_after_buttons c hc _ _ hMOVE ht, hd]
      decide
    · intro b hb _
      exact GETBIT_after_buttons c hc _ b hb ht

theorem round32_one : round32 1 = 1 := by
  have := round32_int 1 (by norm_num)
  simpa using this

theorem foreach_bit_checked_BITMASK (i : Nat) (hi : i < 31) :
    foreach_bit_checked (BITMASK i) = some [i] := by
  rw [foreach_bit_checked_eq, foreach_bit_BITMASK_of_lt i (by omega), BITMASK_eq i (by omega),
    Nat.testBit_two_pow, if_neg]
  simp
  omega

/-- C5 (amended): with exactly one moving contact in a slot `i` from 0 to 30 and
exactly one pointing contact, contact `i` not thumb-flagged and its accumulated
delta within the `int`s a `float` holds exactly (`|mem.dx[i]|` and
`|mem.dy[i]|` at most `2 ^ 24`), the loop over the moving contacts returns and
`extract_gestures` reports `gs.dx = mem.dx[i]` and `gs.dy = mem.dy[i]` (the
accumulated delta before the call), sets the MOVE bit if and only if that
delta is not `(0, 0)`, sets no other motion bit (scroll, swipe, scale,
rotate), and resets `mem.dx[i]` and `mem.dy[i]` to 0.  The arithmetic is that
of `float`, every result rounded, with any square root function. -/
theorem extract_gestures_single_move (c : Consts) (sqrt : ℚ → ℚ) (mt : MTouch) (i : Nat)
    (hc : c.WF) (hi : i < 31) (hmov : mt.mem.moving = BITMASK i)
    (hpt : bitcount mt.mem.pointing = 1) (hth : GETBIT mt.mem.thumb i = 0)
    (hdx : |mt.mem.dx i| ≤ 16777216) (hdy : |mt.mem.dy i| ≤ 16777216) :
    foreach_bit_checked mt.mem.moving = some [i] ∧
    (extract_gestures c (f32Ops sqrt) mt).1.dx = mt.mem.dx i ∧
    (extract_gestures c (f32Ops sqrt) mt).1.dy = mt.mem.dy i ∧
    (GETBIT (extract_gestures c (f32Ops sqrt) mt).1.type c.GS_MOVE = 1 ↔
      (mt.mem.dx i ≠ 0 ∨ mt.mem.dy i ≠ 0)) ∧
    (∀ b, b ∈ c.motionBits → b ≠ c.GS_MOVE →
      GETBIT (extract_gestures c (f32Ops sqrt) mt).1.type b = 0) ∧
    (extract_gestures c (f32Ops sqrt) mt).2.mem.dx i = 0 ∧
    (extract_gestures c (f32Ops sqrt) mt).2.mem.dy i = 0 := by
  obtain ⟨vx, vy, _, _⟩ := single_move_values (f32Ops sqrt) mt i (by omega) hmov
  have hx : (f32Ops sqrt).toInt (move_x (f32Ops sqrt) mt) = mt.mem.dx i := by
    rw [vx]
    simp only [f32Ops, Int.cast_zero, Int.cast_one, round32_zero, round32_one, zero_add,
      round32_int _ hdx, div_one]
    exact ratToInt_intCast _
  have hy : (f32Ops sqrt).toInt (move_y (f32Ops sqrt) mt) = mt.mem.dy i := by
    rw [vy]
    simp only [f32Ops, Int.cast_zero, Int.cast_one, round32_zero, round32_one, zero_add,
      round32_int _ hdy, div_one]
    exact ratToInt_intCast _
  refine ⟨by rw [hmov]; exact foreach_bit_checked_BITMASK i hi, ?_⟩
  exact extract_gestures_single c (f32Ops sqrt) mt i _ _ hc (by omega) hmov hpt hth hx hy

/-- Witness of `extract_gestures_single_move`: the accumulated delta `(5, 0)`
gives MOVE with the delta `(5, 0)`. -/
theorem extract_gestures_single_move_witness :
    (extract_gestures Consts.sample (f32Ops sample_sqrt) one_finger_move).1.dx = 5 ∧
    (extract_gestures Consts.sample (f32Ops sample_sqrt) one_finger_move).1.dy = 0 ∧
    GETBIT (extract_gestures Consts.sample (f32Ops sample_sqrt) one_finger_move).1.type
      Consts.sample.GS_MOVE = 1 := by
  obtain ⟨_, h1, h2, h3, _⟩ :=
    extract_gestures_single_move Consts.sample sample_sqrt one_finger_move 0 (by decide)
      (by decide) (by decide) (by decide) (by decide) (by decide) (by decide)
  exact ⟨h1, h2, h3.mpr (Or.inl (by decide))⟩

/-- C5 (counterexample): one moving, pointing contact, not thumb-flagged, with
the accumulated delta `(16777217, 0)`: the delta passes through a `float`,
which does not hold `2 ^ 24 + 1`, and `extract_gestures` reports
`gs.dx = 16777216`.  With the one moving contact in slot 31 the loop over the
moving contacts does not return. -/
theorem single_move_delta_rounded :
    one_finger_large_move.mem.moving = BITMASK 0 ∧
    bitcount one_finger_large_move.mem.pointing = 1 ∧
    GETBIT one_finger_large_move.mem.thumb 0 = 0 ∧
    one_finger_large_move.mem.dx 0 = 16777217 ∧
    (extract_gestures Consts.sample (f32Ops sample_sqrt) one_finger_large_move).1.dx =
      16777216 ∧
    foreach_bit_checked (BITMASK 31) = none := by
  obtain ⟨vx, vy, _, _⟩ :=
    single_move_values (f32Ops sample_sqrt) one_finger_large_move 0 (by decide) (by decide)
  have d0 : one_finger_large_move.mem.dx 0 = 16777217 := rfl
  have hx : (f32Ops sample_sqrt).toInt (move_x (f32Ops sample_sqrt) one_finger_large_move) =
      16777216 := by
    rw [vx, d0]
    simp only [f32Ops, Int.cast_zero, Int.cast_one, round32_zero, round32_one, zero_add,
      Int.cast_ofNat, round32_odd, div_one]
    have e := round32_int 16777216 (by norm_num)
    norm_num at e
    rw [e, e]
    have := ratToInt_intCast 16777216
    simpa using this
  have h := extract_gestures_single Consts.sample (f32Ops sample_sqrt) one_finger_large_move 0
    16777216 _ (by decide) (by decide) (by decide) (by decide) (by decide) hx rfl
  exact ⟨by decide, by decide, by decide, rfl, h.1, by decide⟩

/-! ## Theorems: two moving contacts with the same delta in `float` arithmetic -/

/-- A rational that is half an `int` of magnitude below `2 ^ 24` is a `float`. -/
theorem round32_of_half (q : ℚ) (m : Int) (hq : q = (m : ℚ) / 2) (hm : |m| < 16777216) :
    round32 q = (m : ℚ) / 2 := by
  rw [hq]; exact round32_half m hm

/-- A rational that is an `int` of magnitude at most `2 ^ 24` is a `float`. -/
theorem round32_of_int (q : ℚ) (m : Int) (hq : q = (m : ℚ)) (hm : |m| ≤ 16777216) :
    round32 q = (m : ℚ) := by
  rw [hq]; exact round32_int m hm


end Kobo
